import Mathlib

/-!
# Vectorized CMRG (MRG32k3a on vector lanes): model of `VectorizedCMRG.c`

The C code keeps every state value in an IEEE-754 binary64 `double`.
The model is built as follows.

* A `double` holding a whole number is modelled by that number as an `Int`.
  Every arithmetic operation on such values (`vec_mult`, `vec_sub`, `vec_add`,
  and the scalar `*`, `+`, `-` of the initialisation code) rounds its exact
  result to 53 significant bits, ties to even (`rnd`, built on `round53`), as
  binary64 arithmetic does.  Exponent range (overflow, subnormals) is not
  modelled; no value of the program comes near it.
* The three constants that are not whole numbers, `1.0/4294967087.0`,
  `1.0/4294944443.0` and `1.0/4294967088.0`, are modelled by their exact
  binary64 values, written as numerators over `2^84`.  A product of such a
  constant with a whole number is modelled by its numerator over `2^84`
  (`vec_mult_frac`), again rounded to 53 significant bits.
* `fmod` is exact in binary64, so on whole numbers it is the truncated
  remainder `Int.tmod`.
* The conversion `(int)` / `cvttpd_epi32` is modelled as truncation toward
  zero; its 32-bit range is not part of `vec_cast_int`, and `int32_of_trunc`
  states it separately (the truncated values of the kernel fit).
* Stream counts and group indices (`int`) are modelled as `Nat`s.  The buffer
  index `state_idx(i, j)` of the initialisation loop is formed in `uint32_t`
  and is taken modulo `2^32`; the offset `vec_idx(stream_group)` is an `int`
  product and is wrapped to 32 bits, two's complement (`int32_wrap`).  C leaves
  overflow of `int` undefined; the model takes the wrap-around of the machine
  instruction.  The buffer is indexed by `Nat`; a call whose pointer offset is
  negative reaches memory before the block and has no result in the model.
* The comparison masks are modelled as one `Bool` per lane and `vec_and` as the
  corresponding select; the bit patterns of the scalar backend's mask are
  treated by `scalar_mask_bits` and `and_doubles`.
* The heap block behind `rstatv` is tracked by `BufState` next to the globals.

The reduction `x - (int)(x * (1/m)) * m` of the kernel is exact for the modulus
`m1`, whose binary64 reciprocal is rounded upward (`lane_A_exact`).  For `m2` the
reciprocal is rounded downward, and for some positive multiples `x = k * m2`
the product `x * (1/m2)` rounds below `k`; the kernel then stores `m2` instead
of `0` (`lane_B_cases`, `defect_reduce`).
-/

namespace VectorizedCMRG

/-! ## binary64 rounding -/

/-- Helper of `bitLen`: number of binary digits, by repeated halving. -/
def bitLenAux : Nat → Nat → Nat
  | 0, _ => 0
  | fuel + 1, n => if n = 0 then 0 else bitLenAux fuel (n / 2) + 1

/-- Number of binary digits of `n` (`0` for `n = 0`). -/
def bitLen (n : Nat) : Nat := bitLenAux n n

/-- Round a natural number to 53 significant bits, round-to-nearest, ties to
even: the binary64 rounding of the real number `n * 2^e` is
`round53 n * 2^e` (for every exponent `e` in the normal range). -/
def round53 (n : Nat) : Nat :=
  let sh := bitLen n - 53
  let q := n / 2 ^ sh
  let r := n % 2 ^ sh
  if 2 * r < 2 ^ sh then q * 2 ^ sh
  else if 2 ^ sh < 2 * r then (q + 1) * 2 ^ sh
  else if q % 2 = 0 then q * 2 ^ sh else (q + 1) * 2 ^ sh

/-- Binary64 rounding of a whole-number result. -/
def rnd (x : Int) : Int := Int.sign x * (round53 x.natAbs : Int)

/-- C `fmod` on whole-number doubles: exact, result has the sign of `x`. -/
def fmod (x y : Int) : Int := Int.tmod x y

/-! ## Build configuration and lane abstraction -/

/-- The three build configurations: no define, `CMRG_SSE`, `CMRG_AVX`. -/
inductive Backend where
  | scalar
  | sse
  | avx
  deriving DecidableEq, Repr

/-- Macro `VECTOR_WIDTH`. -/
def VECTOR_WIDTH : Backend → Nat
  | .scalar => 64
  | .sse => 128
  | .avx => 256

/-- Macro `NUM_ELEMENTS`: the lane width `W`. -/
def NUM_ELEMENTS (b : Backend) : Nat := VECTOR_WIDTH b / (8 * 8)

/-- A `_VEC_TYPE` value all of whose lanes hold whole numbers. -/
abbrev VEC (W : Nat) := Fin W → Int

/-- A `_VEC_TYPE` value with fractional lanes, given by numerators over `2^84`. -/
abbrev FRAC (W : Nat) := Fin W → Int

/-- A `_MASK_TYPE` value: one truth value per lane. -/
abbrev MASK (W : Nat) := Fin W → Bool

/-- Macro `vec_set1`. -/
def vec_set1 {W : Nat} (x : Int) : VEC W := fun _ => x

/-- Macro `vec_mult` on whole-number lanes. -/
def vec_mult {W : Nat} (x y : VEC W) : VEC W := fun l => rnd (x l * y l)

/-- Macro `vec_sub`. -/
def vec_sub {W : Nat} (x y : VEC W) : VEC W := fun l => rnd (x l - y l)

/-- Macro `vec_add`. -/
def vec_add {W : Nat} (x y : VEC W) : VEC W := fun l => rnd (x l + y l)

/-- Macro `vec_mult` with a broadcast fractional constant `c / 2^84` as first
argument: the rounded product, as a numerator over `2^84`. -/
def vec_mult_frac {W : Nat} (c : Nat) (x : VEC W) : FRAC W :=
  fun l => Int.sign (x l) * (round53 (c * (x l).natAbs) : Int)

/-- Macro `vec_cast_int`: truncation toward zero of the value `y / 2^84`. -/
def vec_cast_int {W : Nat} (y : FRAC W) : VEC W := fun l => Int.tdiv (y l) (2 ^ 84)

/-- Macro `vec_cast_double`: exact. -/
def vec_cast_double {W : Nat} (k : VEC W) : VEC W := k

/-- Macro `vec_less_than`. -/
def vec_less_than {W : Nat} (x y : VEC W) : MASK W := fun l => decide (x l < y l)

/-- Macro `vec_less_equal_than`. -/
def vec_less_equal_than {W : Nat} (x y : VEC W) : MASK W := fun l => decide (x l ≤ y l)

/-- Macro `vec_and` applied to a comparison mask and a constant. -/
def vec_and {W : Nat} (mask : MASK W) (y : VEC W) : VEC W :=
  fun l => if mask l then y l else 0

/-- Conversion to the C type `int` (32 bits, two's complement), applied to the
result of `int` arithmetic.  C leaves signed overflow undefined; the model
takes the wrap-around of the machine instruction. -/
def int32_wrap (x : Int) : Int := (x + 2147483648) % 4294967296 - 2147483648

/-- Macro `state_idx` as evaluated on the `uint32_t` variables `i`, `j` of
`vectorized_cmrg_init`.  The scalar build uses `stream*6 + num`, formed in
`uint32_t`, that is, modulo `2^32`.  The vector builds use
`stream % W + 6*W*(int)floor(stream / W) + num*W`: the quotient `stream / W`
is an unsigned division, the product `6*W*(int)...` is an `int` product, and
the sum is formed in `uint32_t`, the `int` product being converted to
`uint32_t` when it is added. -/
def state_idx (b : Backend) (stream num : Nat) : Nat :=
  match b with
  | .scalar => (stream * 6 + num) % 4294967296
  | _ => ((((stream % NUM_ELEMENTS b : Nat) : Int)
            + int32_wrap (6 * (NUM_ELEMENTS b : Int) * ((stream / NUM_ELEMENTS b : Nat) : Int))
            + ((num * NUM_ELEMENTS b : Nat) : Int)) % 4294967296).toNat

/-- Macro `vec_idx` as evaluated on the `int` argument of
`vectorized_cmrg_rand`: the `int` product `stream_group * 6`. -/
def vec_idx (stream_group : Nat) : Int := int32_wrap ((stream_group : Int) * 6)

/-- Macro `__CMRG_ZM1`. -/
def __CMRG_ZM1 : Int := 4294967087

/-- Macro `__CMRG_ZM2`. -/
def __CMRG_ZM2 : Int := 4294944443

/-- Macro `__CMRG_RM1`, the binary64 value of `1.0 / 4294967087.0`
(`0x1.000000d10000bp-32`), as numerator over `2^84`. -/
def __CMRG_RM1 : Nat := 4503599846522891

/-- Macro `__CMRG_RM2`, the binary64 value of `1.0 / 4294944443.0`
(`0x1.000059451f211p-32`), as numerator over `2^84`. -/
def __CMRG_RM2 : Nat := 4503623590605329

/-- The binary64 value of `1.0/4294967088.0` (`0x1.000000d00000bp-32`) that
`vectorized_cmrg_init` stores in `rscale_vec`, as numerator over `2^84`. -/
def RSCALE : Nat := 4503599845474315

/-! ## Recurrence kernel -/

/-- Lines 109-177 of `vectorized_cmrg_rand_group`: the state update and the
combined residue `z` before scaling. -/
def rand_group_core {W : Nat} (rstate : Fin 6 → VEC W) : (Fin 6 → VEC W) × VEC W :=
  let scalar_vec_multiplier1 : VEC W := vec_set1 1403580
  let scalar_vec_multiplier2 : VEC W := vec_set1 810728
  let scalar_vec_multiplier3 : VEC W := vec_set1 527612
  let scalar_vec_multiplier4 : VEC W := vec_set1 1370589
  let RM1 : Nat := __CMRG_RM1
  let RM2 : Nat := __CMRG_RM2
  let ZM1 : VEC W := vec_set1 __CMRG_ZM1
  let ZM2 : VEC W := vec_set1 __CMRG_ZM2
  let zero : VEC W := vec_set1 0
  let correction1 : VEC W := vec_set1 4294967087
  let correction2 : VEC W := vec_set1 4294944443
  let xx1 := vec_mult scalar_vec_multiplier1 (rstate 1)
  let temp := vec_mult scalar_vec_multiplier2 (rstate 0)
  let xx1 := vec_sub xx1 temp
  let rstate := Function.update rstate 0 (rstate 1)
  let rstate := Function.update rstate 1 (rstate 2)
  let temp := vec_cast_double (vec_cast_int (vec_mult_frac RM1 xx1))
  let temp := vec_mult ZM1 temp
  let rstate := Function.update rstate 2 (vec_sub xx1 temp)
  let mask := vec_less_than (rstate 2) zero
  let temp := vec_and mask correction1
  let rstate := Function.update rstate 2 (vec_add (rstate 2) temp)
  let xx1 := vec_mult scalar_vec_multiplier3 (rstate 5)
  let temp := vec_mult scalar_vec_multiplier4 (rstate 3)
  let xx1 := vec_sub xx1 temp
  let rstate := Function.update rstate 3 (rstate 4)
  let rstate := Function.update rstate 4 (rstate 5)
  let temp := vec_cast_double (vec_cast_int (vec_mult_frac RM2 xx1))
  let temp := vec_mult ZM2 temp
  let rstate := Function.update rstate 5 (vec_sub xx1 temp)
  let mask := vec_less_than (rstate 5) zero
  let temp := vec_and mask correction2
  let rstate := Function.update rstate 5 (vec_add (rstate 5) temp)
  let xx1 := vec_sub (rstate 2) (rstate 5)
  let temp := vec_cast_double (vec_cast_int (vec_mult_frac RM1 xx1))
  let temp := vec_mult ZM1 temp
  let z := vec_sub xx1 temp
  let mask := vec_less_equal_than z zero
  let temp := vec_and mask correction1
  let z := vec_add z temp
  (rstate, z)

/-- Function `vectorized_cmrg_rand_group`: the new group state and the returned
vector `vec_mult(z, rscale_vec)`, each lane as an exact rational (the rounded
binary64 product). `rscale_vec` is the numerator over `2^84` of the scale. -/
def vectorized_cmrg_rand_group {W : Nat} (rscale_vec : Nat) (rstate : Fin 6 → VEC W) :
    (Fin 6 → VEC W) × (Fin W → ℚ) :=
  let p := rand_group_core rstate
  (p.1, fun l => ((vec_mult_frac rscale_vec p.2 l : Int) : ℚ) / 2 ^ 84)

/-! ## Initialisation -/

/-- Function `__vectorized_cmrg_init_mulmod`. -/
def __vectorized_cmrg_init_mulmod (a s zm : Int) : Int :=
  let two17 : Int := 131072
  let asmall := fmod a two17
  let abig := Int.tdiv (rnd (a - asmall)) two17
  let u := rnd (abig * s)
  let u := rnd (rnd (fmod u zm * two17) + rnd (asmall * s))
  fmod u zm

/-- Function `__vectorized_cmrg_init_rskip`. -/
def __vectorized_cmrg_init_rskip (rstate : Fin 6 → Int) : Fin 6 → Int :=
  let xx1 := __vectorized_cmrg_init_mulmod (rstate 0) 2427906178 4294967087
  let xx2 := __vectorized_cmrg_init_mulmod (rstate 1) 3580155704 4294967087
  let xx3 := __vectorized_cmrg_init_mulmod (rstate 2) 949770784 4294967087
  let yy1 := fmod (rnd (rnd (xx1 + xx2) + xx3)) 4294967087
  let xx1 := __vectorized_cmrg_init_mulmod (rstate 0) 226153695 4294967087
  let xx2 := __vectorized_cmrg_init_mulmod (rstate 1) 1230515664 4294967087
  let xx3 := __vectorized_cmrg_init_mulmod (rstate 2) 3580155704 4294967087
  let yy2 := fmod (rnd (rnd (xx1 + xx2) + xx3)) 4294967087
  let xx1 := __vectorized_cmrg_init_mulmod (rstate 0) 1988835001 4294967087
  let xx2 := __vectorized_cmrg_init_mulmod (rstate 1) 986791581 4294967087
  let xx3 := __vectorized_cmrg_init_mulmod (rstate 2) 1230515664 4294967087
  let yy3 := fmod (rnd (rnd (xx1 + xx2) + xx3)) 4294967087
  let rstate := Function.update rstate 0 yy1
  let rstate := Function.update rstate 1 yy2
  let rstate := Function.update rstate 2 yy3
  let xx1 := __vectorized_cmrg_init_mulmod (rstate 3) 1464411153 4294944443
  let xx2 := __vectorized_cmrg_init_mulmod (rstate 4) 277697599 4294944443
  let xx3 := __vectorized_cmrg_init_mulmod (rstate 5) 1610723613 4294944443
  let yy1 := fmod (rnd (rnd (xx1 + xx2) + xx3)) 4294944443
  let xx1 := __vectorized_cmrg_init_mulmod (rstate 3) 32183930 4294944443
  let xx2 := __vectorized_cmrg_init_mulmod (rstate 4) 1464411153 4294944443
  let xx3 := __vectorized_cmrg_init_mulmod (rstate 5) 1022607788 4294944443
  let yy2 := fmod (rnd (rnd (xx1 + xx2) + xx3)) 4294944443
  let xx1 := __vectorized_cmrg_init_mulmod (rstate 3) 2824425944 4294944443
  let xx2 := __vectorized_cmrg_init_mulmod (rstate 4) 32183930 4294944443
  let xx3 := __vectorized_cmrg_init_mulmod (rstate 5) 2093834863 4294944443
  let yy3 := fmod (rnd (rnd (xx1 + xx2) + xx3)) 4294944443
  let rstate := Function.update rstate 3 yy1
  let rstate := Function.update rstate 4 yy2
  let rstate := Function.update rstate 5 yy3
  rstate

/-- The globals of the translation unit: the buffer pointer `rstatv` (`none` is
the null pointer, `some buf` a pointer to a block with contents `buf`),
`vec_cmrg_num_streams`, and `rscale_vec` (numerator over `2^84`). -/
structure Gen where
  /-- Global `rstatv`. -/
  rstatv : Option (Nat → Int)
  /-- Global `vec_cmrg_num_streams`. -/
  vec_cmrg_num_streams : Nat
  /-- Global `rscale_vec`. -/
  rscale_vec : Nat

/-- The zero-initialised globals at program start. -/
def Gen.start : Gen := ⟨none, 0, 0⟩

/-- Inner loop of `vectorized_cmrg_init` (`for j`): store the six values of
`rseed` into the slots `state_idx(i, j)` of stream `i`, in the order
`j = 0 .. 5`. -/
def init_store (b : Backend) (i : Nat) (rseed : Fin 6 → Int) (buf : Nat → Int) : Nat → Int :=
  (List.finRange 6).foldl (fun m j => Function.update m (state_idx b i j.val) (rseed j)) buf

/-- Outer loop of `vectorized_cmrg_init` (`for i`), run for `i = 0 .. N-1`:
buffer contents and working seed after the loop.  The loop variable is a
`uint32_t` compared with the `int` stream count `N`, so `i` itself stays below
`2^31`; the index `state_idx(i, j)` it is turned into wraps modulo `2^32`, and
a later store to the same index replaces an earlier one. -/
def init_loop (b : Backend) (N : Nat) (buf : Nat → Int) (rseed : Fin 6 → Int) :
    (Nat → Int) × (Fin 6 → Int) :=
  (List.range N).foldl
    (fun p i => (init_store b i p.2 p.1, __vectorized_cmrg_init_rskip p.2)) (buf, rseed)

/-- The inner loop of `vectorized_cmrg_init` with the type of the stored values
left open: the stores do not depend on what a `double` holds. -/
def init_store_over {α : Type} (b : Backend) (i : Nat) (rseed : Fin 6 → α) (buf : Nat → α) :
    Nat → α :=
  (List.finRange 6).foldl (fun m j => Function.update m (state_idx b i j.val) (rseed j)) buf

/-- The outer loop of `vectorized_cmrg_init` with the type of the stored values
and the function applied to the working seed left open; `init_loop` is the
instance for whole-number values and `__vectorized_cmrg_init_rskip`. -/
def init_loop_over {α : Type} (skip : (Fin 6 → α) → Fin 6 → α) (b : Backend) (N : Nat)
    (buf : Nat → α) (rseed : Fin 6 → α) : (Nat → α) × (Fin 6 → α) :=
  (List.range N).foldl (fun p i => (init_store_over b i p.2 p.1, skip p.2)) (buf, rseed)

/-- Function `vectorized_cmrg_init`. The argument `alloc` is the outcome of
`posix_memalign`: `some mem` when it succeeds and hands out a block with
(indeterminate) contents `mem`, `none` when it fails and leaves `rstatv` as it
was. Returns the new globals and the returned `int`. -/
def vectorized_cmrg_init (b : Backend) (alloc : Option (Nat → Int)) (num_streams : Nat)
    (seed : Int) (g : Gen) : Gen × Nat :=
  if num_streams = 0 then (g, 0)
  else
    let N := ((num_streams + NUM_ELEMENTS b - 1) / NUM_ELEMENTS b) * NUM_ELEMENTS b
    let rseed : Fin 6 → Int := fun _ => seed
    let p : Option (Nat → Int) :=
      match alloc with
      | some mem => some mem
      | none => g.rstatv
    match p with
    | none => ({ g with vec_cmrg_num_streams := N }, 0)
    | some buf =>
      ({ rstatv := some (init_loop b N buf rseed).1
         vec_cmrg_num_streams := N
         rscale_vec := RSCALE }, N / NUM_ELEMENTS b)

/-! ## Generation -/

/-- The six vectors `rstate[0..5]` seen through the pointer
`((_VEC_TYPE*)rstatv) + base`: vector `k` covers the doubles
`(base + k) * W .. (base + k) * W + W - 1`. -/
def load_group (W : Nat) (base : Nat) (buf : Nat → Int) : Fin 6 → VEC W :=
  fun k l => buf ((base + k.val) * W + l.val)

/-- Writing six vectors back through the pointer `((_VEC_TYPE*)rstatv) + base`. -/
def store_group (W : Nat) (base : Nat) (vals : Fin 6 → VEC W) (buf : Nat → Int) : Nat → Int :=
  fun p =>
    if h : 0 < W ∧ base * W ≤ p ∧ p < (base + 6) * W then
      vals ⟨(p - base * W) / W, by
          have h1 := h.1
          have h3 := h.2.2
          rw [Nat.div_lt_iff_lt_mul h1]
          have : (base + 6) * W = base * W + 6 * W := by ring
          omega⟩
        ⟨(p - base * W) % W, Nat.mod_lt _ h.1⟩
    else buf p

/-- Function `vectorized_cmrg_rand`: `none` when `rstatv` is the null pointer
or when the offset `vec_idx(stream_group)` is negative (the pointer then lies
before the block), otherwise the new globals and the returned vector. -/
def vectorized_cmrg_rand (b : Backend) (stream_group : Nat) (g : Gen) :
    Option (Gen × (Fin (NUM_ELEMENTS b) → ℚ)) :=
  match g.rstatv with
  | none => none
  | some buf =>
    if vec_idx stream_group < 0 then none
    else
      let base := (vec_idx stream_group).toNat
      let r := vectorized_cmrg_rand_group g.rscale_vec (load_group (NUM_ELEMENTS b) base buf)
      some ({ g with rstatv := some (store_group (NUM_ELEMENTS b) base r.1 buf) }, r.2)

/-- A natural number with at most 53 significant bits (a binary64 significand
times a power of two). -/
def Rep53 (r : Nat) : Prop := ∃ a j : Nat, a < 2 ^ 53 ∧ r = a * 2 ^ j

/-- A sequence of calls `vectorized_cmrg_rand(x)` for the group indices `x` of
the list, in order, discarding the returned vectors. -/
def run_calls (b : Backend) : List Nat → Gen → Option Gen
  | [], g => some g
  | x :: xs, g =>
    match vectorized_cmrg_rand b x g with
    | none => none
    | some r => run_calls b xs r.1

/-- The six state values of logical stream `i` as stored in the buffer, viewed
as a group state of lane width 1. -/
def stream_state (b : Backend) (buf : Nat → Int) (i : Nat) : Fin 6 → VEC 1 :=
  fun c _ => buf (state_idx b i c.val)

/-- One lane of the truncate-and-correct reduction of the kernel with the strict
correction (source lines 135-143 and 156-164): `RM` is the reciprocal constant
(numerator over `2^84`), `m` the modulus, `x` the value to reduce. -/
def reduce_lt (RM : Nat) (m x : Int) : Int :=
  let k := Int.tdiv (Int.sign x * (round53 (RM * x.natAbs) : Int)) (2 ^ 84)
  let r := rnd (x - rnd (m * k))
  rnd (r + (if r < 0 then m else 0))

/-- One lane of the reduction of the combination step, correcting on `≤ 0`
(source lines 169-177). -/
def reduce_le (RM : Nat) (m x : Int) : Int :=
  let k := Int.tdiv (Int.sign x * (round53 (RM * x.natAbs) : Int)) (2 ^ 84)
  let r := rnd (x - rnd (m * k))
  rnd (r + (if r ≤ 0 then m else 0))

/-- One lane of `xx1` for component A (source lines 124-127). -/
def lane_xA (s0 s1 : Int) : Int := rnd (rnd (1403580 * s1) - rnd (810728 * s0))

/-- One lane of `xx1` for component B (source lines 145-148). -/
def lane_xB (s3 s5 : Int) : Int := rnd (rnd (527612 * s5) - rnd (1370589 * s3))

/-- One output coordinate of `__vectorized_cmrg_init_rskip`: three `mulmod`
calls and the modular sum. -/
def rskip_row (m c0 c1 c2 s0 s1 s2 : Int) : Int :=
  fmod (rnd (rnd (__vectorized_cmrg_init_mulmod s0 c0 m + __vectorized_cmrg_init_mulmod s1 c1 m)
    + __vectorized_cmrg_init_mulmod s2 c2 m)) m

/-- The exact linear combination `(c0*s0 + c1*s1 + c2*s2) mod m`. -/
def lin3 (m c0 c1 c2 s0 s1 s2 : Int) : Int := (c0 * s0 + c1 * s1 + c2 * s2) % m

/-- The modulus of state component `c`: `m1` for components 0..2, `m2` for 3..5. -/
def modulus (c : Fin 6) : Int := if c.val < 3 then __CMRG_ZM1 else __CMRG_ZM2

/-- The stored-state invariant of one stream: every value is non-negative and
below its modulus. -/
def ValidState (s : Fin 6 → Int) : Prop := ∀ c : Fin 6, 0 ≤ s c ∧ s c < modulus c

/-- A valid lane state on which the component-B reduction of the kernel returns
the modulus: `527612 * 142067 - 1370589 * 10818 = 14 * 4294944443`. -/
def defect_state : Fin 6 → Int := ![1, 2, 3, 10818, 5, 142067]

/-! ## Exact recurrence and jump matrices -/

/-- A 3-by-3 integer matrix, rows `(a b c)`, `(d e f)`, `(g h i)`. -/
structure Mat3 where
  /-- Entry (0,0). -/
  a : Int
  /-- Entry (0,1). -/
  b : Int
  /-- Entry (0,2). -/
  c : Int
  /-- Entry (1,0). -/
  d : Int
  /-- Entry (1,1). -/
  e : Int
  /-- Entry (1,2). -/
  f : Int
  /-- Entry (2,0). -/
  g : Int
  /-- Entry (2,1). -/
  h : Int
  /-- Entry (2,2). -/
  i : Int
  deriving DecidableEq, Repr

/-- Matrix product with every entry reduced modulo `m`. -/
def Mat3.mulMod (m : Int) (P Q : Mat3) : Mat3 :=
  ⟨(P.a * Q.a + P.b * Q.d + P.c * Q.g) % m, (P.a * Q.b + P.b * Q.e + P.c * Q.h) % m,
   (P.a * Q.c + P.b * Q.f + P.c * Q.i) % m,
   (P.d * Q.a + P.e * Q.d + P.f * Q.g) % m, (P.d * Q.b + P.e * Q.e + P.f * Q.h) % m,
   (P.d * Q.c + P.e * Q.f + P.f * Q.i) % m,
   (P.g * Q.a + P.h * Q.d + P.i * Q.g) % m, (P.g * Q.b + P.h * Q.e + P.i * Q.h) % m,
   (P.g * Q.c + P.h * Q.f + P.i * Q.i) % m⟩

/-- The `2^k`-th power of `P` modulo `m`, by `k` squarings. -/
def Mat3.pow2 (m : Int) (P : Mat3) : Nat → Mat3
  | 0 => P
  | k + 1 => Mat3.mulMod m (Mat3.pow2 m P k) (Mat3.pow2 m P k)

/-- One-step matrix of the component-A recurrence the kernel implements:
`(a0, a1, a2) ↦ (a1, a2, 1403580*a1 - 810728*a0)`. -/
def STEP_A : Mat3 := ⟨0, 1, 0, 0, 0, 1, -810728, 1403580, 0⟩

/-- One-step matrix of the component-B recurrence the kernel implements:
`(b0, b1, b2) ↦ (b1, b2, 527612*b2 - 1370589*b0)`. -/
def STEP_B : Mat3 := ⟨0, 1, 0, 0, 0, 1, -1370589, 0, 527612⟩

/-- The nine component-A coefficients of `__vectorized_cmrg_init_rskip`. -/
def JUMP_A : Mat3 :=
  ⟨2427906178, 3580155704, 949770784, 226153695, 1230515664, 3580155704,
   1988835001, 986791581, 1230515664⟩

/-- The nine component-B coefficients of `__vectorized_cmrg_init_rskip`. -/
def JUMP_B : Mat3 :=
  ⟨1464411153, 277697599, 1610723613, 32183930, 1464411153, 1022607788,
   2824425944, 32183930, 2093834863⟩

/-- The linear map on 6-value states given by a matrix modulo `m1` on components
0..2 and a matrix modulo `m2` on components 3..5. -/
def jump (PA PB : Mat3) (s : Fin 6 → Int) : Fin 6 → Int :=
  ![lin3 4294967087 PA.a PA.b PA.c (s 0) (s 1) (s 2),
    lin3 4294967087 PA.d PA.e PA.f (s 0) (s 1) (s 2),
    lin3 4294967087 PA.g PA.h PA.i (s 0) (s 1) (s 2),
    lin3 4294944443 PB.a PB.b PB.c (s 3) (s 4) (s 5),
    lin3 4294944443 PB.d PB.e PB.f (s 3) (s 4) (s 5),
    lin3 4294944443 PB.g PB.h PB.i (s 3) (s 4) (s 5)]

/-- The state update of the kernel at lane width 1: the state part of
`vectorized_cmrg_rand_group` on a one-lane group. -/
def kernel_step (s : Fin 6 → Int) : Fin 6 → Int :=
  fun c => (rand_group_core (W := 1) (fun k _ => s k)).1 c 0

/-- The range the kernel actually maintains: component A values in `[0, m1)`,
component B values in `[0, m2]`. -/
def ExtValid (s : Fin 6 → Int) : Prop :=
  ∀ c : Fin 6, 0 ≤ s c ∧ s c ≤ modulus c ∧ (c.val < 3 → s c < modulus c)

/-- The residues of the six state values modulo their moduli. -/
def residues (s : Fin 6 → Int) : Fin 6 → Int := fun c => s c % modulus c

/-- A valid state that `__vectorized_cmrg_init_rskip` maps to `defect_state`. -/
def jump_source : Fin 6 → Int :=
  ![3875214543, 445940047, 185070744, 2313646544, 1299859205, 3567576501]

/-- The exact one-step successor of `jump_source`: a valid state from which
`2^127 - 1` kernel steps lead to `defect_state`. -/
def failing_state : Fin 6 → Int :=
  ![445940047, 185070744, 400933337, 1299859205, 3567576501, 174039991]

/-- Inverse modulo `m1` of the one-step matrix of component A. -/
def UNSTEP_A : Mat3 := ⟨184888585, 0, 1945170933, 1, 0, 0, 0, 1, 0⟩

/-- Inverse modulo `m2` of the one-step matrix of component B. -/
def UNSTEP_B : Mat3 := ⟨0, 360363334, 4225571728, 1, 0, 0, 0, 1, 0⟩

/-! ## Traces of intermediate values -/

/-- The value `(int)(x * RM)` of one lane (source lines 136, 157, 170): the
rounded product with the reciprocal constant, truncated toward zero. -/
def quot_cast (RM : Nat) (x : Int) : Int :=
  Int.tdiv (Int.sign x * (round53 (RM * x.natAbs) : Int)) (2 ^ 84)

/-- The conversion to a 32-bit signed integer as the x86 conversions
(`cvttsd2si`, `cvttpd_epi32`) perform it on an already truncated value: the
value itself when it fits, the "integer indefinite" `-2^31` otherwise. -/
def int32_of_trunc (k : Int) : Int :=
  if -(2 ^ 31) ≤ k ∧ k < 2 ^ 31 then k else -(2 ^ 31)

/-- Every whole-number value one lane of `vectorized_cmrg_rand_group` forms, in
source order. Each field is the exact result of its operation applied to the
(rounded) values computed before it; the value the code holds is its `rnd`. -/
structure LaneTrace where
  /-- Product `1403580.0 * rstate[1]`. -/
  p1 : Int
  /-- Product `810728.0 * rstate[0]`. -/
  p2 : Int
  /-- Difference `xx1` of component A. -/
  xA : Int
  /-- Truncated quotient `(int)(xx1 * RM1)` of component A. -/
  kA : Int
  /-- Product `ZM1 * k` of component A. -/
  mA : Int
  /-- Remainder `xx1 - ZM1 * k` of component A. -/
  rA : Int
  /-- Corrected remainder of component A, the new `rstate[2]`. -/
  cA : Int
  /-- Product `527612.0 * rstate[5]`. -/
  p3 : Int
  /-- Product `1370589.0 * rstate[3]`. -/
  p4 : Int
  /-- Difference `xx1` of component B. -/
  xB : Int
  /-- Truncated quotient `(int)(xx1 * RM2)` of component B. -/
  kB : Int
  /-- Product `ZM2 * k` of component B. -/
  mB : Int
  /-- Remainder `xx1 - ZM2 * k` of component B. -/
  rB : Int
  /-- Corrected remainder of component B, the new `rstate[5]`. -/
  cB : Int
  /-- Combination difference `rstate[2] - rstate[5]`. -/
  d : Int
  /-- Truncated quotient `(int)(xx1 * RM1)` of the combination step. -/
  kZ : Int
  /-- Product `ZM1 * k` of the combination step. -/
  mZ : Int
  /-- Remainder of the combination step. -/
  rZ : Int
  /-- Corrected combined residue `z`. -/
  z : Int

/-- The trace of one lane of `vectorized_cmrg_rand_group` on the lane state `s`. -/
def lane_trace (s : Fin 6 → Int) : LaneTrace :=
  let p1 := 1403580 * s 1
  let p2 := 810728 * s 0
  let xA := rnd p1 - rnd p2
  let kA := quot_cast __CMRG_RM1 (rnd xA)
  let mA := __CMRG_ZM1 * kA
  let rA := rnd xA - rnd mA
  let cA := rnd rA + (if rnd rA < 0 then 4294967087 else 0)
  let p3 := 527612 * s 5
  let p4 := 1370589 * s 3
  let xB := rnd p3 - rnd p4
  let kB := quot_cast __CMRG_RM2 (rnd xB)
  let mB := __CMRG_ZM2 * kB
  let rB := rnd xB - rnd mB
  let cB := rnd rB + (if rnd rB < 0 then 4294944443 else 0)
  let d := rnd cA - rnd cB
  let kZ := quot_cast __CMRG_RM1 (rnd d)
  let mZ := __CMRG_ZM1 * kZ
  let rZ := rnd d - rnd mZ
  let z := rnd rZ + (if rnd rZ ≤ 0 then 4294967087 else 0)
  { p1 := p1, p2 := p2, xA := xA, kA := kA, mA := mA, rA := rA, cA := cA,
    p3 := p3, p4 := p4, xB := xB, kB := kB, mB := mB, rB := rB, cB := cB,
    d := d, kZ := kZ, mZ := mZ, rZ := rZ, z := z }

/-- The whole-number intermediates of a lane trace named by the exactness
requirement: the four products, the two differences, the three
quotient-times-modulus products, the remainders before and after correction, and
the combination difference. -/
def LaneTrace.values (t : LaneTrace) : List Int :=
  [t.p1, t.p2, t.xA, t.mA, t.rA, t.cA, t.p3, t.p4, t.xB, t.mB, t.rB, t.cB,
   t.d, t.mZ, t.rZ, t.z]

/-- Every whole-number value `__vectorized_cmrg_init_mulmod(a, s, zm)` forms, in
source order: `asmall`, `a - asmall`, `abig`, `abig * s`, `fmod(u, zm)`,
`fmod(u, zm) * two17`, `asmall * s`, the sum `u`, and the result. Each is the
exact result of its operation on the (rounded) values computed before it. -/
def mulmod_trace (a s zm : Int) : List Int :=
  let two17 : Int := 131072
  let asmall := fmod a two17
  let diff := a - asmall
  let abig := Int.tdiv (rnd diff) two17
  let prod := abig * s
  let red := fmod (rnd prod) zm
  let hi := red * two17
  let lo := asmall * s
  let u := rnd hi + rnd lo
  [asmall, diff, abig, prod, red, hi, lo, u, fmod (rnd u) zm]

/-- The 18 calls `__vectorized_cmrg_init_mulmod(a, s, zm)` made by
`__vectorized_cmrg_init_rskip(rstate)`, as triples `(a, s, zm)` in source order. -/
def rskip_calls (rstate : Fin 6 → Int) : List (Int × Int × Int) :=
  [(rstate 0, 2427906178, 4294967087), (rstate 1, 3580155704, 4294967087),
   (rstate 2, 949770784, 4294967087),
   (rstate 0, 226153695, 4294967087), (rstate 1, 1230515664, 4294967087),
   (rstate 2, 3580155704, 4294967087),
   (rstate 0, 1988835001, 4294967087), (rstate 1, 986791581, 4294967087),
   (rstate 2, 1230515664, 4294967087),
   (rstate 3, 1464411153, 4294944443), (rstate 4, 277697599, 4294944443),
   (rstate 5, 1610723613, 4294944443),
   (rstate 3, 32183930, 4294944443), (rstate 4, 1464411153, 4294944443),
   (rstate 5, 1022607788, 4294944443),
   (rstate 3, 2824425944, 4294944443), (rstate 4, 32183930, 4294944443),
   (rstate 5, 2093834863, 4294944443)]

/-- The sums `xx1 + xx2` and `xx1 + xx2 + xx3` formed for one output coordinate
of `__vectorized_cmrg_init_rskip`, as exact values. -/
def rskip_row_sums (m c0 c1 c2 s0 s1 s2 : Int) : List Int :=
  [__vectorized_cmrg_init_mulmod s0 c0 m + __vectorized_cmrg_init_mulmod s1 c1 m,
   rnd (__vectorized_cmrg_init_mulmod s0 c0 m + __vectorized_cmrg_init_mulmod s1 c1 m)
     + __vectorized_cmrg_init_mulmod s2 c2 m]

/-- All sums formed by `__vectorized_cmrg_init_rskip(rstate)`, in source order. -/
def rskip_sums (rstate : Fin 6 → Int) : List Int :=
  rskip_row_sums 4294967087 2427906178 3580155704 949770784 (rstate 0) (rstate 1) (rstate 2)
  ++ rskip_row_sums 4294967087 226153695 1230515664 3580155704 (rstate 0) (rstate 1) (rstate 2)
  ++ rskip_row_sums 4294967087 1988835001 986791581 1230515664 (rstate 0) (rstate 1) (rstate 2)
  ++ rskip_row_sums 4294944443 1464411153 277697599 1610723613 (rstate 3) (rstate 4) (rstate 5)
  ++ rskip_row_sums 4294944443 32183930 1464411153 1022607788 (rstate 3) (rstate 4) (rstate 5)
  ++ rskip_row_sums 4294944443 2824425944 32183930 2093834863 (rstate 3) (rstate 4) (rstate 5)

/-! ## Bit patterns of the scalar mask -/

/-- The IEEE-754 binary64 bit pattern of a non-negative whole-number double
`n < 2^53`: biased exponent `1023 + e` and fraction `n * 2^(52 - e) - 2^52`
where `2^e ≤ n < 2^(e+1)`; `+0.0` has pattern `0`. -/
def double_bits (n : Nat) : Nat :=
  if n = 0 then 0
  else (1023 + (bitLen n - 1)) * 2 ^ 52 + (n * 2 ^ (52 - (bitLen n - 1)) - 2 ^ 52)

/-- The bit pattern of `-DBL_MAX`: sign bit set, exponent `0x7FE`, fraction all
ones. -/
def NEG_DBL_MAX_bits : Nat := 0xFFEFFFFFFFFFFFFF

/-- The scalar macros `vec_less_than` / `vec_less_equal_than` as bit patterns:
`-DBL_MAX` when the comparison holds, `0x0` (the double `+0.0`) otherwise. -/
def scalar_mask_bits (cmp : Bool) : Nat := if cmp then NEG_DBL_MAX_bits else 0

/-- Function `and_doubles` on bit patterns: the bitwise AND of the two 64-bit
words. -/
def and_doubles (x y : Nat) : Nat := x &&& y

/-! ## Buffer lifetime -/

/-- The state of the heap block behind `rstatv`. -/
inductive BufState where
  | never_allocated
  | allocated
  | released
  deriving DecidableEq, Repr

/-- What one call of `vectorized_cmrg_cleanup` does to the heap. -/
inductive FreeEffect where
  /-- Branch not taken: `free` is not called. -/
  | no_free
  /-- Call of `free` on the live block. -/
  | frees_live_block
  /-- Call of `free` on a block that was already released (a double free). -/
  | frees_released_block
  /-- Call of `free` on a pointer that never came from an allocation. -/
  | frees_invalid_pointer
  deriving DecidableEq, Repr

/-- The heap block state after `vectorized_cmrg_init`: a successful
`posix_memalign` (when the call gets that far) hands out a live block. -/
def init_heap (alloc : Option (Nat → Int)) (num_streams : Nat) (h : BufState) : BufState :=
  if num_streams = 0 then h
  else
    match alloc with
    | some _ => .allocated
    | none => h

/-- Function `vectorized_cmrg_cleanup`: `if(rstatv) free(rstatv);`. The pointer
`rstatv` is not changed. Returns the globals, the heap block state, and what the
call did. -/
def vectorized_cmrg_cleanup (g : Gen) (h : BufState) : Gen × BufState × FreeEffect :=
  match g.rstatv with
  | none => (g, h, .no_free)
  | some _ =>
    match h with
    | .allocated => (g, .released, .frees_live_block)
    | .released => (g, .released, .frees_released_block)
    | .never_allocated => (g, .never_allocated, .frees_invalid_pointer)

/-! ## Powers of the jump matrices -/

/-- Helper of `Mat3.powMod`: square-and-multiply with a recursion bound. -/
def Mat3.powAux (m : Int) : Nat → Mat3 → Nat → Mat3
  | 0, P, _ => P
  | fuel + 1, P, n =>
    if n ≤ 1 then P
    else if n % 2 = 0 then Mat3.powAux m fuel (Mat3.mulMod m P P) (n / 2)
    else Mat3.mulMod m P (Mat3.powAux m fuel (Mat3.mulMod m P P) (n / 2))

/-- The `n`-th power of `P` modulo `m` for `n ≥ 1`, by square-and-multiply. -/
def Mat3.powMod (m : Int) (P : Mat3) (n : Nat) : Mat3 := Mat3.powAux m n P n

/-! ## Theorems -/

theorem bitLenAux_spec : ∀ (fuel n : Nat), n < 2 ^ fuel →
    (n = 0 → bitLenAux fuel n = 0) ∧
    (n ≠ 0 → 2 ^ (bitLenAux fuel n - 1) ≤ n ∧ n < 2 ^ bitLenAux fuel n ∧ 0 < bitLenAux fuel n) := by
  intro fuel
  induction fuel with
  | zero =>
    intro n hn
    have h0 : n = 0 := by simpa using hn
    subst h0
    simp [bitLenAux]
  | succ f ih =>
    intro n hn
    constructor
    · intro h0
      simp [bitLenAux, h0]
    · intro hne
      have hhalf : n / 2 < 2 ^ f := by
        rw [Nat.div_lt_iff_lt_mul (by decide)]
        rw [pow_succ] at hn
        exact hn
      have hrec := ih (n / 2) hhalf
      simp only [bitLenAux, hne, if_false]
      by_cases hz : n / 2 = 0
      · rw [hrec.1 hz]
        have : n = 1 := by omega
        subst this
        simp
      · obtain ⟨h1, h2, h3⟩ := hrec.2 hz
        refine ⟨?_, ?_, by omega⟩
        · have e : bitLenAux f (n / 2) + 1 - 1 = (bitLenAux f (n / 2) - 1) + 1 := by omega
          rw [e, pow_succ]
          omega
        · rw [pow_succ]
          omega

theorem bitLen_zero : bitLen 0 = 0 := by
  simp [bitLen, bitLenAux]

theorem bitLen_spec (n : Nat) (hn : n ≠ 0) :
    2 ^ (bitLen n - 1) ≤ n ∧ n < 2 ^ bitLen n ∧ 0 < bitLen n :=
  (bitLenAux_spec n n (Nat.lt_two_pow n)).2 hn

theorem bitLen_le_of_lt (n k : Nat) (h : n < 2 ^ k) : bitLen n ≤ k := by
  by_cases hn : n = 0
  · subst hn
    simp [bitLen_zero]
  · obtain ⟨h1, _, h3⟩ := bitLen_spec n hn
    by_contra hc
    have hk : k ≤ bitLen n - 1 := by omega
    have := Nat.pow_le_pow_right (by decide : 0 < 2) hk
    omega


theorem round53_cases (n : Nat) :
    round53 n = n / 2 ^ (bitLen n - 53) * 2 ^ (bitLen n - 53) ∨
    (round53 n = (n / 2 ^ (bitLen n - 53) + 1) * 2 ^ (bitLen n - 53) ∧
      n % 2 ^ (bitLen n - 53) ≠ 0) := by
  unfold round53
  simp only
  split_ifs with h1 h2 h3
  · left; rfl
  · right
    refine ⟨rfl, ?_⟩
    intro h0
    rw [h0] at h2
    simp at h2
  · left; rfl
  · right
    refine ⟨rfl, ?_⟩
    intro h0
    rw [h0] at h1
    simp at h1

theorem quot_ge_of_shift (n : Nat) (hsh : 0 < bitLen n - 53) :
    2 ^ 52 ≤ n / 2 ^ (bitLen n - 53) := by
  have hn : n ≠ 0 := by
    intro h0
    rw [h0, bitLen_zero] at hsh
    simp at hsh
  obtain ⟨h1, _, _⟩ := bitLen_spec n hn
  rw [Nat.le_div_iff_mul_le (by positivity)]
  have e : bitLen n - 1 = 52 + (bitLen n - 53) := by omega
  rw [e, pow_add] at h1
  exact h1

theorem small_lt_chunk (n s a j : Nat) (ha : a < 2 ^ 53) (hq : 0 < s → 2 ^ 52 ≤ n / 2 ^ s)
    (hj : j < s) : a * 2 ^ j < n / 2 ^ s * 2 ^ s := by
  have hs : 0 < s := by omega
  have h1 : a * 2 ^ j < 2 ^ 53 * 2 ^ j := Nat.mul_lt_mul_of_pos_right ha (by positivity)
  have h2 : 2 ^ 53 * 2 ^ j ≤ 2 ^ 52 * 2 ^ s := by
    rw [← pow_add, ← pow_add]
    exact Nat.pow_le_pow_right (by decide) (by omega)
  have h3 : 2 ^ 52 * 2 ^ s ≤ n / 2 ^ s * 2 ^ s := Nat.mul_le_mul_right _ (hq hs)
  omega

theorem rep_le_floor (n s a j : Nat) (ha : a < 2 ^ 53) (hq : 0 < s → 2 ^ 52 ≤ n / 2 ^ s)
    (h : a * 2 ^ j ≤ n) : a * 2 ^ j ≤ n / 2 ^ s * 2 ^ s := by
  by_cases hj : s ≤ j
  · obtain ⟨d, rfl⟩ := Nat.exists_eq_add_of_le hj
    have e : a * 2 ^ (s + d) = a * 2 ^ d * 2 ^ s := by rw [pow_add]; ring
    rw [e] at h ⊢
    apply Nat.mul_le_mul_right
    rw [Nat.le_div_iff_mul_le (by positivity)]
    exact h
  · exact le_of_lt (small_lt_chunk n s a j ha hq (by omega))

theorem rep_ge_ceil (n s a j : Nat) (ha : a < 2 ^ 53) (hq : 0 < s → 2 ^ 52 ≤ n / 2 ^ s)
    (hrem : n % 2 ^ s ≠ 0) (h : n ≤ a * 2 ^ j) : (n / 2 ^ s + 1) * 2 ^ s ≤ a * 2 ^ j := by
  have hdm := Nat.div_add_mod n (2 ^ s)
  by_cases hj : s ≤ j
  · obtain ⟨d, rfl⟩ := Nat.exists_eq_add_of_le hj
    have e : a * 2 ^ (s + d) = a * 2 ^ d * 2 ^ s := by rw [pow_add]; ring
    rw [e] at h ⊢
    apply Nat.mul_le_mul_right
    by_contra hc
    have hle : a * 2 ^ d ≤ n / 2 ^ s := by omega
    have := Nat.mul_le_mul_right (2 ^ s) hle
    have hpos : 0 < n % 2 ^ s := Nat.pos_of_ne_zero hrem
    have hc2 : 2 ^ s * (n / 2 ^ s) = n / 2 ^ s * 2 ^ s := by ring
    omega
  · have := small_lt_chunk n s a j ha hq (by omega)
    have hc2 : 2 ^ s * (n / 2 ^ s) = n / 2 ^ s * 2 ^ s := by ring
    omega

theorem le_round53 (n r : Nat) (hr : Rep53 r) (h : r ≤ n) : r ≤ round53 n := by
  obtain ⟨a, j, ha, rfl⟩ := hr
  have hfloor := rep_le_floor n (bitLen n - 53) a j ha (quot_ge_of_shift n) h
  rcases round53_cases n with h1 | ⟨h1, _⟩
  · rw [h1]; exact hfloor
  · rw [h1]
    exact le_trans hfloor (Nat.mul_le_mul_right _ (Nat.le_succ _))

theorem round53_le (n r : Nat) (hr : Rep53 r) (h : n ≤ r) : round53 n ≤ r := by
  obtain ⟨a, j, ha, rfl⟩ := hr
  rcases round53_cases n with h1 | ⟨h1, hrem⟩
  · rw [h1]
    exact le_trans (Nat.div_mul_le_self _ _) h
  · rw [h1]
    exact rep_ge_ceil n (bitLen n - 53) a j ha (quot_ge_of_shift n) hrem h

theorem round53_rep (r : Nat) (hr : Rep53 r) : round53 r = r :=
  le_antisymm (round53_le r r hr le_rfl) (le_round53 r r hr le_rfl)

theorem rep53_of_lt (n : Nat) (h : n < 2 ^ 53) : Rep53 n := ⟨n, 0, h, by simp⟩

theorem rep53_mul_pow (a j : Nat) (h : a < 2 ^ 53) : Rep53 (a * 2 ^ j) := ⟨a, j, h, rfl⟩

theorem rnd_eq_self (x : Int) (h : x.natAbs < 2 ^ 53) : rnd x = x := by
  unfold rnd
  rw [round53_rep _ (rep53_of_lt _ h)]
  exact Int.sign_mul_natAbs x

theorem rnd_eq_self_of_nonneg (x : Int) (h0 : 0 ≤ x) (h : x < 2 ^ 53) : rnd x = x := by
  apply rnd_eq_self
  omega

theorem rnd_eq_self_of_abs (x : Int) (h0 : -(2 ^ 53) < x) (h : x < 2 ^ 53) : rnd x = x := by
  apply rnd_eq_self
  omega

theorem fmod_eq_emod (x y : Int) (hx : 0 ≤ x) (hy : 0 ≤ y) : fmod x y = x % y := by
  unfold fmod
  exact Int.tmod_eq_emod hx hy

theorem mulmod_exact (a s m : Int) (ha : 0 ≤ a) (ham : a < m) (hs : 0 ≤ s) (hsm : s < m)
    (hm : m < 2 ^ 32) : __vectorized_cmrg_init_mulmod a s m = (a * s) % m := by
  have hm0 : 0 < m := by omega
  have hlow : fmod a 131072 = a % 131072 := fmod_eq_emod a 131072 ha (by decide)
  have hsub : a - a % 131072 = 131072 * (a / 131072) := by omega
  have hq0 : 0 ≤ a / 131072 := by omega
  have hq1 : a / 131072 < 32768 := by omega
  have e1 : rnd (a - a % 131072) = 131072 * (a / 131072) := by
    rw [hsub]
    exact rnd_eq_self_of_nonneg _ (by omega) (by omega)
  have hbig : Int.tdiv (131072 * (a / 131072)) 131072 = a / 131072 := by
    rw [Int.tdiv_eq_ediv (by omega) (by decide)]
    omega
  have hp0 : 0 ≤ a / 131072 * s := Int.mul_nonneg hq0 hs
  have hp1 : a / 131072 * s < 2 ^ 47 := by nlinarith
  have e2 : rnd (a / 131072 * s) = a / 131072 * s :=
    rnd_eq_self_of_nonneg _ hp0 (by omega)
  have e3 : fmod (a / 131072 * s) m = a / 131072 * s % m :=
    fmod_eq_emod _ m hp0 (by omega)
  have hr0 : 0 ≤ a / 131072 * s % m := Int.emod_nonneg _ (by omega)
  have hr1 : a / 131072 * s % m < m := Int.emod_lt_of_pos _ hm0
  have e4 : rnd (a / 131072 * s % m * 131072) = a / 131072 * s % m * 131072 :=
    rnd_eq_self_of_nonneg _ (by omega) (by omega)
  have hl0 : 0 ≤ a % 131072 := by omega
  have hl1 : a % 131072 < 131072 := by omega
  have hls0 : 0 ≤ a % 131072 * s := Int.mul_nonneg hl0 hs
  have hls1 : a % 131072 * s < 2 ^ 49 := by nlinarith
  have e5 : rnd (a % 131072 * s) = a % 131072 * s :=
    rnd_eq_self_of_nonneg _ hls0 (by omega)
  have e6 : rnd (a / 131072 * s % m * 131072 + a % 131072 * s)
      = a / 131072 * s % m * 131072 + a % 131072 * s :=
    rnd_eq_self_of_nonneg _ (by omega) (by omega)
  have e7 : fmod (a / 131072 * s % m * 131072 + a % 131072 * s) m
      = (a / 131072 * s % m * 131072 + a % 131072 * s) % m :=
    fmod_eq_emod _ m (by omega) (by omega)
  unfold __vectorized_cmrg_init_mulmod
  simp only
  rw [hlow, e1, hbig, e2, e3, e4, e5, e6, e7]
  have key : a * s = (a / 131072 * s) * 131072 + a % 131072 * s := by
    have := Int.ediv_add_emod a 131072
    nlinarith
  rw [key]
  rw [Int.add_emod, Int.mul_emod, Int.emod_emod_of_dvd _ (dvd_refl m), ← Int.mul_emod,
    ← Int.add_emod]
theorem NUM_ELEMENTS_scalar : NUM_ELEMENTS .scalar = 1 := rfl

theorem NUM_ELEMENTS_sse : NUM_ELEMENTS .sse = 2 := rfl

theorem NUM_ELEMENTS_avx : NUM_ELEMENTS .avx = 4 := rfl

theorem NUM_ELEMENTS_pos (b : Backend) : 0 < NUM_ELEMENTS b := by
  cases b <;> decide

theorem state_idx_generic (b : Backend) (s c : Nat) :
    state_idx b s c
      = (s % NUM_ELEMENTS b + 6 * NUM_ELEMENTS b * (s / NUM_ELEMENTS b) + c * NUM_ELEMENTS b)
          % 4294967296 := by
  cases b
  · show (s * 6 + c) % 4294967296 = (s % 1 + 6 * 1 * (s / 1) + c * 1) % 4294967296
    omega
  · show ((((s % 2 : Nat) : Int) + int32_wrap (6 * ((2 : Nat) : Int) * ((s / 2 : Nat) : Int))
        + ((c * 2 : Nat) : Int)) % 4294967296).toNat
      = (s % 2 + 6 * 2 * (s / 2) + c * 2) % 4294967296
    unfold int32_wrap
    omega
  · show ((((s % 4 : Nat) : Int) + int32_wrap (6 * ((4 : Nat) : Int) * ((s / 4 : Nat) : Int))
        + ((c * 4 : Nat) : Int)) % 4294967296).toNat
      = (s % 4 + 6 * 4 * (s / 4) + c * 4) % 4294967296
    unfold int32_wrap
    omega

theorem state_idx_nowrap (b : Backend) (s c : Nat) (hc : c < 6)
    (h : 6 * NUM_ELEMENTS b * (s / NUM_ELEMENTS b + 1) ≤ 4294967296) :
    state_idx b s c
      = s % NUM_ELEMENTS b + 6 * NUM_ELEMENTS b * (s / NUM_ELEMENTS b) + c * NUM_ELEMENTS b := by
  rw [state_idx_generic]
  apply Nat.mod_eq_of_lt
  cases b
  · simp only [NUM_ELEMENTS_scalar] at *
    omega
  · simp only [NUM_ELEMENTS_sse] at *
    omega
  · simp only [NUM_ELEMENTS_avx] at *
    omega

theorem state_idx_group (b : Backend) (g l c : Nat) (hl : l < NUM_ELEMENTS b) (hc : c < 6)
    (hg : 6 * NUM_ELEMENTS b * (g + 1) ≤ 4294967296) :
    state_idx b (g * NUM_ELEMENTS b + l) c
      = 6 * NUM_ELEMENTS b * g + c * NUM_ELEMENTS b + l := by
  have h1 : (g * NUM_ELEMENTS b + l) % NUM_ELEMENTS b = l := by
    rw [Nat.mul_comm, Nat.mul_add_mod, Nat.mod_eq_of_lt hl]
  have h2 : (g * NUM_ELEMENTS b + l) / NUM_ELEMENTS b = g := by
    rw [Nat.mul_comm, Nat.mul_add_div (NUM_ELEMENTS_pos b), Nat.div_eq_of_lt hl]
    simp
  rw [state_idx_nowrap b _ c hc (by rw [h2]; exact hg), h1, h2]
  omega

theorem state_idx_vec (b : Backend) (g l c : Nat) (hl : l < NUM_ELEMENTS b) (hc : c < 6)
    (hg : 6 * NUM_ELEMENTS b * (g + 1) ≤ 4294967296) :
    state_idx b (g * NUM_ELEMENTS b + l) c = (g * 6 + c) * NUM_ELEMENTS b + l := by
  rw [state_idx_group b g l c hl hc hg]
  ring

theorem state_idx_below (b : Backend) (G i c : Nat) (hi : i < G * NUM_ELEMENTS b) (hc : c < 6)
    (hG : 6 * (G * NUM_ELEMENTS b) ≤ 4294967296) :
    state_idx b i c
      = i % NUM_ELEMENTS b + 6 * NUM_ELEMENTS b * (i / NUM_ELEMENTS b) + c * NUM_ELEMENTS b := by
  apply state_idx_nowrap b i c hc
  cases b
  · simp only [NUM_ELEMENTS_scalar] at *
    omega
  · simp only [NUM_ELEMENTS_sse] at *
    omega
  · simp only [NUM_ELEMENTS_avx] at *
    omega

theorem state_idx_lt (b : Backend) (G i c : Nat) (hi : i < G * NUM_ELEMENTS b) (hc : c < 6)
    (hG : 6 * (G * NUM_ELEMENTS b) ≤ 4294967296) :
    state_idx b i c < 6 * (G * NUM_ELEMENTS b) := by
  rw [state_idx_below b G i c hi hc hG]
  cases b
  · simp only [NUM_ELEMENTS_scalar] at *
    omega
  · simp only [NUM_ELEMENTS_sse] at *
    omega
  · simp only [NUM_ELEMENTS_avx] at *
    omega

theorem state_idx_inj (b : Backend) (G i c i2 c2 : Nat) (hi : i < G * NUM_ELEMENTS b)
    (hi2 : i2 < G * NUM_ELEMENTS b) (hc : c < 6) (hc2 : c2 < 6)
    (hG : 6 * (G * NUM_ELEMENTS b) ≤ 4294967296)
    (h : state_idx b i c = state_idx b i2 c2) : i = i2 ∧ c = c2 := by
  rw [state_idx_below b G i c hi hc hG, state_idx_below b G i2 c2 hi2 hc2 hG] at h
  cases b
  · simp only [NUM_ELEMENTS_scalar] at *
    omega
  · simp only [NUM_ELEMENTS_sse] at *
    omega
  · simp only [NUM_ELEMENTS_avx] at *
    omega

theorem state_idx_inj_comp (b : Backend) (i c c2 : Nat) (hc : c < 6) (hc2 : c2 < 6)
    (h : state_idx b i c = state_idx b i c2) : c = c2 := by
  rw [state_idx_generic, state_idx_generic] at h
  cases b
  · simp only [NUM_ELEMENTS_scalar] at *
    omega
  · simp only [NUM_ELEMENTS_sse] at *
    omega
  · simp only [NUM_ELEMENTS_avx] at *
    omega

theorem state_idx_surj (b : Backend) (G p : Nat) (hp : p < 6 * (G * NUM_ELEMENTS b))
    (hG : 6 * (G * NUM_ELEMENTS b) ≤ 4294967296) :
    ∃ i c, i < G * NUM_ELEMENTS b ∧ c < 6 ∧ state_idx b i c = p := by
  have h1 : (p / (6 * NUM_ELEMENTS b)) * NUM_ELEMENTS b + p % NUM_ELEMENTS b
      < G * NUM_ELEMENTS b := by
    cases b
    · simp only [NUM_ELEMENTS_scalar] at *
      omega
    · simp only [NUM_ELEMENTS_sse] at *
      omega
    · simp only [NUM_ELEMENTS_avx] at *
      omega
  have h2 : (p % (6 * NUM_ELEMENTS b)) / NUM_ELEMENTS b < 6 := by
    cases b
    · simp only [NUM_ELEMENTS_scalar] at *
      omega
    · simp only [NUM_ELEMENTS_sse] at *
      omega
    · simp only [NUM_ELEMENTS_avx] at *
      omega
  refine ⟨_, _, h1, h2, ?_⟩
  rw [state_idx_below b G _ _ h1 h2 hG]
  cases b
  · simp only [NUM_ELEMENTS_scalar] at *
    omega
  · simp only [NUM_ELEMENTS_sse] at *
    omega
  · simp only [NUM_ELEMENTS_avx] at *
    omega

theorem int32_wrap_small (x : Int) (h0 : -2147483648 ≤ x) (h1 : x < 2147483648) :
    int32_wrap x = x := by
  unfold int32_wrap
  omega

theorem vec_idx_small (g : Nat) (hg : g * 6 < 2147483648) : vec_idx g = ((g * 6 : Nat) : Int) := by
  unfold vec_idx
  rw [int32_wrap_small _ (by omega) (by omega)]
  push_cast
  rfl

theorem foldl_update_other {α β : Type} (key : α → Nat) (val : α → β) (p : Nat) :
    ∀ (L : List α) (buf : Nat → β), (∀ j ∈ L, key j ≠ p) →
      (L.foldl (fun m j => Function.update m (key j) (val j)) buf) p = buf p := by
  intro L
  induction L with
  | nil => intro buf _; rfl
  | cons a t ih =>
    intro buf h
    rw [List.foldl_cons, ih _ (fun j hj => h j (List.mem_cons_of_mem _ hj))]
    exact Function.update_noteq (Ne.symm (h a (List.mem_cons_self _ _))) _ _

theorem foldl_update_get {α β : Type} (key : α → Nat) (val : α → β)
    (hinj : ∀ x y, key x = key y → x = y) :
    ∀ (L : List α) (buf : Nat → β) (j : α), L.Nodup → j ∈ L →
      (L.foldl (fun m j => Function.update m (key j) (val j)) buf) (key j) = val j := by
  intro L
  induction L with
  | nil => intro buf j _ hj; simp at hj
  | cons a t ih =>
    intro buf j hnd hj
    rw [List.foldl_cons]
    rw [List.nodup_cons] at hnd
    rcases List.mem_cons.1 hj with rfl | hjt
    · rw [foldl_update_other key val (key j) t _ ?_]
      · exact Function.update_same _ _ _
      · intro x hx hk
        exact hnd.1 (hinj x j hk ▸ hx)
    · exact ih _ j hnd.2 hjt

theorem init_store_over_get {α : Type} (b : Backend) (i : Nat) (rseed : Fin 6 → α)
    (buf : Nat → α) (c : Fin 6) :
    init_store_over b i rseed buf (state_idx b i c.val) = rseed c := by
  unfold init_store_over
  apply foldl_update_get (fun j : Fin 6 => state_idx b i j.val) rseed
  · intro x y h
    exact Fin.ext (state_idx_inj_comp b i x.val y.val x.isLt y.isLt h)
  · exact List.nodup_finRange 6
  · exact List.mem_finRange c

theorem init_store_over_other {α : Type} (b : Backend) (i : Nat) (rseed : Fin 6 → α)
    (buf : Nat → α) (p : Nat) (h : ∀ c : Fin 6, state_idx b i c.val ≠ p) :
    init_store_over b i rseed buf p = buf p := by
  unfold init_store_over
  exact foldl_update_other (fun j : Fin 6 => state_idx b i j.val) rseed p _ _ (fun j _ => h j)

theorem init_loop_over_succ {α : Type} (skip : (Fin 6 → α) → Fin 6 → α) (b : Backend)
    (N : Nat) (buf : Nat → α) (rseed : Fin 6 → α) :
    init_loop_over skip b (N + 1) buf rseed
      = (init_store_over b N (init_loop_over skip b N buf rseed).2
            (init_loop_over skip b N buf rseed).1,
         skip (init_loop_over skip b N buf rseed).2) := by
  unfold init_loop_over
  rw [List.range_succ, List.foldl_append]
  rfl

theorem init_loop_over_seed {α : Type} (skip : (Fin 6 → α) → Fin 6 → α) (b : Backend)
    (N : Nat) (buf : Nat → α) (rseed : Fin 6 → α) :
    (init_loop_over skip b N buf rseed).2 = skip^[N] rseed := by
  induction N with
  | zero => rfl
  | succ k ih =>
    rw [init_loop_over_succ, Function.iterate_succ_apply', ← ih]

theorem init_loop_over_last {α : Type} (skip : (Fin 6 → α) → Fin 6 → α) (b : Backend)
    (N : Nat) (buf : Nat → α) (rseed : Fin 6 → α) (i : Nat) (c : Fin 6) (hi : i < N)
    (hlast : ∀ i2, i < i2 → i2 < N → ∀ c2 : Fin 6,
      state_idx b i2 c2.val ≠ state_idx b i c.val) :
    (init_loop_over skip b N buf rseed).1 (state_idx b i c.val) = (skip^[i] rseed) c := by
  induction N with
  | zero => omega
  | succ k ih =>
    rw [init_loop_over_succ]
    by_cases hik : i = k
    · subst hik
      simp only
      rw [init_store_over_get, init_loop_over_seed]
    · simp only
      rw [init_store_over_other]
      · exact ih (by omega) (fun i2 h1 h2 c2 => hlast i2 h1 (by omega) c2)
      · intro c2
        exact hlast k (by omega) (by omega) c2

theorem init_loop_over_get {α : Type} (skip : (Fin 6 → α) → Fin 6 → α) (b : Backend)
    (G : Nat) (buf : Nat → α) (rseed : Fin 6 → α) (i : Nat) (c : Fin 6)
    (hi : i < G * NUM_ELEMENTS b) (hG : 6 * (G * NUM_ELEMENTS b) ≤ 4294967296) :
    (init_loop_over skip b (G * NUM_ELEMENTS b) buf rseed).1 (state_idx b i c.val)
      = (skip^[i] rseed) c := by
  apply init_loop_over_last skip b _ buf rseed i c hi
  intro i2 h1 h2 c2 h
  have := (state_idx_inj b G i2 c2.val i c.val h2 hi c2.isLt c.isLt hG h).1
  omega

theorem init_loop_over_written {α : Type} (skip : (Fin 6 → α) → Fin 6 → α) (b : Backend)
    (N : Nat) (buf : Nat → α) (rseed : Fin 6 → α) (p : Nat)
    (h : ∃ i, i < N ∧ ∃ c : Fin 6, state_idx b i c.val = p) :
    ∃ i, i < N ∧ ∃ c : Fin 6, state_idx b i c.val = p ∧
      (init_loop_over skip b N buf rseed).1 p = (skip^[i] rseed) c := by
  induction N with
  | zero =>
    obtain ⟨i, hi, _⟩ := h
    omega
  | succ k ih =>
    rw [init_loop_over_succ]
    simp only
    by_cases hk : ∃ c : Fin 6, state_idx b k c.val = p
    · obtain ⟨c, hc⟩ := hk
      refine ⟨k, by omega, c, hc, ?_⟩
      rw [← hc, init_store_over_get, init_loop_over_seed]
    · have hk2 : ∀ c : Fin 6, state_idx b k c.val ≠ p := fun c hc => hk ⟨c, hc⟩
      rw [init_store_over_other _ _ _ _ _ hk2]
      obtain ⟨i, hi, c, hc⟩ := h
      have hik : i < k := by
        rcases Nat.lt_or_ge i k with h1 | h1
        · exact h1
        · have e : i = k := by omega
          subst e
          exact absurd hc (hk2 c)
      obtain ⟨i2, hi2, c2, hc2, hv⟩ := ih ⟨i, hik, c, hc⟩
      exact ⟨i2, by omega, c2, hc2, hv⟩

theorem init_loop_eq (b : Backend) (N : Nat) (buf : Nat → Int) (rseed : Fin 6 → Int) :
    init_loop b N buf rseed = init_loop_over __vectorized_cmrg_init_rskip b N buf rseed := rfl

theorem init_loop_last (b : Backend) (N : Nat) (buf : Nat → Int) (rseed : Fin 6 → Int)
    (i : Nat) (c : Fin 6) (hi : i < N)
    (hlast : ∀ i2, i < i2 → i2 < N → ∀ c2 : Fin 6,
      state_idx b i2 c2.val ≠ state_idx b i c.val) :
    (init_loop b N buf rseed).1 (state_idx b i c.val)
      = (__vectorized_cmrg_init_rskip^[i] rseed) c := by
  rw [init_loop_eq]
  exact init_loop_over_last _ b N buf rseed i c hi hlast

theorem init_loop_get (b : Backend) (G : Nat) (buf : Nat → Int) (rseed : Fin 6 → Int)
    (i : Nat) (c : Fin 6) (hi : i < G * NUM_ELEMENTS b)
    (hG : 6 * (G * NUM_ELEMENTS b) ≤ 4294967296) :
    (init_loop b (G * NUM_ELEMENTS b) buf rseed).1 (state_idx b i c.val)
      = (__vectorized_cmrg_init_rskip^[i] rseed) c := by
  rw [init_loop_eq]
  exact init_loop_over_get _ b G buf rseed i c hi hG

theorem init_loop_written (b : Backend) (N : Nat) (buf : Nat → Int) (rseed : Fin 6 → Int)
    (p : Nat) (h : ∃ i, i < N ∧ ∃ c : Fin 6, state_idx b i c.val = p) :
    ∃ i, i < N ∧ ∃ c : Fin 6, state_idx b i c.val = p ∧
      (init_loop b N buf rseed).1 p = (__vectorized_cmrg_init_rskip^[i] rseed) c := by
  rw [init_loop_eq]
  exact init_loop_over_written _ b N buf rseed p h

theorem ceil_div_eq (n W : Nat) (hW : 0 < W) : ⌈(n : ℚ) / (W : ℚ)⌉₊ = (n + W - 1) / W := by
  have hWq : (0 : ℚ) < (W : ℚ) := by exact_mod_cast hW
  apply le_antisymm
  · rw [Nat.ceil_le, div_le_iff₀ hWq]
    have h : n ≤ (n + W - 1) / W * W := by
      have h1 := Nat.div_add_mod (n + W - 1) W
      have h2 := Nat.mod_lt (n + W - 1) hW
      have h3 : W * ((n + W - 1) / W) = (n + W - 1) / W * W := Nat.mul_comm _ _
      omega
    exact_mod_cast h
  · rw [Nat.div_le_iff_le_mul_add_pred hW]
    have h1 : (n : ℚ) ≤ (⌈(n : ℚ) / (W : ℚ)⌉₊ : ℚ) * W := by
      rw [← div_le_iff₀ hWq]
      exact Nat.le_ceil _
    have h2 : n ≤ ⌈(n : ℚ) / (W : ℚ)⌉₊ * W := by exact_mod_cast h1
    have h3 : W * ⌈(n : ℚ) / (W : ℚ)⌉₊ = ⌈(n : ℚ) / (W : ℚ)⌉₊ * W := Nat.mul_comm _ _
    omega

theorem init_zero (b : Backend) (alloc : Option (Nat → Int)) (seed : Int) (g : Gen) :
    vectorized_cmrg_init b alloc 0 seed g = (g, 0) := by
  simp [vectorized_cmrg_init]

theorem init_alloc (b : Backend) (mem : Nat → Int) (n : Nat) (seed : Int) (g : Gen)
    (hn : n ≠ 0) :
    vectorized_cmrg_init b (some mem) n seed g
      = ({ rstatv := some (init_loop b ((n + NUM_ELEMENTS b - 1) / NUM_ELEMENTS b
              * NUM_ELEMENTS b) mem (fun _ => seed)).1
           vec_cmrg_num_streams := (n + NUM_ELEMENTS b - 1) / NUM_ELEMENTS b * NUM_ELEMENTS b
           rscale_vec := RSCALE },
         (n + NUM_ELEMENTS b - 1) / NUM_ELEMENTS b * NUM_ELEMENTS b / NUM_ELEMENTS b) := by
  simp [vectorized_cmrg_init, hn]

theorem init_success (b : Backend) (alloc : Option (Nat → Int)) (n : Nat) (seed : Int) (g : Gen)
    (hret : (vectorized_cmrg_init b alloc n seed g).2 ≠ 0) :
    ∃ buf0, vectorized_cmrg_init b alloc n seed g
      = ({ rstatv := some (init_loop b ((n + NUM_ELEMENTS b - 1) / NUM_ELEMENTS b
              * NUM_ELEMENTS b) buf0 (fun _ => seed)).1
           vec_cmrg_num_streams := (n + NUM_ELEMENTS b - 1) / NUM_ELEMENTS b * NUM_ELEMENTS b
           rscale_vec := RSCALE },
         (n + NUM_ELEMENTS b - 1) / NUM_ELEMENTS b * NUM_ELEMENTS b / NUM_ELEMENTS b) := by
  by_cases hn : n = 0
  · subst hn
    rw [init_zero] at hret
    exact absurd rfl hret
  · cases alloc with
    | some mem => exact ⟨mem, init_alloc b mem n seed g hn⟩
    | none =>
      cases hg : g.rstatv with
      | none =>
        exfalso
        apply hret
        simp [vectorized_cmrg_init, hn, hg]
      | some old =>
        exact ⟨old, by simp [vectorized_cmrg_init, hn, hg]⟩

theorem core_state_0 {W : Nat} (st : Fin 6 → VEC W) (l : Fin W) :
    (rand_group_core st).1 0 l = st 1 l := by
  simp [rand_group_core, Function.update]

theorem core_state_1 {W : Nat} (st : Fin 6 → VEC W) (l : Fin W) :
    (rand_group_core st).1 1 l = st 2 l := by
  simp [rand_group_core, Function.update]

theorem core_state_2 {W : Nat} (st : Fin 6 → VEC W) (l : Fin W) :
    (rand_group_core st).1 2 l
      = reduce_lt __CMRG_RM1 __CMRG_ZM1 (lane_xA (st 0 l) (st 1 l)) := by
  simp only [rand_group_core, Function.update, vec_mult, vec_sub, vec_add, vec_and, vec_set1,
    vec_cast_double, vec_cast_int, vec_mult_frac, vec_less_than, reduce_lt, lane_xA, __CMRG_ZM1,
    Fin.reduceEq, ↓reduceDIte, eq_rec_constant, decide_eq_true_eq]

theorem core_state_3 {W : Nat} (st : Fin 6 → VEC W) (l : Fin W) :
    (rand_group_core st).1 3 l = st 4 l := by
  simp [rand_group_core, Function.update]

theorem core_state_4 {W : Nat} (st : Fin 6 → VEC W) (l : Fin W) :
    (rand_group_core st).1 4 l = st 5 l := by
  simp [rand_group_core, Function.update]

theorem core_state_5 {W : Nat} (st : Fin 6 → VEC W) (l : Fin W) :
    (rand_group_core st).1 5 l
      = reduce_lt __CMRG_RM2 __CMRG_ZM2 (lane_xB (st 3 l) (st 5 l)) := by
  simp only [rand_group_core, Function.update, vec_mult, vec_sub, vec_add, vec_and, vec_set1,
    vec_cast_double, vec_cast_int, vec_mult_frac, vec_less_than, reduce_lt, lane_xB, __CMRG_ZM2,
    Fin.reduceEq, ↓reduceDIte, eq_rec_constant, decide_eq_true_eq]

theorem core_z {W : Nat} (st : Fin 6 → VEC W) (l : Fin W) :
    (rand_group_core st).2 l
      = reduce_le __CMRG_RM1 __CMRG_ZM1
          (rnd (reduce_lt __CMRG_RM1 __CMRG_ZM1 (lane_xA (st 0 l) (st 1 l))
            - reduce_lt __CMRG_RM2 __CMRG_ZM2 (lane_xB (st 3 l) (st 5 l)))) := by
  simp only [rand_group_core, Function.update, vec_mult, vec_sub, vec_add, vec_and, vec_set1,
    vec_cast_double, vec_cast_int, vec_mult_frac, vec_less_than, vec_less_equal_than,
    reduce_lt, reduce_le, lane_xA, lane_xB, __CMRG_ZM1, __CMRG_ZM2,
    Fin.reduceEq, ↓reduceDIte, eq_rec_constant, decide_eq_true_eq]

theorem fin6_cases (c : Fin 6) : c = 0 ∨ c = 1 ∨ c = 2 ∨ c = 3 ∨ c = 4 ∨ c = 5 := by
  revert c
  decide

theorem core_lane_state {W : Nat} (st : Fin 6 → VEC W) (l : Fin W) (c : Fin 6) :
    (rand_group_core st).1 c l = (rand_group_core (W := 1) (fun k _ => st k l)).1 c 0 := by
  rcases fin6_cases c with rfl | rfl | rfl | rfl | rfl | rfl
  · rw [core_state_0, core_state_0]
  · rw [core_state_1, core_state_1]
  · rw [core_state_2, core_state_2]
  · rw [core_state_3, core_state_3]
  · rw [core_state_4, core_state_4]
  · rw [core_state_5, core_state_5]

theorem core_lane_z {W : Nat} (st : Fin 6 → VEC W) (l : Fin W) :
    (rand_group_core st).2 l = (rand_group_core (W := 1) (fun k _ => st k l)).2 0 := by
  rw [core_z, core_z]

theorem group_lane_state {W : Nat} (rs : Nat) (st : Fin 6 → VEC W) (l : Fin W) (c : Fin 6) :
    (vectorized_cmrg_rand_group rs st).1 c l
      = (vectorized_cmrg_rand_group (W := 1) rs (fun k _ => st k l)).1 c 0 :=
  core_lane_state st l c

theorem group_lane_out {W : Nat} (rs : Nat) (st : Fin 6 → VEC W) (l : Fin W) :
    (vectorized_cmrg_rand_group rs st).2 l
      = (vectorized_cmrg_rand_group (W := 1) rs (fun k _ => st k l)).2 0 := by
  unfold vectorized_cmrg_rand_group
  simp only [vec_mult_frac]
  rw [core_lane_z st l]

theorem store_group_outside (W base : Nat) (vals : Fin 6 → VEC W) (buf : Nat → Int) (p : Nat)
    (h : p < base * W ∨ (base + 6) * W ≤ p) : store_group W base vals buf p = buf p := by
  unfold store_group
  rw [dif_neg]
  omega

theorem store_group_inside (W base : Nat) (vals : Fin 6 → VEC W) (buf : Nat → Int)
    (k : Fin 6) (l : Fin W) :
    store_group W base vals buf ((base + k.val) * W + l.val) = vals k l := by
  have hW : 0 < W := Nat.lt_of_le_of_lt (Nat.zero_le _) l.isLt
  have e : (base + k.val) * W + l.val - base * W = k.val * W + l.val := by
    rw [Nat.add_mul]
    omega
  have hk := k.isLt
  have hl := l.isLt
  have hb : (base + 6) * W = base * W + 6 * W := by ring
  have hkw : k.val * W + W ≤ 6 * W := by nlinarith
  have hbk : (base + k.val) * W = base * W + k.val * W := by ring
  unfold store_group
  rw [dif_pos ⟨hW, by omega, by omega⟩]
  congr 1
  · apply Fin.ext
    simp only [e]
    rw [Nat.mul_comm, Nat.mul_add_div hW, Nat.div_eq_of_lt hl]
    simp
  · apply Fin.ext
    simp only [e]
    rw [Nat.mul_comm, Nat.mul_add_mod, Nat.mod_eq_of_lt hl]

theorem rand_some (b : Backend) (g : Nat) (G : Gen) (buf : Nat → Int) (h : G.rstatv = some buf)
    (hg : g * 6 < 2147483648) :
    vectorized_cmrg_rand b g G
      = some ({ G with rstatv := some (store_group (NUM_ELEMENTS b) (g * 6)
                  (vectorized_cmrg_rand_group G.rscale_vec
                    (load_group (NUM_ELEMENTS b) (g * 6) buf)).1 buf) },
              (vectorized_cmrg_rand_group G.rscale_vec
                (load_group (NUM_ELEMENTS b) (g * 6) buf)).2) := by
  have hv := vec_idx_small g hg
  have hn : ¬ (((g * 6 : Nat) : Int) < 0) := by omega
  simp only [vectorized_cmrg_rand, h, hv, hn, if_false, Int.toNat_ofNat]

theorem rand_negative (b : Backend) (g : Nat) (G : Gen) (hg : vec_idx g < 0) :
    vectorized_cmrg_rand b g G = none := by
  unfold vectorized_cmrg_rand
  cases G.rstatv with
  | none => rfl
  | some buf => simp only [hg, if_true]

theorem group_bound (b : Backend) (g : Nat)
    (hg : 6 * NUM_ELEMENTS b * (g + 1) ≤ 2147483648) : g * 6 < 2147483648 := by
  cases b
  · simp only [NUM_ELEMENTS_scalar] at hg
    omega
  · simp only [NUM_ELEMENTS_sse] at hg
    omega
  · simp only [NUM_ELEMENTS_avx] at hg
    omega

theorem load_group_stream (b : Backend) (g : Nat) (buf : Nat → Int) (l : Fin (NUM_ELEMENTS b))
    (hg : 6 * NUM_ELEMENTS b * (g + 1) ≤ 4294967296) :
    (fun k (_ : Fin 1) => load_group (NUM_ELEMENTS b) (g * 6) buf k l)
      = stream_state b buf (g * NUM_ELEMENTS b + l.val) := by
  funext k _
  unfold load_group stream_state
  rw [state_idx_vec b g l.val k.val l.isLt k.isLt hg]

theorem stream_state_rand_same (b : Backend) (g : Nat) (rs : Nat) (buf : Nat → Int)
    (l : Fin (NUM_ELEMENTS b)) (hg : 6 * NUM_ELEMENTS b * (g + 1) ≤ 4294967296) :
    stream_state b (store_group (NUM_ELEMENTS b) (g * 6)
        (vectorized_cmrg_rand_group rs (load_group (NUM_ELEMENTS b) (g * 6) buf)).1 buf)
        (g * NUM_ELEMENTS b + l.val)
      = (vectorized_cmrg_rand_group (W := 1) rs
          (stream_state b buf (g * NUM_ELEMENTS b + l.val))).1 := by
  funext k z
  have hz : z = 0 := Subsingleton.elim _ _
  subst hz
  unfold stream_state
  rw [state_idx_vec b g l.val k.val l.isLt k.isLt hg, store_group_inside, group_lane_state,
    load_group_stream b g buf l hg]
  rfl

theorem stream_state_rand_other (b : Backend) (g g2 : Nat) (hne : g2 ≠ g)
    (vals : Fin 6 → VEC (NUM_ELEMENTS b)) (buf : Nat → Int) (l : Nat) (hl : l < NUM_ELEMENTS b)
    (hg2 : 6 * NUM_ELEMENTS b * (g2 + 1) ≤ 4294967296) :
    stream_state b (store_group (NUM_ELEMENTS b) (g * 6) vals buf)
        (g2 * NUM_ELEMENTS b + l)
      = stream_state b buf (g2 * NUM_ELEMENTS b + l) := by
  funext k z
  unfold stream_state
  apply store_group_outside
  rw [state_idx_group b g2 l k.val hl k.isLt hg2]
  have hk := k.isLt
  have hW := NUM_ELEMENTS_pos b
  rcases Nat.lt_or_gt_of_ne hne with h | h
  · left
    have h1 : (g2 + 1) * (6 * NUM_ELEMENTS b) ≤ g * (6 * NUM_ELEMENTS b) :=
      Nat.mul_le_mul_right _ h
    have h2 : k.val * NUM_ELEMENTS b + NUM_ELEMENTS b ≤ 6 * NUM_ELEMENTS b := by nlinarith
    nlinarith
  · right
    have h1 : (g + 1) * (6 * NUM_ELEMENTS b) ≤ g2 * (6 * NUM_ELEMENTS b) :=
      Nat.mul_le_mul_right _ h
    nlinarith

theorem run_calls_state (b : Backend) :
    ∀ (calls : List Nat) (G : Gen) (buf : Nat → Int), G.rstatv = some buf →
      (∀ x ∈ calls, 6 * NUM_ELEMENTS b * (x + 1) ≤ 2147483648) →
      ∃ buf2, run_calls b calls G = some { G with rstatv := some buf2 } ∧
        ∀ (g l : Nat), l < NUM_ELEMENTS b → 6 * NUM_ELEMENTS b * (g + 1) ≤ 4294967296 →
          stream_state b buf2 (g * NUM_ELEMENTS b + l)
            = (fun st => (vectorized_cmrg_rand_group (W := 1) G.rscale_vec st).1)^[calls.count g]
                (stream_state b buf (g * NUM_ELEMENTS b + l)) := by
  intro calls
  induction calls with
  | nil =>
    intro G buf h _
    refine ⟨buf, ?_, ?_⟩
    · simp only [run_calls]
      cases G
      simp only at h
      subst h
      rfl
    · intro g l _ _
      rfl
  | cons x xs ih =>
    intro G buf h hc
    have hx := hc x (List.mem_cons_self _ _)
    obtain ⟨buf2, h1, h2⟩ := ih
      { G with rstatv := some (store_group (NUM_ELEMENTS b) (x * 6)
                  (vectorized_cmrg_rand_group G.rscale_vec
                    (load_group (NUM_ELEMENTS b) (x * 6) buf)).1 buf) } _ rfl
      (fun y hy => hc y (List.mem_cons_of_mem _ hy))
    refine ⟨buf2, ?_, ?_⟩
    · simp only [run_calls, rand_some b x G buf h (group_bound b x hx)]
      exact h1
    · intro g l hl hg
      rw [h2 g l hl hg]
      by_cases hxg : x = g
      · subst hxg
        rw [List.count_cons_self, Function.iterate_succ_apply]
        have := stream_state_rand_same b x G.rscale_vec buf ⟨l, hl⟩ hg
        simp only at this
        rw [this]
      · rw [List.count_cons_of_ne (fun e => hxg e.symm)]
        rw [stream_state_rand_other b x g (fun e => hxg e.symm) _ buf l hl hg]

theorem rskip_eq (s : Fin 6 → Int) (c : Fin 6) :
    __vectorized_cmrg_init_rskip s c =
      if c = 0 then rskip_row 4294967087 2427906178 3580155704 949770784 (s 0) (s 1) (s 2)
      else if c = 1 then rskip_row 4294967087 226153695 1230515664 3580155704 (s 0) (s 1) (s 2)
      else if c = 2 then rskip_row 4294967087 1988835001 986791581 1230515664 (s 0) (s 1) (s 2)
      else if c = 3 then rskip_row 4294944443 1464411153 277697599 1610723613 (s 3) (s 4) (s 5)
      else if c = 4 then rskip_row 4294944443 32183930 1464411153 1022607788 (s 3) (s 4) (s 5)
      else rskip_row 4294944443 2824425944 32183930 2093834863 (s 3) (s 4) (s 5) := by
  rcases fin6_cases c with rfl | rfl | rfl | rfl | rfl | rfl <;>
    simp only [__vectorized_cmrg_init_rskip, rskip_row, Function.update, Fin.reduceEq,
      ↓reduceDIte, ↓reduceIte, eq_rec_constant]

theorem rskip_row_eq (m c0 c1 c2 s0 s1 s2 : Int) (hm : m < 2 ^ 32)
    (h0 : 0 ≤ c0 ∧ c0 < m) (h1 : 0 ≤ c1 ∧ c1 < m) (h2 : 0 ≤ c2 ∧ c2 < m)
    (g0 : 0 ≤ s0 ∧ s0 < m) (g1 : 0 ≤ s1 ∧ s1 < m) (g2 : 0 ≤ s2 ∧ s2 < m) :
    rskip_row m c0 c1 c2 s0 s1 s2 = lin3 m c0 c1 c2 s0 s1 s2 := by
  have hm0 : 0 < m := by omega
  unfold rskip_row lin3
  rw [mulmod_exact s0 c0 m g0.1 g0.2 h0.1 h0.2 hm, mulmod_exact s1 c1 m g1.1 g1.2 h1.1 h1.2 hm,
    mulmod_exact s2 c2 m g2.1 g2.2 h2.1 h2.2 hm]
  have a0 := Int.emod_nonneg (s0 * c0) (ne_of_gt hm0)
  have a1 := Int.emod_nonneg (s1 * c1) (ne_of_gt hm0)
  have a2 := Int.emod_nonneg (s2 * c2) (ne_of_gt hm0)
  have b0 := Int.emod_lt_of_pos (s0 * c0) hm0
  have b1 := Int.emod_lt_of_pos (s1 * c1) hm0
  have b2 := Int.emod_lt_of_pos (s2 * c2) hm0
  rw [rnd_eq_self_of_nonneg (s0 * c0 % m + s1 * c1 % m) (by omega) (by omega)]
  rw [rnd_eq_self_of_nonneg (s0 * c0 % m + s1 * c1 % m + s2 * c2 % m) (by omega) (by omega)]
  rw [fmod_eq_emod _ m (by omega) (by omega)]
  have e : c0 * s0 + c1 * s1 + c2 * s2 = s0 * c0 + s1 * c1 + s2 * c2 := by ring
  rw [e]
  simp [Int.add_emod, Int.emod_emod_of_dvd]

theorem lin3_range (m c0 c1 c2 s0 s1 s2 : Int) (hm : 0 < m) :
    0 ≤ lin3 m c0 c1 c2 s0 s1 s2 ∧ lin3 m c0 c1 c2 s0 s1 s2 < m :=
  ⟨Int.emod_nonneg _ (ne_of_gt hm), Int.emod_lt_of_pos _ hm⟩

theorem quot_est_A (X : Nat) (hX : X ≤ 1403580 * 4294967087) :
    round53 (__CMRG_RM1 * X) / 2 ^ 84 = X / 4294967087 ∨
    (round53 (__CMRG_RM1 * X) / 2 ^ 84 = X / 4294967087 + 1 ∧ X % 4294967087 ≠ 0) := by
  have hdm := Nat.div_add_mod X 4294967087
  have hr := Nat.mod_lt X (by decide : 0 < 4294967087)
  have hq : X / 4294967087 ≤ 1403580 := by omega
  generalize hqd : X / 4294967087 = q at *
  generalize hrd : X % 4294967087 = r at *
  unfold __CMRG_RM1
  have hlo : q * 2 ^ 84 ≤ round53 (4503599846522891 * X) :=
    le_round53 _ _ (rep53_mul_pow q 84 (by omega)) (by omega)
  have hhi : round53 (4503599846522891 * X) ≤ (q + 1) * 2 ^ 84 :=
    round53_le _ _ (rep53_mul_pow (q + 1) 84 (by omega)) (by omega)
  have h1 : q ≤ round53 (4503599846522891 * X) / 2 ^ 84 := by
    rw [Nat.le_div_iff_mul_le (by positivity)]
    exact hlo
  have h2 : round53 (4503599846522891 * X) / 2 ^ 84 ≤ q + 1 := by
    rw [Nat.div_le_iff_le_mul_add_pred (by positivity)]
    omega
  by_cases hr0 : r = 0
  · left
    have hhi2 : round53 (4503599846522891 * X) ≤ (2 * q + 1) * 2 ^ 83 :=
      round53_le _ _ (rep53_mul_pow (2 * q + 1) 83 (by omega)) (by omega)
    have h3 : round53 (4503599846522891 * X) / 2 ^ 84 < q + 1 := by
      rw [Nat.div_lt_iff_lt_mul (by positivity)]
      omega
    omega
  · by_cases hk : round53 (4503599846522891 * X) / 2 ^ 84 = q
    · left; exact hk
    · right
      exact ⟨by omega, hr0⟩

theorem quot_est_B (X : Nat) (hX : X ≤ 1370589 * 4294944443) :
    round53 (__CMRG_RM2 * X) / 2 ^ 84 = X / 4294944443 ∨
    (round53 (__CMRG_RM2 * X) / 2 ^ 84 = X / 4294944443 + 1 ∧ X % 4294944443 ≠ 0) ∨
    (round53 (__CMRG_RM2 * X) / 2 ^ 84 + 1 = X / 4294944443 ∧ X % 4294944443 = 0) := by
  have hdm := Nat.div_add_mod X 4294944443
  have hr := Nat.mod_lt X (by decide : 0 < 4294944443)
  have hq : X / 4294944443 ≤ 1370589 := by omega
  generalize hqd : X / 4294944443 = q at *
  generalize hrd : X % 4294944443 = r at *
  unfold __CMRG_RM2
  have hhi : round53 (4503623590605329 * X) ≤ (q + 1) * 2 ^ 84 :=
    round53_le _ _ (rep53_mul_pow (q + 1) 84 (by omega)) (by omega)
  have h2 : round53 (4503623590605329 * X) / 2 ^ 84 ≤ q + 1 := by
    rw [Nat.div_le_iff_le_mul_add_pred (by positivity)]
    omega
  by_cases hr0 : r = 0
  · have hhi2 : round53 (4503623590605329 * X) ≤ q * 2 ^ 84 :=
      round53_le _ _ (rep53_mul_pow q 84 (by omega)) (by omega)
    have hlo : (q - 1) * 2 ^ 84 ≤ round53 (4503623590605329 * X) :=
      le_round53 _ _ (rep53_mul_pow (q - 1) 84 (by omega)) (by omega)
    have h1 : q - 1 ≤ round53 (4503623590605329 * X) / 2 ^ 84 := by
      rw [Nat.le_div_iff_mul_le (by positivity)]
      exact hlo
    have h3 : round53 (4503623590605329 * X) / 2 ^ 84 ≤ q := by
      rw [Nat.div_le_iff_le_mul_add_pred (by positivity)]
      omega
    by_cases hk : round53 (4503623590605329 * X) / 2 ^ 84 = q
    · left; exact hk
    · right; right
      exact ⟨by omega, hr0⟩
  · have hlo : q * 2 ^ 84 ≤ round53 (4503623590605329 * X) :=
      le_round53 _ _ (rep53_mul_pow q 84 (by omega)) (by omega)
    have h1 : q ≤ round53 (4503623590605329 * X) / 2 ^ 84 := by
      rw [Nat.le_div_iff_mul_le (by positivity)]
      exact hlo
    by_cases hk : round53 (4503623590605329 * X) / 2 ^ 84 = q
    · left; exact hk
    · right; left
      exact ⟨by omega, hr0⟩


theorem round53_zero : round53 0 = 0 := by decide

theorem quot_int_nonneg (RM : Nat) (x : Int) (hx : 0 ≤ x) :
    Int.tdiv (Int.sign x * (round53 (RM * x.natAbs) : Int)) (2 ^ 84)
      = ((round53 (RM * x.natAbs) / 2 ^ 84 : Nat) : Int) := by
  rcases lt_or_eq_of_le hx with h | h
  · rw [Int.sign_eq_one_of_pos h, one_mul, Int.tdiv_eq_ediv (by positivity) (by positivity)]
    norm_cast
  · subst h
    simp [round53_zero]

theorem quot_int_neg (RM : Nat) (x : Int) (hx : x < 0) :
    Int.tdiv (Int.sign x * (round53 (RM * x.natAbs) : Int)) (2 ^ 84)
      = -((round53 (RM * x.natAbs) / 2 ^ 84 : Nat) : Int) := by
  rw [Int.sign_eq_neg_one_of_neg hx, neg_one_mul, Int.neg_tdiv,
    Int.tdiv_eq_ediv (by positivity) (by positivity)]
  norm_cast

/-- The possible results of one truncate-and-correct reduction modulo m1, in
terms of the estimated quotient. -/
theorem reduce_lt_cases_m1 (RM : Nat) (x : Int)
    (hx : x.natAbs ≤ 1403580 * 4294967087)
    (hk : round53 (RM * x.natAbs) / 2 ^ 84 = x.natAbs / 4294967087 ∨
      (round53 (RM * x.natAbs) / 2 ^ 84 = x.natAbs / 4294967087 + 1 ∧ x.natAbs % 4294967087 ≠ 0) ∨
      (round53 (RM * x.natAbs) / 2 ^ 84 + 1 = x.natAbs / 4294967087 ∧ x.natAbs % 4294967087 = 0)) :
    reduce_lt RM 4294967087 x = x % 4294967087 ∨
      (reduce_lt RM 4294967087 x = 4294967087 ∧ x % 4294967087 = 0 ∧ 0 < x ∧
        round53 (RM * x.natAbs) / 2 ^ 84 + 1 = x.natAbs / 4294967087) := by
  unfold reduce_lt
  simp only
  have hdm := Nat.div_add_mod x.natAbs 4294967087
  have hr := Nat.mod_lt x.natAbs (by decide : 0 < 4294967087)
  rcases le_or_lt 0 x with h0 | h0
  · rw [quot_int_nonneg RM x h0]
    generalize round53 (RM * x.natAbs) / 2 ^ 84 = k at *
    have e1 : rnd (4294967087 * (k : Int)) = 4294967087 * (k : Int) :=
      rnd_eq_self_of_nonneg _ (by omega) (by omega)
    rw [e1]
    have e2 : rnd (x - 4294967087 * (k : Int)) = x - 4294967087 * (k : Int) :=
      rnd_eq_self_of_abs _ (by omega) (by omega)
    rw [e2]
    split_ifs with hneg
    · rw [rnd_eq_self_of_abs _ (by omega) (by omega)]
      left
      omega
    · rw [rnd_eq_self_of_abs _ (by omega) (by omega)]
      omega
  · rw [quot_int_neg RM x h0]
    generalize round53 (RM * x.natAbs) / 2 ^ 84 = k at *
    have e1 : rnd (4294967087 * -(k : Int)) = 4294967087 * -(k : Int) :=
      rnd_eq_self_of_abs _ (by omega) (by omega)
    rw [e1]
    have e2 : rnd (x - 4294967087 * -(k : Int)) = x - 4294967087 * -(k : Int) :=
      rnd_eq_self_of_abs _ (by omega) (by omega)
    rw [e2]
    split_ifs with hneg
    · rw [rnd_eq_self_of_abs _ (by omega) (by omega)]
      left
      omega
    · rw [rnd_eq_self_of_abs _ (by omega) (by omega)]
      left
      omega

/-- The possible results of one truncate-and-correct reduction modulo m2, in
terms of the estimated quotient. -/
theorem reduce_lt_cases_m2 (RM : Nat) (x : Int)
    (hx : x.natAbs ≤ 1403580 * 4294967087)
    (hk : round53 (RM * x.natAbs) / 2 ^ 84 = x.natAbs / 4294944443 ∨
      (round53 (RM * x.natAbs) / 2 ^ 84 = x.natAbs / 4294944443 + 1 ∧ x.natAbs % 4294944443 ≠ 0) ∨
      (round53 (RM * x.natAbs) / 2 ^ 84 + 1 = x.natAbs / 4294944443 ∧ x.natAbs % 4294944443 = 0)) :
    reduce_lt RM 4294944443 x = x % 4294944443 ∨
      (reduce_lt RM 4294944443 x = 4294944443 ∧ x % 4294944443 = 0 ∧ 0 < x ∧
        round53 (RM * x.natAbs) / 2 ^ 84 + 1 = x.natAbs / 4294944443) := by
  unfold reduce_lt
  simp only
  have hdm := Nat.div_add_mod x.natAbs 4294944443
  have hr := Nat.mod_lt x.natAbs (by decide : 0 < 4294944443)
  rcases le_or_lt 0 x with h0 | h0
  · rw [quot_int_nonneg RM x h0]
    generalize round53 (RM * x.natAbs) / 2 ^ 84 = k at *
    have e1 : rnd (4294944443 * (k : Int)) = 4294944443 * (k : Int) :=
      rnd_eq_self_of_nonneg _ (by omega) (by omega)
    rw [e1]
    have e2 : rnd (x - 4294944443 * (k : Int)) = x - 4294944443 * (k : Int) :=
      rnd_eq_self_of_abs _ (by omega) (by omega)
    rw [e2]
    split_ifs with hneg
    · rw [rnd_eq_self_of_abs _ (by omega) (by omega)]
      left
      omega
    · rw [rnd_eq_self_of_abs _ (by omega) (by omega)]
      omega
  · rw [quot_int_neg RM x h0]
    generalize round53 (RM * x.natAbs) / 2 ^ 84 = k at *
    have e1 : rnd (4294944443 * -(k : Int)) = 4294944443 * -(k : Int) :=
      rnd_eq_self_of_abs _ (by omega) (by omega)
    rw [e1]
    have e2 : rnd (x - 4294944443 * -(k : Int)) = x - 4294944443 * -(k : Int) :=
      rnd_eq_self_of_abs _ (by omega) (by omega)
    rw [e2]
    split_ifs with hneg
    · rw [rnd_eq_self_of_abs _ (by omega) (by omega)]
      left
      omega
    · rw [rnd_eq_self_of_abs _ (by omega) (by omega)]
      left
      omega

theorem reduce_lt_A (x : Int) (hx : x.natAbs ≤ 1403580 * 4294967087) :
    reduce_lt __CMRG_RM1 4294967087 x = x % 4294967087 := by
  have hq := quot_est_A x.natAbs hx
  have hc := reduce_lt_cases_m1 __CMRG_RM1 x hx (by tauto)
  rcases hc with h | ⟨_, _, _, h4⟩
  · exact h
  · omega

theorem reduce_lt_B (x : Int) (hx : x.natAbs ≤ 1370589 * 4294944443) :
    reduce_lt __CMRG_RM2 4294944443 x = x % 4294944443 ∨
      (reduce_lt __CMRG_RM2 4294944443 x = 4294944443 ∧ x % 4294944443 = 0 ∧ 0 < x ∧
        round53 (__CMRG_RM2 * x.natAbs) / 2 ^ 84 + 1 = x.natAbs / 4294944443) :=
  reduce_lt_cases_m2 __CMRG_RM2 x (by omega) (quot_est_B x.natAbs hx)

theorem reduce_le_A (x : Int) (h1 : -4294967087 < x) (h2 : x < 4294967087) :
    reduce_le __CMRG_RM1 4294967087 x = if 0 < x then x else x + 4294967087 := by
  have hq := quot_est_A x.natAbs (by omega)
  unfold reduce_le
  simp only
  have hdm := Nat.div_add_mod x.natAbs 4294967087
  have hr := Nat.mod_lt x.natAbs (by decide : 0 < 4294967087)
  rcases le_or_lt 0 x with h0 | h0
  · rw [quot_int_nonneg __CMRG_RM1 x h0]
    generalize round53 (__CMRG_RM1 * x.natAbs) / 2 ^ 84 = k at *
    have e1 : rnd (4294967087 * (k : Int)) = 4294967087 * (k : Int) :=
      rnd_eq_self_of_nonneg _ (by omega) (by omega)
    rw [e1]
    have e2 : rnd (x - 4294967087 * (k : Int)) = x - 4294967087 * (k : Int) :=
      rnd_eq_self_of_abs _ (by omega) (by omega)
    rw [e2]
    split_ifs with ha hb hb
    · rw [rnd_eq_self_of_abs _ (by omega) (by omega)]
      omega
    · rw [rnd_eq_self_of_abs _ (by omega) (by omega)]
      omega
    · rw [rnd_eq_self_of_abs _ (by omega) (by omega)]
      omega
    · rw [rnd_eq_self_of_abs _ (by omega) (by omega)]
      omega
  · rw [quot_int_neg __CMRG_RM1 x h0]
    generalize round53 (__CMRG_RM1 * x.natAbs) / 2 ^ 84 = k at *
    have e1 : rnd (4294967087 * -(k : Int)) = 4294967087 * -(k : Int) :=
      rnd_eq_self_of_abs _ (by omega) (by omega)
    rw [e1]
    have e2 : rnd (x - 4294967087 * -(k : Int)) = x - 4294967087 * -(k : Int) :=
      rnd_eq_self_of_abs _ (by omega) (by omega)
    rw [e2]
    split_ifs with ha hb hb
    · rw [rnd_eq_self_of_abs _ (by omega) (by omega)]
      omega
    · rw [rnd_eq_self_of_abs _ (by omega) (by omega)]
      omega
    · rw [rnd_eq_self_of_abs _ (by omega) (by omega)]
      omega
    · rw [rnd_eq_self_of_abs _ (by omega) (by omega)]
      omega

theorem lane_xA_eq (s0 s1 : Int) (h0 : 0 ≤ s0 ∧ s0 < 4294967087)
    (h1 : 0 ≤ s1 ∧ s1 < 4294967087) : lane_xA s0 s1 = 1403580 * s1 - 810728 * s0 := by
  unfold lane_xA
  rw [rnd_eq_self_of_nonneg (1403580 * s1) (by omega) (by omega),
    rnd_eq_self_of_nonneg (810728 * s0) (by omega) (by omega),
    rnd_eq_self_of_abs _ (by omega) (by omega)]

theorem lane_xB_eq (s3 s5 : Int) (h3 : 0 ≤ s3 ∧ s3 ≤ 4294944443)
    (h5 : 0 ≤ s5 ∧ s5 ≤ 4294944443) : lane_xB s3 s5 = 527612 * s5 - 1370589 * s3 := by
  unfold lane_xB
  rw [rnd_eq_self_of_nonneg (527612 * s5) (by omega) (by omega),
    rnd_eq_self_of_nonneg (1370589 * s3) (by omega) (by omega),
    rnd_eq_self_of_abs _ (by omega) (by omega)]

/-- Component A of one kernel step is the exact residue. -/
theorem lane_A_exact (s0 s1 : Int) (h0 : 0 ≤ s0 ∧ s0 < 4294967087)
    (h1 : 0 ≤ s1 ∧ s1 < 4294967087) :
    reduce_lt __CMRG_RM1 __CMRG_ZM1 (lane_xA s0 s1)
      = (1403580 * s1 - 810728 * s0) % 4294967087 := by
  rw [lane_xA_eq s0 s1 h0 h1]
  exact reduce_lt_A _ (by omega)

/-- Component B of one kernel step is the exact residue, or the modulus itself
in place of the residue `0`. -/
theorem lane_B_cases (s3 s5 : Int) (h3 : 0 ≤ s3 ∧ s3 ≤ 4294944443)
    (h5 : 0 ≤ s5 ∧ s5 ≤ 4294944443) :
    reduce_lt __CMRG_RM2 __CMRG_ZM2 (lane_xB s3 s5)
        = (527612 * s5 - 1370589 * s3) % 4294944443 ∨
      (reduce_lt __CMRG_RM2 __CMRG_ZM2 (lane_xB s3 s5) = 4294944443 ∧
        (527612 * s5 - 1370589 * s3) % 4294944443 = 0) := by
  rw [lane_xB_eq s3 s5 h3 h5]
  rcases reduce_lt_B (527612 * s5 - 1370589 * s3) (by omega) with h | ⟨h, h2, _, _⟩
  · left; exact h
  · right; exact ⟨h, h2⟩

/-- The combined residue of one kernel step lies in `(0, m1]`. -/
theorem lane_z_range (a b : Int) (ha : 0 ≤ a ∧ a < 4294967087)
    (hb : 0 ≤ b ∧ b ≤ 4294944443) :
    0 < reduce_le __CMRG_RM1 __CMRG_ZM1 (rnd (a - b)) ∧
      reduce_le __CMRG_RM1 __CMRG_ZM1 (rnd (a - b)) ≤ 4294967087 := by
  rw [rnd_eq_self_of_abs (a - b) (by omega) (by omega)]
  have := reduce_le_A (a - b) (by omega) (by omega)
  unfold __CMRG_ZM1
  rw [this]
  split_ifs <;> omega

/-- The three reciprocal constants are the binary64 roundings of `1/m1`, `1/m2`
and `1/(m1+1)`: each numerator has exactly 53 bits and lies within half a unit
in the last place (`2^-85`) of the exact reciprocal. The first and third are
rounded upward, the second downward. -/
theorem recip_constants_correctly_rounded :
    (2 ^ 52 ≤ __CMRG_RM1 ∧ __CMRG_RM1 < 2 ^ 53 ∧
      (2 * __CMRG_RM1 - 1) * 4294967087 < 2 ^ 85 ∧ 2 ^ 85 < (2 * __CMRG_RM1 + 1) * 4294967087 ∧
      2 ^ 84 < __CMRG_RM1 * 4294967087) ∧
    (2 ^ 52 ≤ __CMRG_RM2 ∧ __CMRG_RM2 < 2 ^ 53 ∧
      (2 * __CMRG_RM2 - 1) * 4294944443 < 2 ^ 85 ∧ 2 ^ 85 < (2 * __CMRG_RM2 + 1) * 4294944443 ∧
      __CMRG_RM2 * 4294944443 < 2 ^ 84) ∧
    (2 ^ 52 ≤ RSCALE ∧ RSCALE < 2 ^ 53 ∧
      (2 * RSCALE - 1) * 4294967088 < 2 ^ 85 ∧ 2 ^ 85 < (2 * RSCALE + 1) * 4294967088 ∧
      2 ^ 84 < RSCALE * 4294967088) := by
  decide

/-! ### The exact recurrence, its powers, and the kernel -/

theorem lin3_comp (m p0 p1 p2 q00 q01 q02 q10 q11 q12 q20 q21 q22 s0 s1 s2 : Int) :
    lin3 m p0 p1 p2 (lin3 m q00 q01 q02 s0 s1 s2) (lin3 m q10 q11 q12 s0 s1 s2)
        (lin3 m q20 q21 q22 s0 s1 s2)
      = lin3 m ((p0 * q00 + p1 * q10 + p2 * q20) % m) ((p0 * q01 + p1 * q11 + p2 * q21) % m)
          ((p0 * q02 + p1 * q12 + p2 * q22) % m) s0 s1 s2 := by
  unfold lin3
  have hL : p0 * ((q00 * s0 + q01 * s1 + q02 * s2) % m) + p1 * ((q10 * s0 + q11 * s1 + q12 * s2) % m)
      + p2 * ((q20 * s0 + q21 * s1 + q22 * s2) % m)
      ≡ p0 * (q00 * s0 + q01 * s1 + q02 * s2) + p1 * (q10 * s0 + q11 * s1 + q12 * s2)
      + p2 * (q20 * s0 + q21 * s1 + q22 * s2) [ZMOD m] :=
    (((Int.mod_modEq _ m).mul_left p0).add ((Int.mod_modEq _ m).mul_left p1)).add
      ((Int.mod_modEq _ m).mul_left p2)
  have hR : (p0 * q00 + p1 * q10 + p2 * q20) % m * s0 + (p0 * q01 + p1 * q11 + p2 * q21) % m * s1
      + (p0 * q02 + p1 * q12 + p2 * q22) % m * s2
      ≡ (p0 * q00 + p1 * q10 + p2 * q20) * s0 + (p0 * q01 + p1 * q11 + p2 * q21) * s1
      + (p0 * q02 + p1 * q12 + p2 * q22) * s2 [ZMOD m] :=
    (((Int.mod_modEq _ m).mul_right s0).add ((Int.mod_modEq _ m).mul_right s1)).add
      ((Int.mod_modEq _ m).mul_right s2)
  have hE : p0 * (q00 * s0 + q01 * s1 + q02 * s2) + p1 * (q10 * s0 + q11 * s1 + q12 * s2)
      + p2 * (q20 * s0 + q21 * s1 + q22 * s2)
      = (p0 * q00 + p1 * q10 + p2 * q20) * s0 + (p0 * q01 + p1 * q11 + p2 * q21) * s1
      + (p0 * q02 + p1 * q12 + p2 * q22) * s2 := by ring
  rw [hE] at hL
  exact hL.trans hR.symm

theorem jump_apply (PA PB : Mat3) (s : Fin 6 → Int) :
    jump PA PB s 0 = lin3 4294967087 PA.a PA.b PA.c (s 0) (s 1) (s 2) ∧
    jump PA PB s 1 = lin3 4294967087 PA.d PA.e PA.f (s 0) (s 1) (s 2) ∧
    jump PA PB s 2 = lin3 4294967087 PA.g PA.h PA.i (s 0) (s 1) (s 2) ∧
    jump PA PB s 3 = lin3 4294944443 PB.a PB.b PB.c (s 3) (s 4) (s 5) ∧
    jump PA PB s 4 = lin3 4294944443 PB.d PB.e PB.f (s 3) (s 4) (s 5) ∧
    jump PA PB s 5 = lin3 4294944443 PB.g PB.h PB.i (s 3) (s 4) (s 5) :=
  ⟨rfl, rfl, rfl, rfl, rfl, rfl⟩

theorem jump_comp (PA PB QA QB : Mat3) (s : Fin 6 → Int) :
    jump PA PB (jump QA QB s)
      = jump (Mat3.mulMod 4294967087 PA QA) (Mat3.mulMod 4294944443 PB QB) s := by
  obtain ⟨h0, h1, h2, h3, h4, h5⟩ := jump_apply QA QB s
  funext c
  rcases fin6_cases c with rfl | rfl | rfl | rfl | rfl | rfl
  · rw [(jump_apply PA PB _).1, h0, h1, h2, lin3_comp]
    rfl
  · rw [(jump_apply PA PB _).2.1, h0, h1, h2, lin3_comp]
    rfl
  · rw [(jump_apply PA PB _).2.2.1, h0, h1, h2, lin3_comp]
    rfl
  · rw [(jump_apply PA PB _).2.2.2.1, h3, h4, h5, lin3_comp]
    rfl
  · rw [(jump_apply PA PB _).2.2.2.2.1, h3, h4, h5, lin3_comp]
    rfl
  · rw [(jump_apply PA PB _).2.2.2.2.2, h3, h4, h5, lin3_comp]
    rfl

theorem jump_pow2 (PA PB : Mat3) (k : Nat) (s : Fin 6 → Int) :
    (jump PA PB)^[2 ^ k] s
      = jump (Mat3.pow2 4294967087 PA k) (Mat3.pow2 4294944443 PB k) s := by
  induction k generalizing s with
  | zero => rfl
  | succ n ih =>
    have e : 2 ^ (n + 1) = 2 ^ n + 2 ^ n := by ring
    rw [e, Function.iterate_add_apply, ih, ih, jump_comp]
    rfl

set_option maxRecDepth 1000000 in
theorem pow2_STEP_A : Mat3.pow2 4294967087 STEP_A 127 = JUMP_A := by decide

set_option maxRecDepth 1000000 in
theorem pow2_STEP_B : Mat3.pow2 4294944443 STEP_B 127 = JUMP_B := by decide

theorem step_iterate_eq_jump (s : Fin 6 → Int) :
    (jump STEP_A STEP_B)^[2 ^ 127] s = jump JUMP_A JUMP_B s := by
  rw [jump_pow2, pow2_STEP_A, pow2_STEP_B]

/-! ## Settled claims -/

theorem valid_bounds (s : Fin 6 → Int) (h : ValidState s) :
    (0 ≤ s 0 ∧ s 0 < 4294967087) ∧ (0 ≤ s 1 ∧ s 1 < 4294967087) ∧
    (0 ≤ s 2 ∧ s 2 < 4294967087) ∧ (0 ≤ s 3 ∧ s 3 < 4294944443) ∧
    (0 ≤ s 4 ∧ s 4 < 4294944443) ∧ (0 ≤ s 5 ∧ s 5 < 4294944443) :=
  ⟨h 0, h 1, h 2, h 3, h 4, h 5⟩

theorem out_range (z : Int) (hz : 0 < z ∧ z ≤ 4294967087) :
    (0 : ℚ) < ((Int.sign z * (round53 (RSCALE * z.natAbs) : Int) : Int) : ℚ) / 2 ^ 84 ∧
    ((Int.sign z * (round53 (RSCALE * z.natAbs) : Int) : Int) : ℚ) / 2 ^ 84 < 1 := by
  have hlo : RSCALE ≤ round53 (RSCALE * z.natAbs) :=
    le_round53 _ _ (rep53_of_lt _ (by decide)) (by unfold RSCALE; omega)
  have hhi : round53 (RSCALE * z.natAbs) ≤ 9007199254740991 * 2 ^ 31 :=
    round53_le _ _ (rep53_mul_pow 9007199254740991 31 (by decide)) (by unfold RSCALE; omega)
  rw [Int.sign_eq_one_of_pos hz.1, one_mul]
  unfold RSCALE at hlo hhi ⊢
  have h1 : (0 : Int) < (round53 (4503599845474315 * z.natAbs) : Int) := by omega
  have h2 : (round53 (4503599845474315 * z.natAbs) : Int) < 2 ^ 84 := by omega
  have h1q : (0 : ℚ) < ((round53 (4503599845474315 * z.natAbs) : Int) : ℚ) := by
    exact_mod_cast h1
  have h2q : ((round53 (4503599845474315 * z.natAbs) : Int) : ℚ) < 2 ^ 84 := by
    exact_mod_cast h2
  constructor
  · positivity
  · rw [div_lt_one (by positivity)]
    exact h2q

theorem core_z_range {W : Nat} (rstate : Fin 6 → VEC W) (l : Fin W)
    (hv : ValidState (fun c => rstate c l)) :
    0 < (rand_group_core rstate).2 l ∧ (rand_group_core rstate).2 l ≤ 4294967087 := by
  obtain ⟨h0, h1, _, h3, _, h5⟩ := valid_bounds _ hv
  rw [core_z, lane_A_exact _ _ h0 h1]
  have hB : 0 ≤ reduce_lt __CMRG_RM2 __CMRG_ZM2 (lane_xB (rstate 3 l) (rstate 5 l)) ∧
      reduce_lt __CMRG_RM2 __CMRG_ZM2 (lane_xB (rstate 3 l) (rstate 5 l)) ≤ 4294944443 := by
    rcases lane_B_cases (rstate 3 l) (rstate 5 l) ⟨h3.1, by omega⟩ ⟨h5.1, by omega⟩
      with h | ⟨h, _⟩
    · rw [h]; omega
    · rw [h]; omega
  exact lane_z_range _ _ (by omega) hB

/-- C1: for every group state whose lanes satisfy the stored-state invariant,
the value returned by one call of `vectorized_cmrg_rand_group` lies strictly
between 0 and 1 in every lane, both as the exact rational (combined residue
times `1/(m1+1)`) and as the rounded binary64 product the code returns. -/
theorem C1_output_in_unit_interval {W : Nat} (rstate : Fin 6 → VEC W)
    (hv : ∀ l, ValidState (fun c => rstate c l)) (l : Fin W) :
    (0 : ℚ) < ((rand_group_core rstate).2 l : ℚ) * (1 / (4294967087 + 1)) ∧
    ((rand_group_core rstate).2 l : ℚ) * (1 / (4294967087 + 1)) < 1 ∧
    0 < (vectorized_cmrg_rand_group RSCALE rstate).2 l ∧
    (vectorized_cmrg_rand_group RSCALE rstate).2 l < 1 := by
  have hz := core_z_range rstate l (hv l)
  have hzq1 : (0 : ℚ) < ((rand_group_core rstate).2 l : ℚ) := by exact_mod_cast hz.1
  have hzq2 : ((rand_group_core rstate).2 l : ℚ) ≤ 4294967087 := by exact_mod_cast hz.2
  refine ⟨by positivity, ?_, ?_⟩
  · rw [mul_one_div, div_lt_one (by norm_num)]
    linarith
  · exact out_range _ hz

theorem valid_const (seed : Int) (h : 0 ≤ seed ∧ seed < 4294944443) :
    ValidState (fun _ => seed) := by
  intro c
  show 0 ≤ seed ∧ seed < modulus c
  unfold modulus __CMRG_ZM1 __CMRG_ZM2
  split_ifs <;> omega

/-- Witness of C1 at lane width 1 on the state `(12345, ..., 12345)`. -/
theorem C1_output_in_unit_interval_witness :
    (∀ l : Fin 1, ValidState (fun c => (fun (_ : Fin 6) (_ : Fin 1) => (12345 : Int)) c l)) ∧
    (0 : ℚ) < (vectorized_cmrg_rand_group (W := 1) RSCALE (fun _ _ => 12345)).2 0 ∧
    (vectorized_cmrg_rand_group (W := 1) RSCALE (fun _ _ => 12345)).2 0 < 1 :=
  ⟨fun _ => valid_const 12345 (by decide),
   (C1_output_in_unit_interval (W := 1) (fun _ _ => 12345)
      (fun _ => valid_const 12345 (by decide)) 0).2.2⟩

/-- C2: for whole numbers `0 ≤ a < m`, `0 ≤ s < m`, `m < 2^32`,
`__vectorized_cmrg_init_mulmod(a, s, m)` equals `(a * s) mod m` computed with
unbounded precision. -/
theorem C2_mulmod_exact (a s m : Int) (ha : 0 ≤ a ∧ a < m) (hs : 0 ≤ s ∧ s < m)
    (hm : m < 2 ^ 32) : __vectorized_cmrg_init_mulmod a s m = (a * s) % m :=
  mulmod_exact a s m ha.1 ha.2 hs.1 hs.2 hm

/-- Witness of C2 at `a = 4294967086`, `s = 3580155704`, `m = 4294967087`. -/
theorem C2_mulmod_exact_witness :
    ((0 : Int) ≤ 4294967086 ∧ (4294967086 : Int) < 4294967087) ∧
    ((0 : Int) ≤ 3580155704 ∧ (3580155704 : Int) < 4294967087) ∧
    (4294967087 : Int) < 2 ^ 32 ∧
    __vectorized_cmrg_init_mulmod 4294967086 3580155704 4294967087
      = (4294967086 * 3580155704) % 4294967087 :=
  ⟨by decide, by decide, by decide,
   C2_mulmod_exact 4294967086 3580155704 4294967087 (by decide) (by decide) (by decide)⟩

theorem rskip_valid (s : Fin 6 → Int) (h : ValidState s) :
    ValidState (__vectorized_cmrg_init_rskip s) := by
  obtain ⟨h0, h1, h2, h3, h4, h5⟩ := valid_bounds s h
  intro c
  rw [rskip_eq]
  rcases fin6_cases c with rfl | rfl | rfl | rfl | rfl | rfl
  · simp only [Fin.reduceEq, ↓reduceIte]
    rw [rskip_row_eq _ _ _ _ _ _ _ (by decide) (by decide) (by decide) (by decide) h0 h1 h2]
    exact lin3_range _ _ _ _ _ _ _ (by decide)
  · simp only [Fin.reduceEq, ↓reduceIte]
    rw [rskip_row_eq _ _ _ _ _ _ _ (by decide) (by decide) (by decide) (by decide) h0 h1 h2]
    exact lin3_range _ _ _ _ _ _ _ (by decide)
  · simp only [Fin.reduceEq, ↓reduceIte]
    rw [rskip_row_eq _ _ _ _ _ _ _ (by decide) (by decide) (by decide) (by decide) h0 h1 h2]
    exact lin3_range _ _ _ _ _ _ _ (by decide)
  · simp only [Fin.reduceEq, ↓reduceIte]
    rw [rskip_row_eq _ _ _ _ _ _ _ (by decide) (by decide) (by decide) (by decide) h3 h4 h5]
    exact lin3_range _ _ _ _ _ _ _ (by decide)
  · simp only [Fin.reduceEq, ↓reduceIte]
    rw [rskip_row_eq _ _ _ _ _ _ _ (by decide) (by decide) (by decide) (by decide) h3 h4 h5]
    exact lin3_range _ _ _ _ _ _ _ (by decide)
  · simp only [Fin.reduceEq, ↓reduceIte]
    rw [rskip_row_eq _ _ _ _ _ _ _ (by decide) (by decide) (by decide) (by decide) h3 h4 h5]
    exact lin3_range _ _ _ _ _ _ _ (by decide)

theorem rskip_iterate_valid (s : Fin 6 → Int) (h : ValidState s) (i : Nat) :
    ValidState (__vectorized_cmrg_init_rskip^[i] s) := by
  induction i with
  | zero => exact h
  | succ k ih =>
    rw [Function.iterate_succ_apply']
    exact rskip_valid _ ih

theorem init_buffer (b : Backend) (alloc : Option (Nat → Int)) (n : Nat) (seed : Int) (G : Gen)
    (hret : (vectorized_cmrg_init b alloc n seed G).2 ≠ 0)
    (hN : 6 * (⌈(n : ℚ) / (NUM_ELEMENTS b : ℚ)⌉₊ * NUM_ELEMENTS b) ≤ 4294967296) :
    ∃ buf, (vectorized_cmrg_init b alloc n seed G).1.rstatv = some buf ∧
      (vectorized_cmrg_init b alloc n seed G).1.rscale_vec = RSCALE ∧
      (vectorized_cmrg_init b alloc n seed G).1.vec_cmrg_num_streams
        = ⌈(n : ℚ) / (NUM_ELEMENTS b : ℚ)⌉₊ * NUM_ELEMENTS b ∧
      (vectorized_cmrg_init b alloc n seed G).2 = ⌈(n : ℚ) / (NUM_ELEMENTS b : ℚ)⌉₊ ∧
      ∀ i, i < ⌈(n : ℚ) / (NUM_ELEMENTS b : ℚ)⌉₊ * NUM_ELEMENTS b → ∀ c : Fin 6,
        buf (state_idx b i c.val) = (__vectorized_cmrg_init_rskip^[i] (fun _ => seed)) c := by
  obtain ⟨buf0, h⟩ := init_success b alloc n seed G hret
  rw [ceil_div_eq n _ (NUM_ELEMENTS_pos b)] at hN
  rw [h, ceil_div_eq n _ (NUM_ELEMENTS_pos b)]
  refine ⟨_, rfl, rfl, rfl, ?_, ?_⟩
  · exact Nat.mul_div_cancel _ (NUM_ELEMENTS_pos b)
  · intro i hi c
    exact init_loop_get b _ buf0 _ i c hi hN

theorem init_written (b : Backend) (alloc : Option (Nat → Int)) (n : Nat) (seed : Int) (G : Gen)
    (hret : (vectorized_cmrg_init b alloc n seed G).2 ≠ 0) :
    ∃ buf, (vectorized_cmrg_init b alloc n seed G).1.rstatv = some buf ∧
      ∀ p, (∃ i, i < ⌈(n : ℚ) / (NUM_ELEMENTS b : ℚ)⌉₊ * NUM_ELEMENTS b ∧
          ∃ c : Fin 6, state_idx b i c.val = p) →
        ∃ i, i < ⌈(n : ℚ) / (NUM_ELEMENTS b : ℚ)⌉₊ * NUM_ELEMENTS b ∧
          ∃ c : Fin 6, state_idx b i c.val = p ∧
            buf p = (__vectorized_cmrg_init_rskip^[i] (fun _ => seed)) c := by
  obtain ⟨buf0, h⟩ := init_success b alloc n seed G hret
  rw [h, ceil_div_eq n _ (NUM_ELEMENTS_pos b)]
  refine ⟨_, rfl, ?_⟩
  intro p hp
  exact init_loop_written b _ buf0 _ p hp

theorem init_test_ret : (vectorized_cmrg_init .sse (some (fun _ => 0)) 2 12345 Gen.start).2 = 1 := by
  rw [init_alloc _ _ _ _ _ (by decide)]
  decide

theorem ceil_test : ⌈((2 : Nat) : ℚ) / ((NUM_ELEMENTS .sse : Nat) : ℚ)⌉₊ * NUM_ELEMENTS .sse = 2 := by
  rw [ceil_div_eq _ _ (NUM_ELEMENTS_pos _)]
  decide

theorem stream_state_init (b : Backend) (buf : Nat → Int) (seed : Int) (N i : Nat)
    (h : ∀ i, i < N → ∀ c : Fin 6,
      buf (state_idx b i c.val) = (__vectorized_cmrg_init_rskip^[i] (fun _ => seed)) c)
    (hi : i < N) :
    stream_state b buf i = fun c _ => (__vectorized_cmrg_init_rskip^[i] (fun _ => seed)) c := by
  funext c _
  exact h i hi c


/-- C6: when allocation succeeds, `vectorized_cmrg_init(n, seed)` returns
`ceil(n/W)`; for `n ≥ 1` (and, on the globals as they are at program start, for
every `n ≥ 0`) the stream count becomes `N = ceil(n/W) * W`, the least multiple
of `W` that is at least `n`; for `n ≥ 1` the returned count is non-zero; for
`n = 0` it returns 0 and leaves the globals untouched; for `n = 5` at `W = 4`
it returns 2 (8 streams). -/
theorem C6_init_group_count (b : Backend) (mem : Nat → Int) (n : Nat) (seed : Int) (G : Gen) :
    (vectorized_cmrg_init b (some mem) n seed G).2 = ⌈(n : ℚ) / (NUM_ELEMENTS b : ℚ)⌉₊ ∧
    (1 ≤ n → (vectorized_cmrg_init b (some mem) n seed G).1.vec_cmrg_num_streams
        = ⌈(n : ℚ) / (NUM_ELEMENTS b : ℚ)⌉₊ * NUM_ELEMENTS b) ∧
    ((vectorized_cmrg_init b (some mem) n seed Gen.start).1.vec_cmrg_num_streams
        = ⌈(n : ℚ) / (NUM_ELEMENTS b : ℚ)⌉₊ * NUM_ELEMENTS b) ∧
    (NUM_ELEMENTS b ∣ ⌈(n : ℚ) / (NUM_ELEMENTS b : ℚ)⌉₊ * NUM_ELEMENTS b ∧
      n ≤ ⌈(n : ℚ) / (NUM_ELEMENTS b : ℚ)⌉₊ * NUM_ELEMENTS b ∧
      ∀ M, NUM_ELEMENTS b ∣ M → n ≤ M →
        ⌈(n : ℚ) / (NUM_ELEMENTS b : ℚ)⌉₊ * NUM_ELEMENTS b ≤ M) ∧
    (n = 0 → vectorized_cmrg_init b (some mem) n seed G = (G, 0)) ∧
    (vectorized_cmrg_init .avx (some mem) 5 seed G).2 = 2 ∧
    (vectorized_cmrg_init .avx (some mem) 5 seed G).1.vec_cmrg_num_streams = 8 ∧
    (1 ≤ n → (vectorized_cmrg_init b (some mem) n seed G).2 ≠ 0) := by
  have hW := NUM_ELEMENTS_pos b
  have hWq : (0 : ℚ) < (NUM_ELEMENTS b : ℚ) := by exact_mod_cast hW
  have hceil : n ≤ ⌈(n : ℚ) / (NUM_ELEMENTS b : ℚ)⌉₊ * NUM_ELEMENTS b := by
    have h1 : (n : ℚ) ≤ (⌈(n : ℚ) / (NUM_ELEMENTS b : ℚ)⌉₊ : ℚ) * NUM_ELEMENTS b := by
      rw [← div_le_iff₀ hWq]
      exact Nat.le_ceil _
    exact_mod_cast h1
  have hret : (vectorized_cmrg_init b (some mem) n seed G).2
      = ⌈(n : ℚ) / (NUM_ELEMENTS b : ℚ)⌉₊ := by
    by_cases hn : n = 0
    · subst hn
      rw [init_zero]
      simp
    · rw [init_alloc b mem n seed G hn, ceil_div_eq n _ hW]
      exact Nat.mul_div_cancel _ hW
  refine ⟨hret, ?_, ?_, ⟨Dvd.intro_left _ rfl, hceil, ?_⟩, ?_, ?_, ?_, ?_⟩
  · intro hn
    rw [init_alloc b mem n seed G (by omega), ceil_div_eq n _ hW]
  · by_cases hn : n = 0
    · subst hn
      rw [init_zero]
      simp [Gen.start]
    · rw [init_alloc b mem n seed _ hn, ceil_div_eq n _ hW]
  · rintro M ⟨d, rfl⟩ hM
    rw [Nat.mul_comm (NUM_ELEMENTS b) d]
    apply Nat.mul_le_mul_right
    rw [Nat.ceil_le, div_le_iff₀ hWq]
    have : n ≤ d * NUM_ELEMENTS b := by
      rw [Nat.mul_comm]
      exact hM
    exact_mod_cast this
  · rintro rfl
    exact init_zero b _ seed G
  · rw [init_alloc _ _ _ _ _ (by decide)]
    rfl
  · rw [init_alloc _ _ _ _ _ (by decide)]
    rfl
  · intro hn
    rw [hret]
    intro h0
    rw [h0] at hceil
    omega


theorem defect_state_valid : ValidState defect_state := by
  unfold ValidState modulus __CMRG_ZM1 __CMRG_ZM2 defect_state
  decide

set_option maxRecDepth 100000 in
/-- The component-B reduction of the kernel on `defect_state` returns `m2`. -/
theorem defect_reduce :
    reduce_lt __CMRG_RM2 __CMRG_ZM2 (lane_xB 10818 142067) = 4294944443 := by
  decide

set_option maxRecDepth 100000 in
/-- The binary64 product of `14 * m2` with `1.0/4294944443.0` is
`0x1.bffffffffffffp+3`, just below 14, and truncates to 13. -/
theorem defect_quot :
    lane_xB 10818 142067 = 14 * 4294944443 ∧
    round53 (__CMRG_RM2 * (14 * 4294944443)) = 7881299347898367 * 2 ^ 35 ∧
    7881299347898367 * 2 ^ 35 / 2 ^ 84 = 13 := by
  decide

/-- C7 (the code breaks the invariant): on the valid lane state
`(1, 2, 3, 10818, 5, 142067)` one call of the kernel leaves `rstate[5]` equal to
the modulus `m2 = 4294944443`, which is not below `m2`. -/
theorem C7_kernel_breaks_invariant :
    ValidState defect_state ∧
    (rand_group_core (W := 1) (fun c _ => defect_state c)).1 5 0 = 4294944443 ∧
    ¬ ((rand_group_core (W := 1) (fun c _ => defect_state c)).1 5 0 < modulus 5) := by
  have h : (rand_group_core (W := 1) (fun c _ => defect_state c)).1 5 0 = 4294944443 := by
    rw [core_state_5]
    exact defect_reduce
  refine ⟨defect_state_valid, h, ?_⟩
  rw [h]
  decide


theorem rskip_eq_jump (s : Fin 6 → Int) (h : ValidState s) :
    __vectorized_cmrg_init_rskip s = jump JUMP_A JUMP_B s := by
  obtain ⟨h0, h1, h2, h3, h4, h5⟩ := valid_bounds s h
  funext c
  rw [rskip_eq]
  rcases fin6_cases c with rfl | rfl | rfl | rfl | rfl | rfl
  · simp only [Fin.reduceEq, ↓reduceIte]
    rw [rskip_row_eq _ _ _ _ _ _ _ (by decide) (by decide) (by decide) (by decide) h0 h1 h2]
    rfl
  · simp only [Fin.reduceEq, ↓reduceIte]
    rw [rskip_row_eq _ _ _ _ _ _ _ (by decide) (by decide) (by decide) (by decide) h0 h1 h2]
    rfl
  · simp only [Fin.reduceEq, ↓reduceIte]
    rw [rskip_row_eq _ _ _ _ _ _ _ (by decide) (by decide) (by decide) (by decide) h0 h1 h2]
    rfl
  · simp only [Fin.reduceEq, ↓reduceIte]
    rw [rskip_row_eq _ _ _ _ _ _ _ (by decide) (by decide) (by decide) (by decide) h3 h4 h5]
    rfl
  · simp only [Fin.reduceEq, ↓reduceIte]
    rw [rskip_row_eq _ _ _ _ _ _ _ (by decide) (by decide) (by decide) (by decide) h3 h4 h5]
    rfl
  · simp only [Fin.reduceEq, ↓reduceIte]
    rw [rskip_row_eq _ _ _ _ _ _ _ (by decide) (by decide) (by decide) (by decide) h3 h4 h5]
    rfl

/-- In exact arithmetic the jump of `__vectorized_cmrg_init_rskip` is `2^127`
steps of the recurrence. -/
theorem rskip_eq_exact_iterate (s : Fin 6 → Int) (h : ValidState s) :
    __vectorized_cmrg_init_rskip s = (jump STEP_A STEP_B)^[2 ^ 127] s := by
  rw [rskip_eq_jump s h, step_iterate_eq_jump]

theorem ext_bounds (s : Fin 6 → Int) (h : ExtValid s) :
    (0 ≤ s 0 ∧ s 0 < 4294967087) ∧ (0 ≤ s 1 ∧ s 1 < 4294967087) ∧
    (0 ≤ s 2 ∧ s 2 < 4294967087) ∧ (0 ≤ s 3 ∧ s 3 ≤ 4294944443) ∧
    (0 ≤ s 4 ∧ s 4 ≤ 4294944443) ∧ (0 ≤ s 5 ∧ s 5 ≤ 4294944443) :=
  ⟨⟨(h 0).1, (h 0).2.2 (by decide)⟩, ⟨(h 1).1, (h 1).2.2 (by decide)⟩,
   ⟨(h 2).1, (h 2).2.2 (by decide)⟩, ⟨(h 3).1, (h 3).2.1⟩, ⟨(h 4).1, (h 4).2.1⟩,
   ⟨(h 5).1, (h 5).2.1⟩⟩

theorem ext_of_bounds (s : Fin 6 → Int)
    (h : (0 ≤ s 0 ∧ s 0 < 4294967087) ∧ (0 ≤ s 1 ∧ s 1 < 4294967087) ∧
      (0 ≤ s 2 ∧ s 2 < 4294967087) ∧ (0 ≤ s 3 ∧ s 3 ≤ 4294944443) ∧
      (0 ≤ s 4 ∧ s 4 ≤ 4294944443) ∧ (0 ≤ s 5 ∧ s 5 ≤ 4294944443)) : ExtValid s := by
  obtain ⟨h0, h1, h2, h3, h4, h5⟩ := h
  intro c
  rcases fin6_cases c with rfl | rfl | rfl | rfl | rfl | rfl
  · exact ⟨h0.1, le_of_lt h0.2, fun _ => h0.2⟩
  · exact ⟨h1.1, le_of_lt h1.2, fun _ => h1.2⟩
  · exact ⟨h2.1, le_of_lt h2.2, fun _ => h2.2⟩
  · exact ⟨h3.1, h3.2, fun hc => absurd hc (by decide)⟩
  · exact ⟨h4.1, h4.2, fun hc => absurd hc (by decide)⟩
  · exact ⟨h5.1, h5.2, fun hc => absurd hc (by decide)⟩

theorem ext_of_valid (s : Fin 6 → Int) (h : ValidState s) : ExtValid s :=
  fun c => ⟨(h c).1, le_of_lt (h c).2, fun _ => (h c).2⟩

theorem kernel_step_apply (s : Fin 6 → Int) :
    kernel_step s 0 = s 1 ∧ kernel_step s 1 = s 2 ∧
    kernel_step s 2 = reduce_lt __CMRG_RM1 __CMRG_ZM1 (lane_xA (s 0) (s 1)) ∧
    kernel_step s 3 = s 4 ∧ kernel_step s 4 = s 5 ∧
    kernel_step s 5 = reduce_lt __CMRG_RM2 __CMRG_ZM2 (lane_xB (s 3) (s 5)) :=
  ⟨core_state_0 _ _, core_state_1 _ _, core_state_2 _ _, core_state_3 _ _, core_state_4 _ _,
   core_state_5 _ _⟩


theorem residues_apply (s : Fin 6 → Int) :
    residues s 0 = s 0 % 4294967087 ∧ residues s 1 = s 1 % 4294967087 ∧
    residues s 2 = s 2 % 4294967087 ∧ residues s 3 = s 3 % 4294944443 ∧
    residues s 4 = s 4 % 4294944443 ∧ residues s 5 = s 5 % 4294944443 :=
  ⟨rfl, rfl, rfl, rfl, rfl, rfl⟩

theorem residue5_arith (v a b c : Int)
    (hv : v = (527612 * c - 1370589 * a) % 4294944443 ∨
      (v = 4294944443 ∧ (527612 * c - 1370589 * a) % 4294944443 = 0)) :
    v % 4294944443
      = (-1370589 * (a % 4294944443) + 0 * (b % 4294944443) + 527612 * (c % 4294944443))
          % 4294944443 := by
  rcases hv with e | ⟨e, e2⟩
  · rw [e]; omega
  · rw [e]; omega

theorem kernel_step_ext (s : Fin 6 → Int) (h : ExtValid s) :
    ExtValid (kernel_step s) ∧
      residues (kernel_step s) = jump STEP_A STEP_B (residues s) := by
  obtain ⟨h0, h1, h2, h3, h4, h5⟩ := ext_bounds s h
  obtain ⟨k0, k1, k2, k3, k4, k5⟩ := kernel_step_apply s
  obtain ⟨r0, r1, r2, r3, r4, r5⟩ := residues_apply s
  obtain ⟨q0, q1, q2, q3, q4, q5⟩ := residues_apply (kernel_step s)
  obtain ⟨j0, j1, j2, j3, j4, j5⟩ := jump_apply STEP_A STEP_B (residues s)
  have hA := lane_A_exact (s 0) (s 1) h0 h1
  have hB := lane_B_cases (s 3) (s 5) h3 h5
  constructor
  · apply ext_of_bounds
    rw [k0, k1, k2, k3, k4, k5, hA]
    refine ⟨h1, h2, by omega, h4, h5, ?_⟩
    rcases hB with e | ⟨e, _⟩
    · rw [e]; omega
    · rw [e]; omega
  · funext c
    rcases fin6_cases c with rfl | rfl | rfl | rfl | rfl | rfl
    · rw [q0, j0, k0, r0, r1, r2]
      unfold lin3 STEP_A
      simp only
      omega
    · rw [q1, j1, k1, r0, r1, r2]
      unfold lin3 STEP_A
      simp only
      omega
    · rw [q2, j2, k2, hA, r0, r1, r2]
      unfold lin3 STEP_A
      simp only
      omega
    · rw [q3, j3, k3, r3, r4, r5]
      unfold lin3 STEP_B
      simp only
      omega
    · rw [q4, j4, k4, r3, r4, r5]
      unfold lin3 STEP_B
      simp only
      omega
    · rw [q5, j5, k5, r3, r4, r5]
      unfold lin3 STEP_B
      simp only
      exact residue5_arith _ _ _ _ hB

theorem kernel_iterate_ext (s : Fin 6 → Int) (h : ExtValid s) (n : Nat) :
    ExtValid (kernel_step^[n] s) ∧
      residues (kernel_step^[n] s) = (jump STEP_A STEP_B)^[n] (residues s) := by
  induction n with
  | zero => exact ⟨h, rfl⟩
  | succ k ih =>
    rw [Function.iterate_succ_apply', Function.iterate_succ_apply']
    obtain ⟨e1, e2⟩ := kernel_step_ext _ ih.1
    exact ⟨e1, by rw [e2, ih.2]⟩

theorem residues_valid (s : Fin 6 → Int) (h : ValidState s) : residues s = s := by
  funext c
  unfold residues
  have hc := h c
  have hm : 0 < modulus c := by omega
  exact Int.emod_eq_of_lt hc.1 hc.2

/-- What the kernel does guarantee: from a valid state, `2^127` steps of the
kernel agree with `__vectorized_cmrg_init_rskip` modulo the moduli; component A
values are in `[0, m1)` (hence equal), component B values in `[0, m2]`. -/
theorem kernel_iterate_residues_eq_rskip (s : Fin 6 → Int) (h : ValidState s) :
    ExtValid (kernel_step^[2 ^ 127] s) ∧
      residues (kernel_step^[2 ^ 127] s) = __vectorized_cmrg_init_rskip s := by
  obtain ⟨e1, e2⟩ := kernel_iterate_ext s (ext_of_valid s h) (2 ^ 127)
  refine ⟨e1, ?_⟩
  rw [e2, residues_valid s h, rskip_eq_exact_iterate s h]


theorem jump_valid (PA PB : Mat3) (s : Fin 6 → Int) : ValidState (jump PA PB s) := by
  intro c
  rcases fin6_cases c with rfl | rfl | rfl | rfl | rfl | rfl
  · exact lin3_range 4294967087 _ _ _ _ _ _ (by decide)
  · exact lin3_range 4294967087 _ _ _ _ _ _ (by decide)
  · exact lin3_range 4294967087 _ _ _ _ _ _ (by decide)
  · exact lin3_range 4294944443 _ _ _ _ _ _ (by decide)
  · exact lin3_range 4294944443 _ _ _ _ _ _ (by decide)
  · exact lin3_range 4294944443 _ _ _ _ _ _ (by decide)

theorem jump_one (s : Fin 6 → Int) (h : ValidState s) :
    jump ⟨1, 0, 0, 0, 1, 0, 0, 0, 1⟩ ⟨1, 0, 0, 0, 1, 0, 0, 0, 1⟩ s = s := by
  obtain ⟨h0, h1, h2, h3, h4, h5⟩ := valid_bounds s h
  obtain ⟨j0, j1, j2, j3, j4, j5⟩ := jump_apply ⟨1, 0, 0, 0, 1, 0, 0, 0, 1⟩ ⟨1, 0, 0, 0, 1, 0, 0, 0, 1⟩ s
  funext c
  rcases fin6_cases c with rfl | rfl | rfl | rfl | rfl | rfl
  · rw [j0]; unfold lin3; simp only; omega
  · rw [j1]; unfold lin3; simp only; omega
  · rw [j2]; unfold lin3; simp only; omega
  · rw [j3]; unfold lin3; simp only; omega
  · rw [j4]; unfold lin3; simp only; omega
  · rw [j5]; unfold lin3; simp only; omega

theorem step_unstep (s : Fin 6 → Int) (h : ValidState s) :
    jump STEP_A STEP_B (jump UNSTEP_A UNSTEP_B s) = s := by
  rw [jump_comp]
  have eA : Mat3.mulMod 4294967087 STEP_A UNSTEP_A = ⟨1, 0, 0, 0, 1, 0, 0, 0, 1⟩ := by decide
  have eB : Mat3.mulMod 4294944443 STEP_B UNSTEP_B = ⟨1, 0, 0, 0, 1, 0, 0, 0, 1⟩ := by decide
  rw [eA, eB]
  exact jump_one s h

theorem unstep_iterate_valid (s : Fin 6 → Int) (h : ValidState s) (n : Nat) :
    ValidState ((jump UNSTEP_A UNSTEP_B)^[n] s) := by
  cases n with
  | zero => exact h
  | succ k =>
    rw [Function.iterate_succ_apply']
    exact jump_valid _ _ _

theorem step_unstep_iterate (s : Fin 6 → Int) (h : ValidState s) (n : Nat) :
    (jump STEP_A STEP_B)^[n] ((jump UNSTEP_A UNSTEP_B)^[n] s) = s := by
  induction n with
  | zero => rfl
  | succ k ih =>
    rw [Function.iterate_succ_apply, Function.iterate_succ_apply',
      step_unstep _ (unstep_iterate_valid s h k)]
    exact ih

theorem eq_of_residues (u t : Fin 6 → Int) (hu : ExtValid u) (ht : ValidState t)
    (h3 : t 3 ≠ 0) (h4 : t 4 ≠ 0) (h5 : t 5 ≠ 0) (hr : residues u = t) : u = t := by
  obtain ⟨u0, u1, u2, u3, u4, u5⟩ := ext_bounds u hu
  obtain ⟨t0, t1, t2, t3, t4, t5⟩ := valid_bounds t ht
  obtain ⟨r0, r1, r2, r3, r4, r5⟩ := residues_apply u
  rw [hr] at r0 r1 r2 r3 r4 r5
  funext c
  rcases fin6_cases c with rfl | rfl | rfl | rfl | rfl | rfl <;> omega

theorem defect_step :
    kernel_step defect_state 5 = 4294944443 := by
  rw [(kernel_step_apply defect_state).2.2.2.2.2]
  exact defect_reduce

/-- Whenever `K - 1` exact steps lead from a valid state `s` to `defect_state`,
the `K`-th kernel step leaves the modulus in component 5, where
`__vectorized_cmrg_init_rskip` leaves a value below the modulus. -/
theorem kernel_iterate_hits_defect (s : Fin 6 → Int) (h : ValidState s) (n : Nat)
    (hn : (jump STEP_A STEP_B)^[n] s = defect_state) :
    kernel_step^[n + 1] s 5 = 4294944443 := by
  obtain ⟨e1, e2⟩ := kernel_iterate_ext s (ext_of_valid s h) n
  rw [residues_valid s h, hn] at e2
  have hu : kernel_step^[n] s = defect_state :=
    eq_of_residues _ _ e1 defect_state_valid (by decide) (by decide) (by decide) e2
  rw [Function.iterate_succ_apply', hu]
  exact defect_step

theorem failing_state_valid : ValidState failing_state := by
  unfold ValidState modulus __CMRG_ZM1 __CMRG_ZM2 failing_state
  decide

theorem jump_source_valid : ValidState jump_source := by
  unfold ValidState modulus __CMRG_ZM1 __CMRG_ZM2 jump_source
  decide

theorem jump_source_step : jump STEP_A STEP_B jump_source = failing_state := by
  funext c
  rcases fin6_cases c with rfl | rfl | rfl | rfl | rfl | rfl <;> decide

theorem jump_source_jump : jump JUMP_A JUMP_B jump_source = defect_state := by
  funext c
  rcases fin6_cases c with rfl | rfl | rfl | rfl | rfl | rfl <;> decide

theorem failing_state_reaches_defect :
    (jump STEP_A STEP_B)^[2 ^ 127 - 1] failing_state = defect_state := by
  rw [← jump_source_step, ← Function.iterate_succ_apply]
  have e : (2 ^ 127 - 1 : Nat).succ = 2 ^ 127 := by norm_num
  rw [e, step_iterate_eq_jump, jump_source_jump]

theorem failing_state_rskip : __vectorized_cmrg_init_rskip failing_state 5 = 0 := by
  rw [rskip_eq_jump _ failing_state_valid]
  decide

theorem rskip_lt (s : Fin 6 → Int) (h : ValidState s) :
    __vectorized_cmrg_init_rskip s 5 < 4294944443 :=
  (rskip_valid s h 5).2


/-- C3 (the code breaks the claim): from the valid state `failing_state`,
`2^127` applications of the kernel's state update leave the modulus
`4294944443` in component 5, whereas `__vectorized_cmrg_init_rskip` yields `0`
there; moreover for no positive step count `K` does `K`-fold application of the
kernel's state update agree with `__vectorized_cmrg_init_rskip` on every valid
state. -/
theorem C3_rskip_differs_from_kernel_iterate :
    (ValidState failing_state ∧
      kernel_step^[2 ^ 127] failing_state 5 = 4294944443 ∧
      __vectorized_cmrg_init_rskip failing_state 5 = 0) ∧
    ¬ ∃ K : Nat, 0 < K ∧
      ∀ s, ValidState s → __vectorized_cmrg_init_rskip s = kernel_step^[K] s := by
  constructor
  · refine ⟨failing_state_valid, ?_, failing_state_rskip⟩
    have h := kernel_iterate_hits_defect failing_state failing_state_valid (2 ^ 127 - 1)
      failing_state_reaches_defect
    have e : 2 ^ 127 - 1 + 1 = 2 ^ 127 := by norm_num
    rw [e] at h
    exact h
  · rintro ⟨K, hK, hall⟩
    obtain ⟨n, rfl⟩ : ∃ n, K = n + 1 := ⟨K - 1, by omega⟩
    have hv := unstep_iterate_valid defect_state defect_state_valid n
    have h := kernel_iterate_hits_defect _ hv n
      (step_unstep_iterate defect_state defect_state_valid n)
    have h2 := rskip_lt _ hv
    rw [hall _ hv, h] at h2
    exact absurd h2 (by decide)

theorem quot_cast_of_nonneg (RM : Nat) (x : Int) (hx : 0 ≤ x) :
    quot_cast RM x = ((round53 (RM * x.natAbs) / 2 ^ 84 : Nat) : Int) :=
  quot_int_nonneg RM x hx

theorem quot_cast_of_neg (RM : Nat) (x : Int) (hx : x < 0) :
    quot_cast RM x = -((round53 (RM * x.natAbs) / 2 ^ 84 : Nat) : Int) :=
  quot_int_neg RM x hx

/-- For `|x| < m1` the product with the reciprocal of `m1` truncates to `0`. -/
theorem quot_cast_zero (x : Int) (h1 : -4294967087 < x) (h2 : x < 4294967087) :
    quot_cast __CMRG_RM1 x = 0 := by
  have hhi : round53 (__CMRG_RM1 * x.natAbs) ≤ 9007199254740991 * 2 ^ 31 :=
    round53_le _ _ (rep53_mul_pow 9007199254740991 31 (by decide))
      (by unfold __CMRG_RM1; omega)
  have hk : round53 (__CMRG_RM1 * x.natAbs) / 2 ^ 84 = 0 := by
    rw [Nat.div_eq_zero_iff (by positivity)]
    omega
  rcases le_or_lt 0 x with h0 | h0
  · rw [quot_cast_of_nonneg _ _ h0, hk]
    rfl
  · rw [quot_cast_of_neg _ _ h0, hk]
    rfl

/-- Quotient and remainder of the component-A reduction. -/
theorem chain_A (x : Int) (hx : x.natAbs ≤ 1403580 * 4294967086) :
    -1403580 ≤ quot_cast __CMRG_RM1 x ∧ quot_cast __CMRG_RM1 x ≤ 1403580 ∧
    -4294967087 < x - 4294967087 * quot_cast __CMRG_RM1 x ∧
    x - 4294967087 * quot_cast __CMRG_RM1 x < 4294967087 := by
  have hq := quot_est_A x.natAbs (by omega)
  have hdm := Nat.div_add_mod x.natAbs 4294967087
  have hr := Nat.mod_lt x.natAbs (by decide : 0 < 4294967087)
  rcases le_or_lt 0 x with h0 | h0
  · rw [quot_cast_of_nonneg _ _ h0]
    generalize round53 (__CMRG_RM1 * x.natAbs) / 2 ^ 84 = k at *
    omega
  · rw [quot_cast_of_neg _ _ h0]
    generalize round53 (__CMRG_RM1 * x.natAbs) / 2 ^ 84 = k at *
    omega

/-- Quotient and remainder of the component-B reduction. -/
theorem chain_B (x : Int) (hx : x.natAbs ≤ 1370589 * 4294944442) :
    -1370589 ≤ quot_cast __CMRG_RM2 x ∧ quot_cast __CMRG_RM2 x ≤ 1370589 ∧
    -4294944443 ≤ x - 4294944443 * quot_cast __CMRG_RM2 x ∧
    x - 4294944443 * quot_cast __CMRG_RM2 x ≤ 4294944443 := by
  have hq := quot_est_B x.natAbs (by omega)
  have hdm := Nat.div_add_mod x.natAbs 4294944443
  have hr := Nat.mod_lt x.natAbs (by decide : 0 < 4294944443)
  rcases le_or_lt 0 x with h0 | h0
  · rw [quot_cast_of_nonneg _ _ h0]
    generalize round53 (__CMRG_RM2 * x.natAbs) / 2 ^ 84 = k at *
    omega
  · rw [quot_cast_of_neg _ _ h0]
    generalize round53 (__CMRG_RM2 * x.natAbs) / 2 ^ 84 = k at *
    omega


/-- The trace of a lane on a valid state, field by field, with the bounds of the
two quotients, the two uncorrected remainders and the new component-B value. -/
theorem lane_trace_facts (s : Fin 6 → Int) (h : ValidState s) :
    ∃ kA kB cB : Int,
      lane_trace s =
        { p1 := 1403580 * s 1, p2 := 810728 * s 0,
          xA := 1403580 * s 1 - 810728 * s 0, kA := kA, mA := 4294967087 * kA,
          rA := 1403580 * s 1 - 810728 * s 0 - 4294967087 * kA,
          cA := (1403580 * s 1 - 810728 * s 0) % 4294967087,
          p3 := 527612 * s 5, p4 := 1370589 * s 3,
          xB := 527612 * s 5 - 1370589 * s 3, kB := kB, mB := 4294944443 * kB,
          rB := 527612 * s 5 - 1370589 * s 3 - 4294944443 * kB,
          cB := cB,
          d := (1403580 * s 1 - 810728 * s 0) % 4294967087 - cB,
          kZ := 0, mZ := 0,
          rZ := (1403580 * s 1 - 810728 * s 0) % 4294967087 - cB,
          z := (1403580 * s 1 - 810728 * s 0) % 4294967087 - cB
            + (if (1403580 * s 1 - 810728 * s 0) % 4294967087 - cB ≤ 0
                then 4294967087 else 0) } ∧
      (-1403580 ≤ kA ∧ kA ≤ 1403580) ∧ (-1370589 ≤ kB ∧ kB ≤ 1370589) ∧
      (-4294967087 < 1403580 * s 1 - 810728 * s 0 - 4294967087 * kA ∧
        1403580 * s 1 - 810728 * s 0 - 4294967087 * kA < 4294967087) ∧
      (-4294944443 ≤ 527612 * s 5 - 1370589 * s 3 - 4294944443 * kB ∧
        527612 * s 5 - 1370589 * s 3 - 4294944443 * kB ≤ 4294944443) ∧
      (0 ≤ cB ∧ cB ≤ 4294944443) ∧
      cB = 527612 * s 5 - 1370589 * s 3 - 4294944443 * kB
        + (if 527612 * s 5 - 1370589 * s 3 - 4294944443 * kB < 0 then 4294944443 else 0) := by
  obtain ⟨h0, h1, _, h3, _, h5⟩ := valid_bounds s h
  have cA := chain_A (1403580 * s 1 - 810728 * s 0) (by omega)
  have cB := chain_B (527612 * s 5 - 1370589 * s 3) (by omega)
  generalize hkA : quot_cast __CMRG_RM1 (1403580 * s 1 - 810728 * s 0) = kA at cA
  generalize hkB : quot_cast __CMRG_RM2 (527612 * s 5 - 1370589 * s 3) = kB at cB
  have e1 : rnd (1403580 * s 1) = 1403580 * s 1 := rnd_eq_self_of_nonneg _ (by omega) (by omega)
  have e2 : rnd (810728 * s 0) = 810728 * s 0 := rnd_eq_self_of_nonneg _ (by omega) (by omega)
  have e3 : rnd (1403580 * s 1 - 810728 * s 0) = 1403580 * s 1 - 810728 * s 0 :=
    rnd_eq_self_of_abs _ (by omega) (by omega)
  have e4 : rnd (4294967087 * kA) = 4294967087 * kA := rnd_eq_self_of_abs _ (by omega) (by omega)
  have e5 : rnd (1403580 * s 1 - 810728 * s 0 - 4294967087 * kA)
      = 1403580 * s 1 - 810728 * s 0 - 4294967087 * kA :=
    rnd_eq_self_of_abs _ (by omega) (by omega)
  have e6 : (1403580 * s 1 - 810728 * s 0 - 4294967087 * kA
      + if 1403580 * s 1 - 810728 * s 0 - 4294967087 * kA < 0 then 4294967087 else 0)
      = (1403580 * s 1 - 810728 * s 0) % 4294967087 := by
    split_ifs <;> omega
  have hA0 := Int.emod_nonneg (1403580 * s 1 - 810728 * s 0) (by decide : (4294967087 : Int) ≠ 0)
  have hA1 := Int.emod_lt_of_pos (1403580 * s 1 - 810728 * s 0)
    (by decide : (0 : Int) < 4294967087)
  generalize hRA : (1403580 * s 1 - 810728 * s 0) % 4294967087 = RA at *
  have e7 : rnd RA = RA := rnd_eq_self_of_nonneg _ (by omega) (by omega)
  have f1 : rnd (527612 * s 5) = 527612 * s 5 := rnd_eq_self_of_nonneg _ (by omega) (by omega)
  have f2 : rnd (1370589 * s 3) = 1370589 * s 3 := rnd_eq_self_of_nonneg _ (by omega) (by omega)
  have f3 : rnd (527612 * s 5 - 1370589 * s 3) = 527612 * s 5 - 1370589 * s 3 :=
    rnd_eq_self_of_abs _ (by omega) (by omega)
  have f4 : rnd (4294944443 * kB) = 4294944443 * kB := rnd_eq_self_of_abs _ (by omega) (by omega)
  have f5 : rnd (527612 * s 5 - 1370589 * s 3 - 4294944443 * kB)
      = 527612 * s 5 - 1370589 * s 3 - 4294944443 * kB :=
    rnd_eq_self_of_abs _ (by omega) (by omega)
  have hCB : 0 ≤ (527612 * s 5 - 1370589 * s 3 - 4294944443 * kB
      + if 527612 * s 5 - 1370589 * s 3 - 4294944443 * kB < 0 then 4294944443 else 0) ∧
      (527612 * s 5 - 1370589 * s 3 - 4294944443 * kB
      + if 527612 * s 5 - 1370589 * s 3 - 4294944443 * kB < 0 then 4294944443 else 0)
        ≤ 4294944443 := by
    split_ifs <;> omega
  generalize hRB : (527612 * s 5 - 1370589 * s 3 - 4294944443 * kB
      + if 527612 * s 5 - 1370589 * s 3 - 4294944443 * kB < 0 then 4294944443 else 0) = RB at *
  have f7 : rnd RB = RB := rnd_eq_self_of_nonneg _ (by omega) (by omega)
  have g1 : rnd (RA - RB) = RA - RB := rnd_eq_self_of_abs _ (by omega) (by omega)
  have g2 : quot_cast __CMRG_RM1 (RA - RB) = 0 := quot_cast_zero _ (by omega) (by omega)
  have g3 : rnd 0 = 0 := rnd_eq_self_of_nonneg 0 (by decide) (by decide)
  refine ⟨kA, kB, RB, ?_, ⟨cA.1, cA.2.1⟩, ⟨cB.1, cB.2.1⟩, ⟨cA.2.2.1, cA.2.2.2⟩,
    ⟨cB.2.2.1, cB.2.2.2⟩, hCB, hRB.symm⟩
  unfold lane_trace
  simp only [__CMRG_ZM1, __CMRG_ZM2]
  simp only [e1, e2, e3, hkA, e4, e5, e6, hRA, e7, f1, f2, f3, hkB, f4, f5, hRB, f7, g1, g2, mul_zero,
    g3, sub_zero]


/-- The lane trace is the computation of the kernel: the new `rstate[2]`,
`rstate[5]` and the combined residue of lane `l` are the (rounded) trace values
`cA`, `cB`, `z` of that lane. -/
theorem lane_trace_kernel {W : Nat} (st : Fin 6 → VEC W) (l : Fin W) :
    (rand_group_core st).1 2 l = rnd (lane_trace (fun c => st c l)).cA ∧
    (rand_group_core st).1 5 l = rnd (lane_trace (fun c => st c l)).cB ∧
    (rand_group_core st).2 l = rnd (lane_trace (fun c => st c l)).z := by
  refine ⟨?_, ?_, ?_⟩
  · rw [core_state_2]
    simp only [reduce_lt, lane_xA, lane_trace, quot_cast, __CMRG_ZM1]
  · rw [core_state_5]
    simp only [reduce_lt, lane_xB, lane_trace, quot_cast, __CMRG_ZM2]
  · rw [core_z]
    simp only [reduce_lt, reduce_le, lane_xA, lane_xB, lane_trace, quot_cast, __CMRG_ZM1,
      __CMRG_ZM2]

theorem tdiv_reduce (x : Int) :
    (if x - Int.tdiv x 4294967087 * 4294967087 < 0
      then x - Int.tdiv x 4294967087 * 4294967087 + 4294967087
      else x - Int.tdiv x 4294967087 * 4294967087) = x % 4294967087 := by
  rcases le_or_lt 0 x with h | h
  · rw [Int.tdiv_eq_ediv h (by decide)]
    split_ifs <;> omega
  · have e : Int.tdiv x 4294967087 = -((-x) / 4294967087) := by
      have := Int.neg_tdiv (-x) 4294967087
      rw [neg_neg] at this
      rw [this, Int.tdiv_eq_ediv (by omega) (by decide)]
    rw [e]
    split_ifs <;> omega

/-- C12: for every lane whose A values are whole numbers in `[0, m1)`, one call
of the kernel leaves `A0' = A1`, `A1' = A2` and
`A2' = (1403580*A1 - 810728*A0) mod m1` (non-negative remainder); and the
truncate-then-correct-on-`< 0` recipe computes `x mod m1` for every whole `x`. -/
theorem C12_component_A_step {W : Nat} (rstate : Fin 6 → VEC W) (l : Fin W)
    (h0 : 0 ≤ rstate 0 l ∧ rstate 0 l < 4294967087)
    (h1 : 0 ≤ rstate 1 l ∧ rstate 1 l < 4294967087)
    (h2 : 0 ≤ rstate 2 l ∧ rstate 2 l < 4294967087) :
    (rand_group_core rstate).1 0 l = rstate 1 l ∧
    (rand_group_core rstate).1 1 l = rstate 2 l ∧
    (rand_group_core rstate).1 2 l
      = (1403580 * rstate 1 l - 810728 * rstate 0 l) % 4294967087 ∧
    ∀ x : Int,
      (if x - Int.tdiv x 4294967087 * 4294967087 < 0
        then x - Int.tdiv x 4294967087 * 4294967087 + 4294967087
        else x - Int.tdiv x 4294967087 * 4294967087) = x % 4294967087 := by
  refine ⟨core_state_0 _ _, core_state_1 _ _, ?_, tdiv_reduce⟩
  rw [core_state_2]
  exact lane_A_exact _ _ h0 h1

/-- Witness of C12 at lane width 1 on the state `(12345, ..., 12345)`. -/
theorem C12_component_A_step_witness :
    ((0 : Int) ≤ 12345 ∧ (12345 : Int) < 4294967087) ∧
    (rand_group_core (W := 1) (fun _ _ => 12345)).1 2 0
      = (1403580 * 12345 - 810728 * 12345) % 4294967087 :=
  ⟨by decide,
   (C12_component_A_step (W := 1) (fun _ _ => 12345) 0 (by decide) (by decide)
      (by decide)).2.2.1⟩


set_option maxRecDepth 100000 in
/-- C13 (as stated, refuted): on the valid lane state `(1, 2, 3, 1, 2, 3)` the
kernel leaves `B2' = 212247 = (527612*B2 - 1370589*B0) mod m2`, not
`(527612*B1 - 1370589*B0) mod m2 = 4294629078`: the first coefficient multiplies
the third B value. (And on `defect_state` the new value is `m2`, not the
remainder `0`, whichever B value is used.) -/
theorem C13_counterexample :
    (rand_group_core (W := 1) (fun c _ => (![1, 2, 3, 1, 2, 3] : Fin 6 → Int) c)).1 5 0 = 212247 ∧
    (527612 * (2 : Int) - 1370589 * 1) % 4294944443 = 4294629078 ∧
    (527612 * (3 : Int) - 1370589 * 1) % 4294944443 = 212247 ∧
    (rand_group_core (W := 1) (fun c _ => defect_state c)).1 5 0 = 4294944443 ∧
    (527612 * defect_state 5 - 1370589 * defect_state 3) % 4294944443 = 0 := by
  refine ⟨?_, by decide, by decide, ?_, by decide⟩
  · rw [core_state_5]
    decide
  · rw [core_state_5]
    exact defect_reduce

/-- C13 (amended): for every lane whose B values are whole numbers in `[0, m2)`,
one call of the kernel leaves `B0' = B1`, `B1' = B2`, and
`B2' = (527612*B2 - 1370589*B0) mod m2` whenever that remainder is not zero: the
first coefficient multiplies the third B value, the second the first. -/
theorem C13_component_B_step {W : Nat} (rstate : Fin 6 → VEC W) (l : Fin W)
    (h3 : 0 ≤ rstate 3 l ∧ rstate 3 l < 4294944443)
    (h4 : 0 ≤ rstate 4 l ∧ rstate 4 l < 4294944443)
    (h5 : 0 ≤ rstate 5 l ∧ rstate 5 l < 4294944443) :
    (rand_group_core rstate).1 3 l = rstate 4 l ∧
    (rand_group_core rstate).1 4 l = rstate 5 l ∧
    ((527612 * rstate 5 l - 1370589 * rstate 3 l) % 4294944443 ≠ 0 →
      (rand_group_core rstate).1 5 l
        = (527612 * rstate 5 l - 1370589 * rstate 3 l) % 4294944443) := by
  refine ⟨core_state_3 _ _, core_state_4 _ _, ?_⟩
  intro hne
  rw [core_state_5]
  rcases lane_B_cases (rstate 3 l) (rstate 5 l) ⟨h3.1, by omega⟩ ⟨h5.1, by omega⟩
    with e | ⟨_, e⟩
  · exact e
  · exact absurd e hne

/-- Witness of the amended C13 at lane width 1 on the state `(12345, ..., 12345)`. -/
theorem C13_component_B_step_witness :
    ((0 : Int) ≤ 12345 ∧ (12345 : Int) < 4294944443) ∧
    (527612 * (12345 : Int) - 1370589 * 12345) % 4294944443 ≠ 0 ∧
    (rand_group_core (W := 1) (fun _ _ => 12345)).1 5 0
      = (527612 * 12345 - 1370589 * 12345) % 4294944443 :=
  ⟨by decide, by decide,
   (C13_component_B_step (W := 1) (fun _ _ => 12345) 0 (by decide) (by decide)
      (by decide)).2.2 (by decide)⟩

/-- C14: for every lane whose new third values `A2'`, `B2'` are in `[0, m1)`
resp. `[0, m2)`, the combined residue `z` before scaling satisfies
`0 < z ≤ m1`; it is `(A2' - B2') mod m1` when that remainder is not zero and `m1`
when it is zero; so `z` is never `0`. -/
theorem C14_combination_step {W : Nat} (rstate : Fin 6 → VEC W) (l : Fin W)
    (hA : 0 ≤ (rand_group_core rstate).1 2 l ∧ (rand_group_core rstate).1 2 l < 4294967087)
    (hB : 0 ≤ (rand_group_core rstate).1 5 l ∧ (rand_group_core rstate).1 5 l < 4294944443) :
    0 < (rand_group_core rstate).2 l ∧ (rand_group_core rstate).2 l ≤ 4294967087 ∧
    (((rand_group_core rstate).1 2 l - (rand_group_core rstate).1 5 l) % 4294967087 ≠ 0 →
      (rand_group_core rstate).2 l
        = ((rand_group_core rstate).1 2 l - (rand_group_core rstate).1 5 l) % 4294967087) ∧
    (((rand_group_core rstate).1 2 l - (rand_group_core rstate).1 5 l) % 4294967087 = 0 →
      (rand_group_core rstate).2 l = 4294967087) ∧
    (rand_group_core rstate).2 l ≠ 0 := by
  have hz : (rand_group_core rstate).2 l
      = reduce_le __CMRG_RM1 __CMRG_ZM1
          (rnd ((rand_group_core rstate).1 2 l - (rand_group_core rstate).1 5 l)) := by
    rw [core_z, core_state_2, core_state_5]
  generalize (rand_group_core rstate).1 2 l = a at *
  generalize (rand_group_core rstate).1 5 l = b at *
  rw [hz, rnd_eq_self_of_abs (a - b) (by omega) (by omega)]
  have := reduce_le_A (a - b) (by omega) (by omega)
  unfold __CMRG_ZM1
  rw [this]
  split_ifs <;> refine ⟨?_, ?_, ?_, ?_, ?_⟩ <;> omega

set_option maxRecDepth 100000 in
/-- Witness of C14 at lane width 1 on the state `(12345, ..., 12345)`. -/
theorem C14_combination_step_witness :
    (0 ≤ (rand_group_core (W := 1) (fun _ _ => 12345)).1 2 0 ∧
      (rand_group_core (W := 1) (fun _ _ => 12345)).1 2 0 < 4294967087) ∧
    (0 ≤ (rand_group_core (W := 1) (fun _ _ => 12345)).1 5 0 ∧
      (rand_group_core (W := 1) (fun _ _ => 12345)).1 5 0 < 4294944443) ∧
    0 < (rand_group_core (W := 1) (fun _ _ => 12345)).2 0 ∧
    (rand_group_core (W := 1) (fun _ _ => 12345)).2 0 ≤ 4294967087 :=
  have hA : 0 ≤ (rand_group_core (W := 1) (fun _ _ => 12345)).1 2 0 ∧
      (rand_group_core (W := 1) (fun _ _ => 12345)).1 2 0 < 4294967087 := by
    rw [core_state_2]
    decide
  have hB : 0 ≤ (rand_group_core (W := 1) (fun _ _ => 12345)).1 5 0 ∧
      (rand_group_core (W := 1) (fun _ _ => 12345)).1 5 0 < 4294944443 := by
    rw [core_state_5]
    decide
  ⟨hA, hB, (C14_combination_step (W := 1) (fun _ _ => 12345) 0 hA hB).1,
    (C14_combination_step (W := 1) (fun _ _ => 12345) 0 hA hB).2.1⟩


/-- C15: for every group state whose lanes satisfy the stored-state invariant,
every whole-number intermediate the kernel forms in lane `l` (the four
coefficient-times-state products, the two differences, the three
quotient-times-modulus products, the remainders before and after correction and
the combination difference) lies strictly between `-2^53` and `2^53` and is
therefore left unchanged by binary64 rounding; the trace's `cA`, `cB`, `z` are
the kernel's new `rstate[2]`, `rstate[5]` and combined residue. -/
theorem C15_intermediates_exact {W : Nat} (rstate : Fin 6 → VEC W) (l : Fin W)
    (hv : ValidState (fun c => rstate c l)) :
    (∀ v ∈ (lane_trace (fun c => rstate c l)).values,
      -(2 ^ 53) < v ∧ v < 2 ^ 53 ∧ rnd v = v) ∧
    (rand_group_core rstate).1 2 l = (lane_trace (fun c => rstate c l)).cA ∧
    (rand_group_core rstate).1 5 l = (lane_trace (fun c => rstate c l)).cB ∧
    (rand_group_core rstate).2 l = (lane_trace (fun c => rstate c l)).z := by
  obtain ⟨h0, h1, _, h3, _, h5⟩ := valid_bounds _ hv
  obtain ⟨kA, kB, cB, ht, hkA, hkB, hrA, hrB, hcB, _⟩ := lane_trace_facts _ hv
  have hA0 := Int.emod_nonneg (1403580 * rstate 1 l - 810728 * rstate 0 l)
    (by decide : (4294967087 : Int) ≠ 0)
  have hA1 := Int.emod_lt_of_pos (1403580 * rstate 1 l - 810728 * rstate 0 l)
    (by decide : (0 : Int) < 4294967087)
  have hall : ∀ v ∈ (lane_trace (fun c => rstate c l)).values, -(2 ^ 53) < v ∧ v < 2 ^ 53 := by
    intro v hm
    rw [ht] at hm
    simp only [LaneTrace.values, List.mem_cons, List.mem_singleton, List.not_mem_nil,
      or_false] at hm
    rcases hm with rfl | rfl | rfl | rfl | rfl | rfl | rfl | rfl | rfl | rfl | rfl | rfl | rfl
      | rfl | rfl | rfl
    all_goals omega
  obtain ⟨k2, k5, kz⟩ := lane_trace_kernel rstate l
  have hmem : ∀ v ∈ (lane_trace (fun c => rstate c l)).values, rnd v = v :=
    fun v hm => rnd_eq_self_of_abs v (hall v hm).1 (hall v hm).2
  refine ⟨fun v hm => ⟨(hall v hm).1, (hall v hm).2, hmem v hm⟩, ?_, ?_, ?_⟩
  · rw [k2]
    exact hmem _ (by simp [LaneTrace.values])
  · rw [k5]
    exact hmem _ (by simp [LaneTrace.values])
  · rw [kz]
    exact hmem _ (by simp [LaneTrace.values])

/-- Witness of C15 at lane width 1 on the state `(12345, ..., 12345)`. -/
theorem C15_intermediates_exact_witness :
    ValidState (fun c => (fun (_ : Fin 6) (_ : Fin 1) => (12345 : Int)) c 0) ∧
    ∀ v ∈ (lane_trace (fun c => (fun (_ : Fin 6) (_ : Fin 1) => (12345 : Int)) c 0)).values,
      -(2 ^ 53) < v ∧ v < 2 ^ 53 ∧ rnd v = v :=
  ⟨valid_const 12345 (by decide),
   (C15_intermediates_exact (W := 1) (fun _ _ => 12345) 0 (valid_const 12345 (by decide))).1⟩

/-- C20: for every group state whose lanes satisfy the stored-state invariant,
each of the three values the kernel truncates in lane `l` fits a 32-bit signed
integer, so the conversion to `int` and back changes nothing: `|k| ≤ 1403580`
for component A, `|k| ≤ 1370589` for component B, and `k = 0` for the
combination step. -/
theorem C20_cast_in_range {W : Nat} (rstate : Fin 6 → VEC W) (l : Fin W)
    (hv : ValidState (fun c => rstate c l)) :
    (-1403580 ≤ (lane_trace (fun c => rstate c l)).kA ∧
      (lane_trace (fun c => rstate c l)).kA ≤ 1403580) ∧
    (-1370589 ≤ (lane_trace (fun c => rstate c l)).kB ∧
      (lane_trace (fun c => rstate c l)).kB ≤ 1370589) ∧
    (lane_trace (fun c => rstate c l)).kZ = 0 ∧
    (∀ k ∈ [(lane_trace (fun c => rstate c l)).kA, (lane_trace (fun c => rstate c l)).kB,
        (lane_trace (fun c => rstate c l)).kZ],
      -(2 ^ 31) ≤ k ∧ k < 2 ^ 31 ∧ int32_of_trunc k = k) := by
  obtain ⟨kA, kB, cB, ht, hkA, hkB, _, _, _, _⟩ := lane_trace_facts _ hv
  rw [ht]
  simp only
  refine ⟨hkA, hkB, trivial, ?_⟩
  intro k hm
  simp only [List.mem_cons, List.mem_singleton, List.not_mem_nil, or_false] at hm
  have hr : -(2 ^ 31) ≤ k ∧ k < 2 ^ 31 := by
    rcases hm with rfl | rfl | rfl <;> omega
  refine ⟨hr.1, hr.2, ?_⟩
  unfold int32_of_trunc
  rw [if_pos hr]

/-- Witness of C20 at lane width 1 on the state `(12345, ..., 12345)`. -/
theorem C20_cast_in_range_witness :
    ValidState (fun c => (fun (_ : Fin 6) (_ : Fin 1) => (12345 : Int)) c 0) ∧
    (lane_trace (fun c => (fun (_ : Fin 6) (_ : Fin 1) => (12345 : Int)) c 0)).kZ = 0 :=
  ⟨valid_const 12345 (by decide),
   (C20_cast_in_range (W := 1) (fun _ _ => 12345) 0 (valid_const 12345 (by decide))).2.2.1⟩


/-- C16 (as stated, refuted): the full product `a * s` can be among the values
`__vectorized_cmrg_init_mulmod` forms.  For `a = 5`, `s = 7`, `m = 11`
(`a < 2^17`, so `abig = 0`) the term `asmall * s` is `a * s = 35`; for
`a = 131072`, `s = 1`, `m = 131073` the sum `u` is `a * s = 131072`. -/
theorem C16_counterexample :
    (((0 : Int) ≤ 5 ∧ (5 : Int) < 11) ∧ ((0 : Int) ≤ 7 ∧ (7 : Int) < 11) ∧
      (11 : Int) < 2 ^ 32 ∧ (5 : Int) * 7 ∈ mulmod_trace 5 7 11) ∧
    (((0 : Int) ≤ 131072 ∧ (131072 : Int) < 131073) ∧
      ((0 : Int) ≤ 1 ∧ (1 : Int) < 131073) ∧ (131073 : Int) < 2 ^ 32 ∧
      (131072 : Int) * 1 ∈ mulmod_trace 131072 1 131073) := by
  decide

/-- C16 (amended): for whole numbers `0 ≤ a, s < m < 2^32`, every intermediate
value of `__vectorized_cmrg_init_mulmod` (`asmall`, `a - asmall`, `abig`,
`abig * s`, its remainder, that remainder times `2^17`, `asmall * s`, their sum
`u`, and the result) is a non-negative whole number below `2^53`, unchanged by
rounding; `a - asmall` is divisible by `2^17`; the last value of the trace is
the value the function returns; and the full product `a * s` is among the
values formed exactly when `floor(a / 2^17) * s < m` (it is then the sum `u`,
and below `2^50`), so it is never formed when `floor(a / 2^17) * s ≥ m`. -/
theorem C16_mulmod_intermediates (a s m : Int) (ha : 0 ≤ a ∧ a < m) (hs : 0 ≤ s ∧ s < m)
    (hm : m < 2 ^ 32) :
    (∀ v ∈ mulmod_trace a s m, 0 ≤ v ∧ v < 2 ^ 53 ∧ rnd v = v) ∧
    (131072 : Int) ∣ a - fmod a 131072 ∧
    mulmod_trace a s m
      = [a % 131072, a - a % 131072, a / 131072, a / 131072 * s, a / 131072 * s % m,
         a / 131072 * s % m * 131072, a % 131072 * s,
         a / 131072 * s % m * 131072 + a % 131072 * s,
         __vectorized_cmrg_init_mulmod a s m] ∧
    (a * s ∈ mulmod_trace a s m ↔ a / 131072 * s < m) ∧
    (a / 131072 * s < m →
      a * s = a / 131072 * s % m * 131072 + a % 131072 * s ∧ a * s < 2 ^ 50) := by
  have hm0 : 0 < m := by omega
  have hlow : fmod a 131072 = a % 131072 := fmod_eq_emod a 131072 ha.1 (by decide)
  have hsub : a - a % 131072 = 131072 * (a / 131072) := by omega
  have hq0 : 0 ≤ a / 131072 := by omega
  have hq1 : a / 131072 < 32768 := by omega
  have e1 : rnd (a - a % 131072) = 131072 * (a / 131072) := by
    rw [hsub]
    exact rnd_eq_self_of_nonneg _ (by omega) (by omega)
  have hbig : Int.tdiv (131072 * (a / 131072)) 131072 = a / 131072 := by
    rw [Int.tdiv_eq_ediv (by omega) (by decide)]
    omega
  have hp0 : 0 ≤ a / 131072 * s := Int.mul_nonneg hq0 hs.1
  have hp1 : a / 131072 * s < 2 ^ 47 := by nlinarith
  have e2 : rnd (a / 131072 * s) = a / 131072 * s := rnd_eq_self_of_nonneg _ hp0 (by omega)
  have e3 : fmod (a / 131072 * s) m = a / 131072 * s % m := fmod_eq_emod _ m hp0 (by omega)
  have hr0 : 0 ≤ a / 131072 * s % m := Int.emod_nonneg _ (by omega)
  have hr1 : a / 131072 * s % m < m := Int.emod_lt_of_pos _ hm0
  have e4 : rnd (a / 131072 * s % m * 131072) = a / 131072 * s % m * 131072 :=
    rnd_eq_self_of_nonneg _ (by omega) (by omega)
  have hl0 : 0 ≤ a % 131072 := by omega
  have hl1 : a % 131072 < 131072 := by omega
  have hls0 : 0 ≤ a % 131072 * s := Int.mul_nonneg hl0 hs.1
  have hls1 : a % 131072 * s < 2 ^ 49 := by nlinarith
  have e5 : rnd (a % 131072 * s) = a % 131072 * s := rnd_eq_self_of_nonneg _ hls0 (by omega)
  have htrace : mulmod_trace a s m
      = [a % 131072, a - a % 131072, a / 131072, a / 131072 * s, a / 131072 * s % m,
         a / 131072 * s % m * 131072, a % 131072 * s,
         a / 131072 * s % m * 131072 + a % 131072 * s,
         __vectorized_cmrg_init_mulmod a s m] := by
    unfold mulmod_trace __vectorized_cmrg_init_mulmod
    simp only [hlow, e1, hbig, e2, e3, e4, e5]
  have hres := mulmod_exact a s m ha.1 ha.2 hs.1 hs.2 hm
  have hres0 := Int.emod_nonneg (a * s) (ne_of_gt hm0)
  have hres1 := Int.emod_lt_of_pos (a * s) hm0
  have hall : ∀ v ∈ mulmod_trace a s m, 0 ≤ v ∧ v < 2 ^ 53 := by
    intro v hv
    rw [htrace, hres] at hv
    simp only [List.mem_cons, List.mem_singleton, List.not_mem_nil, or_false] at hv
    rcases hv with rfl | rfl | rfl | rfl | rfl | rfl | rfl | rfl | rfl
    all_goals omega
  have hprod : a * s = a / 131072 * s * 131072 + a % 131072 * s := by
    have h := Int.emod_add_ediv a 131072
    calc a * s = (a % 131072 + 131072 * (a / 131072)) * s := by rw [h]
      _ = a / 131072 * s * 131072 + a % 131072 * s := by ring
  have hsum : a / 131072 * s < m →
      a * s = a / 131072 * s % m * 131072 + a % 131072 * s := by
    intro hlt
    rw [Int.emod_eq_of_lt hp0 hlt]
    exact hprod
  refine ⟨fun v hv => ⟨(hall v hv).1, (hall v hv).2,
    rnd_eq_self_of_nonneg v (hall v hv).1 (hall v hv).2⟩, ?_, htrace, ⟨?_, ?_⟩,
    fun hlt => ⟨hsum hlt, by omega⟩⟩
  · rw [hlow, hsub]
    exact Dvd.intro _ rfl
  · intro hmem
    by_contra hge
    rw [htrace, hres] at hmem
    simp only [List.mem_cons, List.mem_singleton, List.not_mem_nil, or_false] at hmem
    rcases hmem with h | h | h | h | h | h | h | h | h
    all_goals omega
  · intro hlt
    have hu := hsum hlt
    rw [htrace]
    simp only [List.mem_cons]
    right; right; right; right; right; right; right; left
    exact hu

/-- Witness of the amended C16 at `a = 4294967086`, `s = 3580155704`,
`m = 4294967087`. -/
theorem C16_mulmod_intermediates_witness :
    ((0 : Int) ≤ 4294967086 ∧ (4294967086 : Int) < 4294967087) ∧
    ((0 : Int) ≤ 3580155704 ∧ (3580155704 : Int) < 4294967087) ∧
    (4294967087 : Int) < 2 ^ 32 ∧
    ∀ v ∈ mulmod_trace 4294967086 3580155704 4294967087, 0 ≤ v ∧ v < 2 ^ 53 ∧ rnd v = v :=
  ⟨by decide, by decide, by decide,
   (C16_mulmod_intermediates 4294967086 3580155704 4294967087 (by decide) (by decide)
      (by decide)).1⟩

/-- C17: in the scalar backend the mask is `-DBL_MAX` (bits
`0xFFEFFFFFFFFFFFFF`, not all ones) when the comparison holds and `0` otherwise;
for each of the two correction constants `and_doubles` of the mask with the
constant gives exactly the bit pattern of the constant in the first case and
the bit pattern of `+0.0` in the second. -/
theorem C17_scalar_mask_select :
    scalar_mask_bits true = 0xFFEFFFFFFFFFFFFF ∧
    scalar_mask_bits true ≠ 2 ^ 64 - 1 ∧
    scalar_mask_bits false = 0 ∧
    double_bits 4294967087 = 0x41EFFFFFE5E00000 ∧
    double_bits 4294944443 = 0x41EFFFF4D7600000 ∧
    and_doubles (scalar_mask_bits true) (double_bits 4294967087) = double_bits 4294967087 ∧
    and_doubles (scalar_mask_bits true) (double_bits 4294944443) = double_bits 4294944443 ∧
    and_doubles (scalar_mask_bits false) (double_bits 4294967087) = double_bits 0 ∧
    and_doubles (scalar_mask_bits false) (double_bits 4294944443) = double_bits 0 := by
  decide

theorem rskip_row_sums_bound (m c0 c1 c2 s0 s1 s2 : Int) (hm : m < 2 ^ 32)
    (h0 : 0 ≤ c0 ∧ c0 < m) (h1 : 0 ≤ c1 ∧ c1 < m) (h2 : 0 ≤ c2 ∧ c2 < m)
    (g0 : 0 ≤ s0 ∧ s0 < m) (g1 : 0 ≤ s1 ∧ s1 < m) (g2 : 0 ≤ s2 ∧ s2 < m) :
    ∀ v ∈ rskip_row_sums m c0 c1 c2 s0 s1 s2, 0 ≤ v ∧ v < 2 ^ 53 := by
  have hm0 : 0 < m := by omega
  intro v hv
  unfold rskip_row_sums at hv
  rw [mulmod_exact s0 c0 m g0.1 g0.2 h0.1 h0.2 hm, mulmod_exact s1 c1 m g1.1 g1.2 h1.1 h1.2 hm,
    mulmod_exact s2 c2 m g2.1 g2.2 h2.1 h2.2 hm] at hv
  have a0 := Int.emod_nonneg (s0 * c0) (ne_of_gt hm0)
  have a1 := Int.emod_nonneg (s1 * c1) (ne_of_gt hm0)
  have a2 := Int.emod_nonneg (s2 * c2) (ne_of_gt hm0)
  have b0 := Int.emod_lt_of_pos (s0 * c0) hm0
  have b1 := Int.emod_lt_of_pos (s1 * c1) hm0
  have b2 := Int.emod_lt_of_pos (s2 * c2) hm0
  rw [rnd_eq_self_of_nonneg (s0 * c0 % m + s1 * c1 % m) (by omega) (by omega)] at hv
  simp only [List.mem_cons, List.mem_singleton, List.not_mem_nil, or_false] at hv
  rcases hv with rfl | rfl <;> omega

/-- C18: on a state satisfying the stored-state invariant, every `mulmod` call
of `__vectorized_cmrg_init_rskip` has both operands (state value and jump
coefficient) non-negative and below the modulus, with the modulus below `2^32`;
every two- and three-term sum is non-negative and below `2^53`; and the six
resulting values satisfy the invariant again. -/
theorem C18_rskip_preserves_invariant (rstate : Fin 6 → Int) (hv : ValidState rstate) :
    (∀ c ∈ rskip_calls rstate,
      0 ≤ c.1 ∧ c.1 < c.2.2 ∧ 0 ≤ c.2.1 ∧ c.2.1 < c.2.2 ∧ c.2.2 < 2 ^ 32) ∧
    (∀ v ∈ rskip_sums rstate, 0 ≤ v ∧ v < 2 ^ 53) ∧
    ValidState (__vectorized_cmrg_init_rskip rstate) := by
  obtain ⟨h0, h1, h2, h3, h4, h5⟩ := valid_bounds rstate hv
  refine ⟨?_, ?_, rskip_valid rstate hv⟩
  · intro c hc
    simp only [rskip_calls, List.mem_cons, List.mem_singleton, List.not_mem_nil, or_false] at hc
    rcases hc with rfl | rfl | rfl | rfl | rfl | rfl | rfl | rfl | rfl | rfl | rfl | rfl | rfl
      | rfl | rfl | rfl | rfl | rfl
    all_goals (simp only; omega)
  · intro v hm
    simp only [rskip_sums, List.mem_append] at hm
    rcases hm with ((((hm | hm) | hm) | hm) | hm) | hm
    · exact rskip_row_sums_bound _ _ _ _ _ _ _ (by decide) (by decide) (by decide) (by decide)
        h0 h1 h2 v hm
    · exact rskip_row_sums_bound _ _ _ _ _ _ _ (by decide) (by decide) (by decide) (by decide)
        h0 h1 h2 v hm
    · exact rskip_row_sums_bound _ _ _ _ _ _ _ (by decide) (by decide) (by decide) (by decide)
        h0 h1 h2 v hm
    · exact rskip_row_sums_bound _ _ _ _ _ _ _ (by decide) (by decide) (by decide) (by decide)
        h3 h4 h5 v hm
    · exact rskip_row_sums_bound _ _ _ _ _ _ _ (by decide) (by decide) (by decide) (by decide)
        h3 h4 h5 v hm
    · exact rskip_row_sums_bound _ _ _ _ _ _ _ (by decide) (by decide) (by decide) (by decide)
        h3 h4 h5 v hm

/-- Witness of C18 on the state `(12345, ..., 12345)`. -/
theorem C18_rskip_preserves_invariant_witness :
    ValidState (fun _ => (12345 : Int)) ∧
    ValidState (__vectorized_cmrg_init_rskip (fun _ => 12345)) :=
  ⟨valid_const 12345 (by decide),
   (C18_rskip_preserves_invariant (fun _ => 12345) (valid_const 12345 (by decide))).2.2⟩


theorem rskip_row_uses_sums (m c0 c1 c2 s0 s1 s2 : Int) :
    ∃ x y, rskip_row_sums m c0 c1 c2 s0 s1 s2 = [x, y] ∧
      rskip_row m c0 c1 c2 s0 s1 s2 = fmod (rnd y) m :=
  ⟨_, _, rfl, rfl⟩

set_option maxRecDepth 100000 in
theorem kernel_step_jump_source : kernel_step jump_source = failing_state := by
  obtain ⟨k0, k1, k2, k3, k4, k5⟩ := kernel_step_apply jump_source
  funext c
  rcases fin6_cases c with rfl | rfl | rfl | rfl | rfl | rfl
  · rw [k0]; rfl
  · rw [k1]; rfl
  · rw [k2]; decide
  · rw [k3]; rfl
  · rw [k4]; rfl
  · rw [k5]; decide

theorem rskip_jump_source : __vectorized_cmrg_init_rskip jump_source = defect_state := by
  rw [rskip_eq_jump _ jump_source_valid, jump_source_jump]

/-- The jump matrices commute with the one-step matrices modulo their moduli. -/
theorem jump_step_commute :
    Mat3.mulMod 4294967087 JUMP_A STEP_A = Mat3.mulMod 4294967087 STEP_A JUMP_A ∧
    Mat3.mulMod 4294944443 JUMP_B STEP_B = Mat3.mulMod 4294944443 STEP_B JUMP_B := by
  decide

/-- In exact arithmetic the jump commutes with the recurrence step. -/
theorem jump_step_commute_apply (s : Fin 6 → Int) :
    jump JUMP_A JUMP_B (jump STEP_A STEP_B s) = jump STEP_A STEP_B (jump JUMP_A JUMP_B s) := by
  rw [jump_comp, jump_comp, jump_step_commute.1, jump_step_commute.2]

/-- C19 (the code breaks the claim): on the valid state `jump_source`, applying
the kernel's state update and then `__vectorized_cmrg_init_rskip` gives `0` in
component 5, while applying `__vectorized_cmrg_init_rskip` and then the kernel's
state update gives the modulus `4294944443` there; the jump matrices themselves
do commute with the one-step matrices modulo `m1` resp. `m2`. -/
theorem C19_jump_then_step_differs :
    ValidState jump_source ∧
    __vectorized_cmrg_init_rskip (kernel_step jump_source) 5 = 0 ∧
    kernel_step (__vectorized_cmrg_init_rskip jump_source) 5 = 4294944443 ∧
    __vectorized_cmrg_init_rskip (kernel_step jump_source)
      ≠ kernel_step (__vectorized_cmrg_init_rskip jump_source) ∧
    Mat3.mulMod 4294967087 JUMP_A STEP_A = Mat3.mulMod 4294967087 STEP_A JUMP_A ∧
    Mat3.mulMod 4294944443 JUMP_B STEP_B = Mat3.mulMod 4294944443 STEP_B JUMP_B := by
  have h1 : __vectorized_cmrg_init_rskip (kernel_step jump_source) 5 = 0 := by
    rw [kernel_step_jump_source]
    exact failing_state_rskip
  have h2 : kernel_step (__vectorized_cmrg_init_rskip jump_source) 5 = 4294944443 := by
    rw [rskip_jump_source]
    exact defect_step
  refine ⟨jump_source_valid, h1, h2, ?_, jump_step_commute.1, jump_step_commute.2⟩
  intro he
  have := congrFun he 5
  rw [h1, h2] at this
  exact absurd this (by decide)

/-- C11 (the code breaks the claim): without a prior initialisation
`vectorized_cmrg_cleanup` calls `free` on nothing; after a successful
`vectorized_cmrg_init(2, 12345.0)` the first call releases the live block and
leaves `rstatv` non-null, and the second consecutive call calls `free` on the
already released block. -/
theorem C11_second_cleanup_frees_again :
    vectorized_cmrg_cleanup Gen.start .never_allocated
      = (Gen.start, .never_allocated, .no_free) ∧
    (vectorized_cmrg_init .scalar (some (fun _ => 0)) 2 12345 Gen.start).2 ≠ 0 ∧
    init_heap (some (fun _ => 0)) 2 .never_allocated = .allocated ∧
    (vectorized_cmrg_cleanup
        (vectorized_cmrg_init .scalar (some (fun _ => 0)) 2 12345 Gen.start).1
        (init_heap (some (fun _ => 0)) 2 .never_allocated)).2
      = (.released, .frees_live_block) ∧
    (vectorized_cmrg_cleanup
        (vectorized_cmrg_init .scalar (some (fun _ => 0)) 2 12345 Gen.start).1
        (init_heap (some (fun _ => 0)) 2 .never_allocated)).1.rstatv ≠ none ∧
    (vectorized_cmrg_cleanup
        (vectorized_cmrg_cleanup
          (vectorized_cmrg_init .scalar (some (fun _ => 0)) 2 12345 Gen.start).1
          (init_heap (some (fun _ => 0)) 2 .never_allocated)).1
        (vectorized_cmrg_cleanup
          (vectorized_cmrg_init .scalar (some (fun _ => 0)) 2 12345 Gen.start).1
          (init_heap (some (fun _ => 0)) 2 .never_allocated)).2.1).2
      = (.released, .frees_released_block) := by
  rw [init_alloc _ _ _ _ _ (by decide)]
  refine ⟨rfl, by decide, rfl, rfl, ?_, rfl⟩
  simp [vectorized_cmrg_cleanup, init_heap]

/-- Whatever initialisation succeeded with an allocation, two consecutive calls
of `vectorized_cmrg_cleanup` call `free` twice on the same block. -/
theorem cleanup_twice (b : Backend) (mem : Nat → Int) (n : Nat) (seed : Int) (G : Gen)
    (h : BufState) (hn : n ≠ 0) :
    (vectorized_cmrg_cleanup (vectorized_cmrg_init b (some mem) n seed G).1
        (init_heap (some mem) n h)).2 = (.released, .frees_live_block) ∧
    (vectorized_cmrg_cleanup
        (vectorized_cmrg_cleanup (vectorized_cmrg_init b (some mem) n seed G).1
          (init_heap (some mem) n h)).1
        (vectorized_cmrg_cleanup (vectorized_cmrg_init b (some mem) n seed G).1
          (init_heap (some mem) n h)).2.1).2 = (.released, .frees_released_block) := by
  rw [init_alloc _ _ _ _ _ hn]
  simp [vectorized_cmrg_cleanup, init_heap, hn]


/-! ### Iterated jumps -/

theorem jump_iterate_aux : ∀ (fuel : Nat) (PA PB : Mat3) (n : Nat), 1 ≤ n → n ≤ fuel →
    ∀ s : Fin 6 → Int, (jump PA PB)^[n] s
      = jump (Mat3.powAux 4294967087 fuel PA n) (Mat3.powAux 4294944443 fuel PB n) s := by
  intro fuel
  induction fuel with
  | zero =>
    intro PA PB n h1 h2
    omega
  | succ f ih =>
    intro PA PB n h1 h2 s
    have hsq : (jump PA PB)^[2]
        = jump (Mat3.mulMod 4294967087 PA PA) (Mat3.mulMod 4294944443 PB PB) := by
      funext t
      exact jump_comp PA PB PA PB t
    by_cases hn : n ≤ 1
    · have e : n = 1 := by omega
      subst e
      rfl
    · have hh1 : 1 ≤ n / 2 := by omega
      have hh2 : n / 2 ≤ f := by omega
      have hI := ih (Mat3.mulMod 4294967087 PA PA) (Mat3.mulMod 4294944443 PB PB) (n / 2) hh1 hh2
      rw [← hsq, ← Function.iterate_mul] at hI
      by_cases hp : n % 2 = 0
      · have e : n = 2 * (n / 2) := by omega
        simp only [Mat3.powAux, hn, hp, if_false, if_true]
        rw [← hI s, ← e]
      · have e : n = 2 * (n / 2) + 1 := by omega
        simp only [Mat3.powAux, hn, hp, if_false]
        have e2 : (2 * (n / 2)).succ = n := by omega
        rw [← jump_comp, ← hI s, ← Function.iterate_succ_apply' (jump PA PB), e2]

theorem jump_iterate (PA PB : Mat3) (n : Nat) (hn : 1 ≤ n) (s : Fin 6 → Int) :
    (jump PA PB)^[n] s
      = jump (Mat3.powMod 4294967087 PA n) (Mat3.powMod 4294944443 PB n) s :=
  jump_iterate_aux n PA PB n hn (Nat.le_refl n) s

theorem rskip_iterate_eq_jump (s : Fin 6 → Int) (h : ValidState s) (n : Nat) :
    __vectorized_cmrg_init_rskip^[n] s = (jump JUMP_A JUMP_B)^[n] s := by
  induction n with
  | zero => rfl
  | succ k ih =>
    rw [Function.iterate_succ_apply', Function.iterate_succ_apply', ← ih,
      rskip_eq_jump _ (rskip_iterate_valid s h k)]

set_option maxRecDepth 1000000 in
theorem powMod_JUMP_B_wrap :
    Mat3.powMod 4294944443 JUMP_B 715827882
      = ⟨2131084127, 1608257600, 3114808911, 406490105, 2131084127, 3215627498,
         807717001, 406490105, 3947851714⟩ := by decide

theorem rskip_wrap_values :
    (__vectorized_cmrg_init_rskip^[715827882] (fun _ => 12345)) 4 = 2074047402 ∧
    (__vectorized_cmrg_init_rskip^[715827882] (fun _ => 12345)) 5 = 1525432109 := by
  rw [rskip_iterate_eq_jump _ (valid_const 12345 (by decide)),
    jump_iterate _ _ _ (by decide), powMod_JUMP_B_wrap]
  constructor
  · rw [(jump_apply _ _ _).2.2.2.2.1]
    decide
  · rw [(jump_apply _ _ _).2.2.2.2.2]
    decide

/-! ### Buffer indices at the limits of 32-bit arithmetic -/

theorem group_in_range (b : Backend) (G0 x : Nat) (hx : x < G0)
    (hN : 6 * (G0 * NUM_ELEMENTS b) < 2147483648) :
    6 * NUM_ELEMENTS b * (x + 1) ≤ 2147483648 := by
  cases b
  · simp only [NUM_ELEMENTS_scalar] at *
    omega
  · simp only [NUM_ELEMENTS_sse] at *
    omega
  · simp only [NUM_ELEMENTS_avx] at *
    omega

theorem rand_at (b : Backend) (g base : Nat) (G : Gen) (buf : Nat → Int)
    (h : G.rstatv = some buf) (hv : vec_idx g = (base : Int)) :
    vectorized_cmrg_rand b g G
      = some ({ G with rstatv := some (store_group (NUM_ELEMENTS b) base
                  (vectorized_cmrg_rand_group G.rscale_vec
                    (load_group (NUM_ELEMENTS b) base buf)).1 buf) },
              (vectorized_cmrg_rand_group G.rscale_vec
                (load_group (NUM_ELEMENTS b) base buf)).2) := by
  have hn : ¬ ((base : Int) < 0) := by omega
  simp only [vectorized_cmrg_rand, h, hv, hn, if_false, Int.toNat_ofNat]

theorem wrap_count :
    (715827883 + NUM_ELEMENTS .scalar - 1) / NUM_ELEMENTS .scalar * NUM_ELEMENTS .scalar
      = 715827883 := by decide

theorem wrap_ceil :
    ⌈((715827883 : Nat) : ℚ) / ((NUM_ELEMENTS .scalar : Nat) : ℚ)⌉₊ * NUM_ELEMENTS .scalar
      = 715827883 := by
  rw [ceil_div_eq _ _ (NUM_ELEMENTS_pos _)]
  decide

theorem wrap_init_buffer (mem : Nat → Int) :
    ∃ buf, vectorized_cmrg_init .scalar (some mem) 715827883 12345 Gen.start
        = ({ rstatv := some buf, vec_cmrg_num_streams := 715827883, rscale_vec := RSCALE },
           715827883) ∧
      buf 0 = 2074047402 ∧ buf 1 = 1525432109 ∧ buf 2 = 12345 ∧ buf 3 = 12345 ∧
      buf 4 = 12345 ∧ buf 5 = 12345 := by
  have hlate : ∀ c : Fin 6, ∀ i2, 715827882 < i2 → i2 < 715827883 → ∀ c2 : Fin 6,
      state_idx .scalar i2 c2.val ≠ state_idx .scalar 715827882 c.val := by
    intro c i2 h1 h2
    omega
  have hearly : ∀ c : Nat, 2 ≤ c → c < 6 → ∀ i2, 0 < i2 → i2 < 715827883 → ∀ c2 : Fin 6,
      state_idx .scalar i2 c2.val ≠ c := by
    intro c hc1 hc2 i2 h1 h2 c2
    have := c2.isLt
    show (i2 * 6 + c2.val) % 4294967296 ≠ c
    by_cases hlt : i2 * 6 + c2.val < 4294967296
    · rw [Nat.mod_eq_of_lt hlt]
      omega
    · rw [Nat.mod_eq_sub_mod (by omega), Nat.mod_eq_of_lt (by omega)]
      omega
  have e4 : state_idx .scalar 715827882 (4 : Fin 6).val = 0 := by decide
  have e5 : state_idx .scalar 715827882 (5 : Fin 6).val = 1 := by decide
  have f2 : state_idx .scalar 0 (2 : Fin 6).val = 2 := by decide
  have f3 : state_idx .scalar 0 (3 : Fin 6).val = 3 := by decide
  have f4 : state_idx .scalar 0 (4 : Fin 6).val = 4 := by decide
  have f5 : state_idx .scalar 0 (5 : Fin 6).val = 5 := by decide
  have g4 := init_loop_last .scalar 715827883 mem (fun _ => 12345) 715827882 4 (by decide)
    (hlate 4)
  have g5 := init_loop_last .scalar 715827883 mem (fun _ => 12345) 715827882 5 (by decide)
    (hlate 5)
  have k2 := init_loop_last .scalar 715827883 mem (fun _ => 12345) 0 2 (by decide)
    (by rw [f2]; exact hearly 2 (by decide) (by decide))
  have k3 := init_loop_last .scalar 715827883 mem (fun _ => 12345) 0 3 (by decide)
    (by rw [f3]; exact hearly 3 (by decide) (by decide))
  have k4 := init_loop_last .scalar 715827883 mem (fun _ => 12345) 0 4 (by decide)
    (by rw [f4]; exact hearly 4 (by decide) (by decide))
  have k5 := init_loop_last .scalar 715827883 mem (fun _ => 12345) 0 5 (by decide)
    (by rw [f5]; exact hearly 5 (by decide) (by decide))
  rw [e4, rskip_wrap_values.1] at g4
  rw [e5, rskip_wrap_values.2] at g5
  rw [f2] at k2
  rw [f3] at k3
  rw [f4] at k4
  rw [f5] at k5
  refine ⟨(init_loop .scalar 715827883 mem (fun _ => 12345)).1, ?_, g4, g5, k2, k3, k4, k5⟩
  rw [init_alloc _ _ _ _ _ (by decide), wrap_count]
  rfl

theorem load_scalar (base : Nat) (buf : Nat → Int) (v : Fin 6 → Int)
    (h : ∀ k : Fin 6, buf (base + k.val) = v k) :
    load_group (NUM_ELEMENTS .scalar) base buf = fun k _ => v k := by
  funext k l
  have hl : l.val = 0 := by
    have := l.isLt
    simp only [NUM_ELEMENTS_scalar] at this
    omega
  unfold load_group
  rw [hl, NUM_ELEMENTS_scalar, Nat.mul_one, Nat.add_zero]
  exact h k

theorem out_ne_of_num_ne (a b : Int) (h : a ≠ b) : (a : ℚ) / 2 ^ 84 ≠ (b : ℚ) / 2 ^ 84 := by
  intro e
  have hpos : (2 : ℚ) ^ 84 ≠ 0 := by positivity
  have h2 : (a : ℚ) = (b : ℚ) := (div_left_inj' hpos).1 e
  exact h (by exact_mod_cast h2)

/-- C4 (as stated, refuted): in the scalar build with `n = 715827883` and seed
`12345` the initialisation succeeds, and the slot `state_idx(0, 0) = 0` of
stream 0 does not hold component 0 of the six-fold seed: the store of
component 4 of stream `715827882`, whose `uint32_t` index
`715827882*6 + 4 = 2^32` wraps to 0, has overwritten it with `2074047402`. -/
theorem C4_counterexample :
    (vectorized_cmrg_init .scalar (some (fun _ => 0)) 715827883 12345 Gen.start).2 ≠ 0 ∧
    0 < ⌈((715827883 : Nat) : ℚ) / ((NUM_ELEMENTS .scalar : Nat) : ℚ)⌉₊
          * NUM_ELEMENTS .scalar ∧
    state_idx .scalar 715827882 4 = state_idx .scalar 0 0 ∧
    ∃ buf, (vectorized_cmrg_init .scalar (some (fun _ => 0)) 715827883 12345
          Gen.start).1.rstatv = some buf ∧
      buf (state_idx .scalar 0 (0 : Fin 6).val) = 2074047402 ∧
      (__vectorized_cmrg_init_rskip^[0] (fun _ => 12345)) (0 : Fin 6) = 12345 ∧
      buf (state_idx .scalar 0 (0 : Fin 6).val)
        ≠ (__vectorized_cmrg_init_rskip^[0] (fun _ => 12345)) (0 : Fin 6) := by
  obtain ⟨buf, hinit, h0, _⟩ := wrap_init_buffer (fun _ => 0)
  have e0 : state_idx .scalar 0 (0 : Fin 6).val = 0 := by decide
  rw [hinit, wrap_ceil]
  refine ⟨Nat.succ_ne_zero _, by decide, by decide, buf, rfl, ?_, rfl, ?_⟩
  · rw [e0]
    exact h0
  · rw [e0, h0]
    decide

/-- C4 (amended): after a successful `vectorized_cmrg_init(n, seed)` with
`6 * N < 2^31` for `N = ceil(n/W)*W`, for every backend, every logical stream
`i < N` and every component `c < 6`, the buffer value at `state_idx(i, c)` is
component `c` of the state obtained by applying `__vectorized_cmrg_init_rskip`
exactly `i` times to the six-fold seed (so no later write of the loop has
overwritten it).  The first part is on the model of whole-number doubles; the
second part is the same statement for the store loop over any type of values
and any function in the place of `__vectorized_cmrg_init_rskip`, so that it
does not depend on the seed being a whole number. -/
theorem C4_init_buffer_contents (b : Backend) (alloc : Option (Nat → Int)) (n : Nat)
    (seed : Int) (G : Gen) (hret : (vectorized_cmrg_init b alloc n seed G).2 ≠ 0)
    (hN : 6 * (⌈(n : ℚ) / (NUM_ELEMENTS b : ℚ)⌉₊ * NUM_ELEMENTS b) < 2147483648)
    (i : Nat) (hi : i < ⌈(n : ℚ) / (NUM_ELEMENTS b : ℚ)⌉₊ * NUM_ELEMENTS b) (c : Fin 6) :
    (∃ buf, (vectorized_cmrg_init b alloc n seed G).1.rstatv = some buf ∧
      buf (state_idx b i c.val) = (__vectorized_cmrg_init_rskip^[i] (fun _ => seed)) c) ∧
    ∀ (α : Type) (skip : (Fin 6 → α) → Fin 6 → α) (mem : Nat → α) (x : α),
      (init_loop_over skip b (⌈(n : ℚ) / (NUM_ELEMENTS b : ℚ)⌉₊ * NUM_ELEMENTS b) mem
          (fun _ => x)).1 (state_idx b i c.val)
        = (skip^[i] (fun _ => x)) c := by
  obtain ⟨buf, h1, _, _, _, h5⟩ := init_buffer b alloc n seed G hret (by omega)
  exact ⟨⟨buf, h1, h5 i hi c⟩,
    fun α skip mem x => init_loop_over_get skip b _ mem _ i c hi (by omega)⟩

/-- Witness of the amended C4 on the test harness input (`n = 2`, seed
`12345`), 128-bit backend, stream 1, component 3. -/
theorem C4_init_buffer_contents_witness :
    (vectorized_cmrg_init .sse (some (fun _ => 0)) 2 12345 Gen.start).2 ≠ 0 ∧
    6 * (⌈((2 : Nat) : ℚ) / ((NUM_ELEMENTS .sse : Nat) : ℚ)⌉₊ * NUM_ELEMENTS .sse)
      < 2147483648 ∧
    1 < ⌈((2 : Nat) : ℚ) / ((NUM_ELEMENTS .sse : Nat) : ℚ)⌉₊ * NUM_ELEMENTS .sse ∧
    ∃ buf, (vectorized_cmrg_init .sse (some (fun _ => 0)) 2 12345 Gen.start).1.rstatv = some buf ∧
      buf (state_idx .sse 1 (3 : Fin 6).val)
        = (__vectorized_cmrg_init_rskip^[1] (fun _ => 12345)) 3 :=
  ⟨by rw [init_test_ret]; decide, by rw [ceil_test]; decide, by rw [ceil_test]; decide,
   (C4_init_buffer_contents .sse (some (fun _ => 0)) 2 12345 Gen.start
     (by rw [init_test_ret]; decide) (by rw [ceil_test]; decide) 1
     (by rw [ceil_test]; decide) 3).1⟩

set_option maxRecDepth 100000 in
/-- C5 (as stated, refuted): in the scalar build with `n = 715827883` and seed
`12345`, the first value produced for stream 0 is not the first output of the
kernel run from the six-fold seed: the stores of components 4 and 5 of stream
`715827882` went to the wrapped indices 0 and 1 and replaced the first two
state values of stream 0, so the call returns the scaled residue `855929039`
instead of `545508589`. -/
theorem C5_counterexample :
    ((0 : Int) ≤ 12345 ∧ (12345 : Int) < 4294944443) ∧
    (vectorized_cmrg_init .scalar (some (fun _ => 0)) 715827883 12345 Gen.start).2 ≠ 0 ∧
    0 < ⌈((715827883 : Nat) : ℚ) / ((NUM_ELEMENTS .scalar : Nat) : ℚ)⌉₊
          * NUM_ELEMENTS .scalar ∧
    ∃ G1 G2 out,
      run_calls .scalar []
        (vectorized_cmrg_init .scalar (some (fun _ => 0)) 715827883 12345 Gen.start).1
          = some G1 ∧
      vectorized_cmrg_rand .scalar (0 / NUM_ELEMENTS .scalar) G1 = some (G2, out) ∧
      out ⟨0 % NUM_ELEMENTS .scalar, Nat.mod_lt _ (NUM_ELEMENTS_pos .scalar)⟩
        ≠ (vectorized_cmrg_rand_group (W := 1) RSCALE
            ((fun st => (vectorized_cmrg_rand_group (W := 1) RSCALE st).1)^[1 - 1]
              (fun c _ => (__vectorized_cmrg_init_rskip^[0] (fun _ => 12345)) c))).2 0 := by
  obtain ⟨buf, hinit, h0, h1, h2, h3, h4, h5⟩ := wrap_init_buffer (fun _ => 0)
  rw [hinit, wrap_ceil]
  refine ⟨by decide, Nat.succ_ne_zero _, by decide, _, _, _, rfl,
    rand_some .scalar _ _ buf rfl (by decide), ?_⟩
  have hst := load_scalar (0 / NUM_ELEMENTS .scalar * 6) buf
    ![2074047402, 1525432109, 12345, 12345, 12345, 12345] (by
      intro k
      rcases fin6_cases k with rfl | rfl | rfl | rfl | rfl | rfl
      · exact h0
      · exact h1
      · exact h2
      · exact h3
      · exact h4
      · exact h5)
  simp only
  rw [hst]
  apply out_ne_of_num_ne
  simp only [vec_mult_frac]
  rw [core_z, core_z]
  decide

/-- C5 (amended): after `vectorized_cmrg_init(n, seed)` with a whole seed in
`[0, m2)` and `6 * N < 2^31` for `N = ceil(n/W)*W`, for every backend and every
logical stream `i < N`, the `k`-th value produced for stream `i` (lane
`i mod W` of the `k`-th call of `vectorized_cmrg_rand` on group `i / W`,
whatever calls on valid groups come in between) equals the `k`-th output of the
lane-width-1 kernel run from the state `rskip^i (seed, ..., seed)`; so the
per-stream sequence does not depend on `W`. -/
theorem C5_stream_outputs_match_scalar (b : Backend) (alloc : Option (Nat → Int)) (n : Nat)
    (seed : Int) (G : Gen) (hseed : 0 ≤ seed ∧ seed < 4294944443)
    (hret : (vectorized_cmrg_init b alloc n seed G).2 ≠ 0)
    (hN : 6 * (⌈(n : ℚ) / (NUM_ELEMENTS b : ℚ)⌉₊ * NUM_ELEMENTS b) < 2147483648)
    (calls : List Nat) (hcalls : ∀ x ∈ calls, x < (vectorized_cmrg_init b alloc n seed G).2)
    (i : Nat) (hi : i < ⌈(n : ℚ) / (NUM_ELEMENTS b : ℚ)⌉₊ * NUM_ELEMENTS b)
    (k : Nat) (hk : calls.count (i / NUM_ELEMENTS b) + 1 = k) :
    ∃ G1 G2 out,
      run_calls b calls (vectorized_cmrg_init b alloc n seed G).1 = some G1 ∧
      vectorized_cmrg_rand b (i / NUM_ELEMENTS b) G1 = some (G2, out) ∧
      out ⟨i % NUM_ELEMENTS b, Nat.mod_lt _ (NUM_ELEMENTS_pos b)⟩
        = (vectorized_cmrg_rand_group (W := 1) RSCALE
            ((fun st => (vectorized_cmrg_rand_group (W := 1) RSCALE st).1)^[k - 1]
              (fun c _ => (__vectorized_cmrg_init_rskip^[i] (fun _ => seed)) c))).2 0 := by
  obtain ⟨buf, h1, h2, _, h4, h5⟩ := init_buffer b alloc n seed G hret (by omega)
  have hgi : i / NUM_ELEMENTS b < ⌈(n : ℚ) / (NUM_ELEMENTS b : ℚ)⌉₊ :=
    (Nat.div_lt_iff_lt_mul (NUM_ELEMENTS_pos b)).2 hi
  have hgb := group_in_range b _ _ hgi hN
  obtain ⟨buf2, hr1, hr2⟩ := run_calls_state b calls _ buf h1
    (fun x hx => group_in_range b _ x (by rw [← h4]; exact hcalls x hx) hN)
  subst hk
  have hmod := Nat.mod_lt i (NUM_ELEMENTS_pos b)
  have hsplit : i / NUM_ELEMENTS b * NUM_ELEMENTS b + i % NUM_ELEMENTS b = i :=
    Nat.div_add_mod' i (NUM_ELEMENTS b)
  have hst := hr2 (i / NUM_ELEMENTS b) (i % NUM_ELEMENTS b) hmod (by omega)
  rw [hsplit, stream_state_init b buf seed _ i h5 hi, h2] at hst
  refine ⟨_, _, _, hr1, rand_some b _ _ buf2 rfl (group_bound b _ hgb), ?_⟩
  simp only
  rw [group_lane_out, h2]
  have hl := load_group_stream b (i / NUM_ELEMENTS b) buf2 ⟨i % NUM_ELEMENTS b, hmod⟩
    (by omega)
  simp only at hl
  rw [hl, hsplit, hst]
  rfl

/-- Witness of the amended C5 on the test harness input: 128-bit backend,
`n = 2`, seed `12345`, stream 1, the fifth call on group 0. -/
theorem C5_stream_outputs_match_scalar_witness :
    ((0 : Int) ≤ 12345 ∧ (12345 : Int) < 4294944443) ∧
    (vectorized_cmrg_init .sse (some (fun _ => 0)) 2 12345 Gen.start).2 ≠ 0 ∧
    6 * (⌈((2 : Nat) : ℚ) / ((NUM_ELEMENTS .sse : Nat) : ℚ)⌉₊ * NUM_ELEMENTS .sse)
      < 2147483648 ∧
    (∀ x ∈ [0, 0, 0, 0],
      x < (vectorized_cmrg_init .sse (some (fun _ => 0)) 2 12345 Gen.start).2) ∧
    1 < ⌈((2 : Nat) : ℚ) / ((NUM_ELEMENTS .sse : Nat) : ℚ)⌉₊ * NUM_ELEMENTS .sse ∧
    [0, 0, 0, 0].count (1 / NUM_ELEMENTS .sse) + 1 = 5 ∧
    ∃ G1 G2 out,
      run_calls .sse [0, 0, 0, 0]
        (vectorized_cmrg_init .sse (some (fun _ => 0)) 2 12345 Gen.start).1 = some G1 ∧
      vectorized_cmrg_rand .sse (1 / NUM_ELEMENTS .sse) G1 = some (G2, out) ∧
      out ⟨1 % NUM_ELEMENTS .sse, Nat.mod_lt _ (NUM_ELEMENTS_pos .sse)⟩
        = (vectorized_cmrg_rand_group (W := 1) RSCALE
            ((fun st => (vectorized_cmrg_rand_group (W := 1) RSCALE st).1)^[5 - 1]
              (fun c _ => (__vectorized_cmrg_init_rskip^[1] (fun _ => 12345)) c))).2 0 :=
  ⟨by decide, by rw [init_test_ret]; decide, by rw [ceil_test]; decide,
   by rw [init_test_ret]; decide, by rw [ceil_test]; decide, by decide,
   C5_stream_outputs_match_scalar .sse (some (fun _ => 0)) 2 12345 Gen.start (by decide)
     (by rw [init_test_ret]; decide) (by rw [ceil_test]; decide) [0, 0, 0, 0]
     (by rw [init_test_ret]; decide) 1 (by rw [ceil_test]; decide) 5 (by decide)⟩

set_option maxRecDepth 1000000 in
theorem powMod_JUMP_A_wrap :
    Mat3.powMod 4294967087 JUMP_A 715827883
      = ⟨1854472100, 2167657600, 2640928413, 842191532, 1991823638, 2167657600,
         3857156251, 26409211, 1991823638⟩ := by decide

theorem rskip_wrap_value_A :
    (__vectorized_cmrg_init_rskip^[715827883] (fun _ => 386471)) 1 = 4294952363 := by
  rw [rskip_iterate_eq_jump _ (valid_const 386471 (by decide)),
    jump_iterate _ _ _ (by decide), powMod_JUMP_A_wrap, (jump_apply _ _ _).2.1]
  decide

theorem wrap_count_next :
    (715827884 + NUM_ELEMENTS .scalar - 1) / NUM_ELEMENTS .scalar * NUM_ELEMENTS .scalar
      = 715827884 := by decide

theorem wrap_init_slot (mem : Nat → Int) :
    ∃ buf, vectorized_cmrg_init .scalar (some mem) 715827884 386471 Gen.start
        = ({ rstatv := some buf, vec_cmrg_num_streams := 715827884, rscale_vec := RSCALE },
           715827884) ∧
      buf 3 = 4294952363 := by
  have e1 : state_idx .scalar 715827883 (1 : Fin 6).val = 3 := by decide
  have g1 := init_loop_last .scalar 715827884 mem (fun _ => 386471) 715827883 1 (by decide)
    (by
      intro i2 h1 h2
      omega)
  rw [e1, rskip_wrap_value_A] at g1
  refine ⟨(init_loop .scalar 715827884 mem (fun _ => 386471)).1, ?_, g1⟩
  rw [init_alloc _ _ _ _ _ (by decide), wrap_count_next]
  rfl

theorem group_lt_div (b : Backend) (N g : Nat) (hg : g < N / NUM_ELEMENTS b)
    (hN : 6 * N < 2147483648) : 6 * NUM_ELEMENTS b * (g + 1) ≤ 2147483648 := by
  have h1 : (g + 1) * NUM_ELEMENTS b ≤ N :=
    (Nat.le_div_iff_mul_le (NUM_ELEMENTS_pos b)).1 hg
  cases b
  · simp only [NUM_ELEMENTS_scalar] at *
    omega
  · simp only [NUM_ELEMENTS_sse] at *
    omega
  · simp only [NUM_ELEMENTS_avx] at *
    omega

/-- C8 (as stated, refuted).  First, with `n = 1` and the whole-number seed `-1`
the initialisation succeeds and stores `-1` in slot `state_idx(0, 0)`, a
negative state value.  Second, also for a seed in `[0, m2)` a slot can end up
with a value that is not below its modulus: in the scalar build with
`n = 715827884` and seed `386471`, component 1 of stream `715827883` (an
`m1`-residue, `4294952363`) is stored at the wrapped index
`(715827883*6 + 1) mod 2^32 = 3 = state_idx(0, 3)`, a slot of component 3,
whose modulus is `m2 = 4294944443`. -/
theorem C8_counterexample :
    ((vectorized_cmrg_init .scalar (some (fun _ => 0)) 1 (-1) Gen.start).2 ≠ 0 ∧
      ∃ buf, (vectorized_cmrg_init .scalar (some (fun _ => 0)) 1 (-1) Gen.start).1.rstatv
          = some buf ∧
        buf (state_idx .scalar 0 (0 : Fin 6).val) = -1 ∧
        ¬ (0 ≤ buf (state_idx .scalar 0 (0 : Fin 6).val))) ∧
    (((0 : Int) ≤ 386471 ∧ (386471 : Int) < 4294944443) ∧
      (vectorized_cmrg_init .scalar (some (fun _ => 0)) 715827884 386471 Gen.start).2 ≠ 0 ∧
      state_idx .scalar 715827883 1 = state_idx .scalar 0 3 ∧
      ∃ buf, (vectorized_cmrg_init .scalar (some (fun _ => 0)) 715827884 386471
            Gen.start).1.rstatv = some buf ∧
        buf (state_idx .scalar 0 (3 : Fin 6).val) = 4294952363 ∧
        ¬ (buf (state_idx .scalar 0 (3 : Fin 6).val) < modulus 3)) := by
  constructor
  · have hret : (vectorized_cmrg_init .scalar (some (fun _ => 0)) 1 (-1) Gen.start).2 ≠ 0 := by
      rw [init_alloc _ _ _ _ _ (by decide)]
      decide
    obtain ⟨buf, h1, _, _, _, h5⟩ := init_buffer .scalar (some (fun _ => 0)) 1 (-1) Gen.start
      hret (by rw [ceil_div_eq _ _ (NUM_ELEMENTS_pos _)]; decide)
    have h0 := h5 0 (by rw [ceil_div_eq _ _ (NUM_ELEMENTS_pos _)]; decide) 0
    refine ⟨hret, buf, h1, ?_, ?_⟩
    · rw [h0]
      rfl
    · rw [h0]
      decide
  · obtain ⟨buf, hinit, h3⟩ := wrap_init_slot (fun _ => 0)
    have e3 : state_idx .scalar 0 (3 : Fin 6).val = 3 := by decide
    rw [hinit]
    refine ⟨by decide, Nat.succ_ne_zero _, by decide, buf, rfl, ?_, ?_⟩
    · rw [e3]
      exact h3
    · rw [e3, h3]
      decide

/-- C8 (amended): for every backend, every `n` with `6 * N < 2^31`
(`N = ceil(n/W)*W`) on which the initialisation succeeds and every whole seed
with `0 ≤ seed < m2`, every state value stored in the buffer is non-negative
and strictly below its modulus (`m1` for components 0..2, `m2` for components
3..5).  Without the bound on `n` the values stored are still in range for the
component they were computed for: every slot that is written holds component
`c2` of `rskip^i2(seed x 6)` for the last store `(i2, c2)` to its index, and
that value is non-negative and below the modulus of `c2`. -/
theorem C8_init_stores_valid_states (b : Backend) (alloc : Option (Nat → Int)) (n : Nat)
    (seed : Int) (G : Gen) (hseed : 0 ≤ seed ∧ seed < 4294944443)
    (hret : (vectorized_cmrg_init b alloc n seed G).2 ≠ 0) :
    ∃ buf, (vectorized_cmrg_init b alloc n seed G).1.rstatv = some buf ∧
      (6 * (⌈(n : ℚ) / (NUM_ELEMENTS b : ℚ)⌉₊ * NUM_ELEMENTS b) < 2147483648 →
        ∀ i, i < ⌈(n : ℚ) / (NUM_ELEMENTS b : ℚ)⌉₊ * NUM_ELEMENTS b → ∀ c : Fin 6,
          0 ≤ buf (state_idx b i c.val) ∧ buf (state_idx b i c.val) < modulus c) ∧
      (∀ i, i < ⌈(n : ℚ) / (NUM_ELEMENTS b : ℚ)⌉₊ * NUM_ELEMENTS b → ∀ c : Fin 6,
        ∃ i2, i2 < ⌈(n : ℚ) / (NUM_ELEMENTS b : ℚ)⌉₊ * NUM_ELEMENTS b ∧
          ∃ c2 : Fin 6, state_idx b i2 c2.val = state_idx b i c.val ∧
            buf (state_idx b i c.val)
              = (__vectorized_cmrg_init_rskip^[i2] (fun _ => seed)) c2 ∧
            0 ≤ buf (state_idx b i c.val) ∧ buf (state_idx b i c.val) < modulus c2) := by
  obtain ⟨buf, h1, h2⟩ := init_written b alloc n seed G hret
  refine ⟨buf, h1, ?_, ?_⟩
  · intro hN i hi c
    obtain ⟨buf2, h3, _, _, _, h5⟩ := init_buffer b alloc n seed G hret (by omega)
    have e : buf2 = buf := Option.some.inj (h3.symm.trans h1)
    subst e
    rw [h5 i hi c]
    exact rskip_iterate_valid _ (valid_const seed hseed) i c
  · intro i hi c
    obtain ⟨i2, hi2, c2, hc2, hv⟩ := h2 _ ⟨i, hi, c, rfl⟩
    refine ⟨i2, hi2, c2, hc2, hv, ?_⟩
    rw [hv]
    exact rskip_iterate_valid _ (valid_const seed hseed) i2 c2

/-- Witness of the amended C8 on the test harness input (`n = 2`, seed `12345`). -/
theorem C8_init_stores_valid_states_witness :
    ((0 : Int) ≤ 12345 ∧ (12345 : Int) < 4294944443) ∧
    (vectorized_cmrg_init .sse (some (fun _ => 0)) 2 12345 Gen.start).2 ≠ 0 ∧
    6 * (⌈((2 : Nat) : ℚ) / ((NUM_ELEMENTS .sse : Nat) : ℚ)⌉₊ * NUM_ELEMENTS .sse)
      < 2147483648 ∧
    ∃ buf, (vectorized_cmrg_init .sse (some (fun _ => 0)) 2 12345 Gen.start).1.rstatv = some buf ∧
      ∀ i, i < ⌈((2 : Nat) : ℚ) / ((NUM_ELEMENTS .sse : Nat) : ℚ)⌉₊ * NUM_ELEMENTS .sse →
        ∀ c : Fin 6, 0 ≤ buf (state_idx .sse i c.val) ∧ buf (state_idx .sse i c.val) < modulus c := by
  have hb : 6 * (⌈((2 : Nat) : ℚ) / ((NUM_ELEMENTS .sse : Nat) : ℚ)⌉₊ * NUM_ELEMENTS .sse)
      < 2147483648 := by
    rw [ceil_test]
    decide
  obtain ⟨buf, h1, h2, _⟩ := C8_init_stores_valid_states .sse (some (fun _ => 0)) 2 12345
    Gen.start (by decide) (by rw [init_test_ret]; decide)
  exact ⟨by decide, by rw [init_test_ret]; decide, hb, buf, h1, h2 hb⟩

/-- C9 (as stated, refuted): in the scalar build, for group `g = 715827882`,
lane 0 and component 4 the macro gives `state_idx(g*W + l, c) = 0`, not
`6*W*g + c*W + l = 2^32`, because the index is formed in `uint32_t`; it is the
index of component 0 of stream 0, so the map is not injective on
`[0, 715827883) x [0, 6)`; and `vec_idx(357913942)`, an `int` product, is
`-2147483644`, not `6 * 357913942`. -/
theorem C9_counterexample :
    (0 < NUM_ELEMENTS .scalar ∧ 4 < 6) ∧
    state_idx .scalar (715827882 * NUM_ELEMENTS .scalar + 0) 4 = 0 ∧
    6 * NUM_ELEMENTS .scalar * 715827882 + 4 * NUM_ELEMENTS .scalar + 0 = 4294967296 ∧
    state_idx .scalar (715827882 * NUM_ELEMENTS .scalar + 0) 4
      ≠ 6 * NUM_ELEMENTS .scalar * 715827882 + 4 * NUM_ELEMENTS .scalar + 0 ∧
    state_idx .scalar 715827882 4 = state_idx .scalar 0 0 ∧
    vec_idx 357913942 = -2147483644 ∧
    vec_idx 357913942 ≠ ((357913942 * 6 : Nat) : Int) := by
  decide

/-- C9 (amended): for every backend (lane width `W`), every number of groups
`G` with `6 * N < 2^31` for `N = G*W`, every group `g < G`, lane `l < W` and
component `c < 6`, `state_idx(g*W + l, c) = 6*W*g + c*W + l`; the scalar macro
is `s*6 + c` and agrees with the generic formula (for `s < N`); the map is a
bijection from `[0,N) x [0,6)` onto `[0, 6N)`; the lanes of one component of one
group are adjacent; and the slots of group `g` are exactly the block
`[6*W*g, 6*W*(g+1))`, addressed by the kernel as vectors `vec_idx(g) + c`,
where `vec_idx(g) = 6*g`.  Without the bound the macro yields the generic
formula reduced modulo `2^32`. -/
theorem C9_state_idx_layout (b : Backend) (G g l c : Nat) (hl : l < NUM_ELEMENTS b)
    (hc : c < 6) (hg : g < G) (hG : 6 * (G * NUM_ELEMENTS b) < 2147483648) :
    state_idx b (g * NUM_ELEMENTS b + l) c = 6 * NUM_ELEMENTS b * g + c * NUM_ELEMENTS b + l ∧
    (∀ s, s < G * NUM_ELEMENTS .scalar → 6 * (G * NUM_ELEMENTS .scalar) < 2147483648 →
      state_idx .scalar s c = s * 6 + c) ∧
    (∀ s, s < G * NUM_ELEMENTS b → state_idx b s c
      = s % NUM_ELEMENTS b + 6 * NUM_ELEMENTS b * (s / NUM_ELEMENTS b) + c * NUM_ELEMENTS b) ∧
    (∀ s, state_idx b s c
      = (s % NUM_ELEMENTS b + 6 * NUM_ELEMENTS b * (s / NUM_ELEMENTS b) + c * NUM_ELEMENTS b)
          % 4294967296) ∧
    (∀ i k, i < G * NUM_ELEMENTS b → k < 6 → state_idx b i k < 6 * (G * NUM_ELEMENTS b)) ∧
    (∀ i k i2 k2, i < G * NUM_ELEMENTS b → k < 6 → i2 < G * NUM_ELEMENTS b → k2 < 6 →
      state_idx b i k = state_idx b i2 k2 → i = i2 ∧ k = k2) ∧
    (∀ p, p < 6 * (G * NUM_ELEMENTS b) →
      ∃ i k, i < G * NUM_ELEMENTS b ∧ k < 6 ∧ state_idx b i k = p) ∧
    (l + 1 < NUM_ELEMENTS b →
      state_idx b (g * NUM_ELEMENTS b + (l + 1)) c
        = state_idx b (g * NUM_ELEMENTS b + l) c + 1) ∧
    (6 * NUM_ELEMENTS b * g ≤ state_idx b (g * NUM_ELEMENTS b + l) c ∧
      state_idx b (g * NUM_ELEMENTS b + l) c < 6 * NUM_ELEMENTS b * (g + 1)) ∧
    (∀ p, 6 * NUM_ELEMENTS b * g ≤ p → p < 6 * NUM_ELEMENTS b * (g + 1) →
      ∃ l2 c2, l2 < NUM_ELEMENTS b ∧ c2 < 6 ∧ state_idx b (g * NUM_ELEMENTS b + l2) c2 = p) ∧
    vec_idx g = ((6 * g : Nat) : Int) ∧
    ((state_idx b (g * NUM_ELEMENTS b + l) c : Nat) : Int)
      = (vec_idx g + (c : Int)) * (NUM_ELEMENTS b : Int) + (l : Int) := by
  have hW := NUM_ELEMENTS_pos b
  have hcW : c * NUM_ELEMENTS b + NUM_ELEMENTS b ≤ 6 * NUM_ELEMENTS b := by nlinarith
  have hG2 : 6 * (G * NUM_ELEMENTS b) ≤ 4294967296 := by omega
  have hgb : 6 * NUM_ELEMENTS b * (g + 1) ≤ 2147483648 := group_in_range b G g hg hG
  have hgb2 : 6 * NUM_ELEMENTS b * (g + 1) ≤ 4294967296 := by omega
  have hv : vec_idx g = ((g * 6 : Nat) : Int) := vec_idx_small g (group_bound b g hgb)
  refine ⟨state_idx_group b g l c hl hc hgb2, ?_, fun s hs => state_idx_below b G s c hs hc hG2,
    fun s => state_idx_generic b s c,
    fun i k hi hk => state_idx_lt b G i k hi hk hG2,
    fun i k i2 k2 hi hk hi2 hk2 h => state_idx_inj b G i k i2 k2 hi hi2 hk hk2 hG2 h,
    fun p hp => state_idx_surj b G p hp hG2, ?_, ?_, ?_, ?_, ?_⟩
  · intro s hs hGs
    simp only [NUM_ELEMENTS_scalar] at hs hGs
    show (s * 6 + c) % 4294967296 = s * 6 + c
    omega
  · intro hl1
    rw [state_idx_group b g (l + 1) c hl1 hc hgb2, state_idx_group b g l c hl hc hgb2]
    omega
  · rw [state_idx_group b g l c hl hc hgb2]
    constructor
    · omega
    · have : 6 * NUM_ELEMENTS b * (g + 1) = 6 * NUM_ELEMENTS b * g + 6 * NUM_ELEMENTS b := by
        ring
      omega
  · intro p h1 h2
    refine ⟨(p - 6 * NUM_ELEMENTS b * g) % NUM_ELEMENTS b,
      (p - 6 * NUM_ELEMENTS b * g) / NUM_ELEMENTS b, Nat.mod_lt _ hW, ?_, ?_⟩
    · rw [Nat.div_lt_iff_lt_mul hW]
      have : 6 * NUM_ELEMENTS b * (g + 1) = 6 * NUM_ELEMENTS b * g + 6 * NUM_ELEMENTS b := by
        ring
      omega
    · have hc2 : (p - 6 * NUM_ELEMENTS b * g) / NUM_ELEMENTS b < 6 := by
        rw [Nat.div_lt_iff_lt_mul hW]
        have : 6 * NUM_ELEMENTS b * (g + 1)
            = 6 * NUM_ELEMENTS b * g + 6 * NUM_ELEMENTS b := by ring
        omega
      rw [state_idx_group b g _ _ (Nat.mod_lt _ hW) hc2 hgb2]
      have := Nat.div_add_mod (p - 6 * NUM_ELEMENTS b * g) (NUM_ELEMENTS b)
      have e : NUM_ELEMENTS b * ((p - 6 * NUM_ELEMENTS b * g) / NUM_ELEMENTS b)
          = (p - 6 * NUM_ELEMENTS b * g) / NUM_ELEMENTS b * NUM_ELEMENTS b := Nat.mul_comm _ _
      omega
  · rw [hv, Nat.mul_comm]
  · rw [state_idx_vec b g l c hl hc hgb2, hv]
    push_cast
    ring

/-- Witness of the amended C9 at the 256-bit backend: 3 groups, group 2, lane 1,
component 4. -/
theorem C9_state_idx_layout_witness :
    1 < NUM_ELEMENTS .avx ∧ 4 < 6 ∧ 2 < 3 ∧ 6 * (3 * NUM_ELEMENTS .avx) < 2147483648 ∧
    state_idx .avx (2 * NUM_ELEMENTS .avx + 1) 4
      = 6 * NUM_ELEMENTS .avx * 2 + 4 * NUM_ELEMENTS .avx + 1 :=
  ⟨by decide, by decide, by decide, by decide,
   (C9_state_idx_layout .avx 3 2 1 4 (by decide) (by decide) (by decide) (by decide)).1⟩

set_option maxRecDepth 100000 in
/-- C10 (as stated, refuted): in the scalar build, on a buffer for
`N = 715827884` streams that holds `12345` everywhere, the call
`vectorized_cmrg_rand(715827883)` forms the `int` offset
`715827883 * 6 = 2^32 + 2`, which wraps to `2`; the call then works on the
doubles `2..7` and changes position 4, component 4 of stream 0, which lies
outside `[6*g, 6*(g+1))`. -/
theorem C10_counterexample :
    (⟨some (fun _ => 12345), 715827884, RSCALE⟩ : Gen).rstatv = some (fun _ => 12345) ∧
    715827883 < 715827884 / NUM_ELEMENTS .scalar ∧
    vec_idx 715827883 = 2 ∧
    state_idx .scalar (0 * NUM_ELEMENTS .scalar + 0) 4 = 4 ∧
    ∃ G2 out buf2, vectorized_cmrg_rand .scalar 715827883
          ⟨some (fun _ => 12345), 715827884, RSCALE⟩ = some (G2, out) ∧
      G2.rstatv = some buf2 ∧
      4 < 6 * NUM_ELEMENTS .scalar * 715827883 ∧
      buf2 4 = 3023790853 ∧
      buf2 4 ≠ (fun _ => (12345 : Int)) 4 := by
  have hv : vec_idx 715827883 = ((2 : Nat) : Int) := by decide
  have hval : store_group (NUM_ELEMENTS .scalar) 2
      (vectorized_cmrg_rand_group RSCALE
        (load_group (NUM_ELEMENTS .scalar) 2 (fun _ => (12345 : Int)))).1
      (fun _ => 12345) 4 = 3023790853 := by
    have h := store_group_inside (NUM_ELEMENTS .scalar) 2
      (vectorized_cmrg_rand_group RSCALE
        (load_group (NUM_ELEMENTS .scalar) 2 (fun _ => (12345 : Int)))).1
      (fun _ => 12345) 2 ⟨0, by decide⟩
    have e : (2 + (2 : Fin 6).val) * NUM_ELEMENTS .scalar
        + (⟨0, by decide⟩ : Fin (NUM_ELEMENTS .scalar)).val = 4 := by decide
    rw [e] at h
    rw [h]
    show (rand_group_core _).1 2 _ = _
    rw [core_state_2]
    decide
  refine ⟨rfl, by decide, by decide, by decide, _, _, _,
    rand_at .scalar 715827883 2 _ (fun _ => 12345) rfl hv, rfl, by decide, hval, ?_⟩
  rw [hval]
  decide

/-- C10 (amended): for every backend, every stream count `N` with
`6 * N < 2^31` and every group `g < N / W`, a call `vectorized_cmrg_rand(g)` on
an allocated buffer leaves every buffer position outside
`[6*W*g, 6*W*(g+1))` unchanged; in particular it changes no state value of any
stream of another group `g2 < N / W`. -/
theorem C10_rand_frame (b : Backend) (N g : Nat) (G : Gen) (buf : Nat → Int)
    (h : G.rstatv = some buf) (hN : 6 * N < 2147483648) (hg : g < N / NUM_ELEMENTS b) :
    ∃ G2 out buf2, vectorized_cmrg_rand b g G = some (G2, out) ∧ G2.rstatv = some buf2 ∧
      (∀ p, (p < 6 * NUM_ELEMENTS b * g ∨ 6 * NUM_ELEMENTS b * (g + 1) ≤ p) →
        buf2 p = buf p) ∧
      (∀ g2 l c, g2 ≠ g → g2 < N / NUM_ELEMENTS b → l < NUM_ELEMENTS b → c < 6 →
        buf2 (state_idx b (g2 * NUM_ELEMENTS b + l) c)
          = buf (state_idx b (g2 * NUM_ELEMENTS b + l) c)) := by
  have hgb := group_lt_div b N g hg hN
  refine ⟨_, _, _, rand_some b g G buf h (group_bound b g hgb), rfl, ?_, ?_⟩
  · intro p hp
    apply store_group_outside
    have e1 : g * 6 * NUM_ELEMENTS b = 6 * NUM_ELEMENTS b * g := by ring
    have e2 : (g * 6 + 6) * NUM_ELEMENTS b = 6 * NUM_ELEMENTS b * (g + 1) := by ring
    rw [e1, e2]
    exact hp
  · intro g2 l c hne hg2 hl hc
    have hgb2 := group_lt_div b N g2 hg2 hN
    have := congrFun (congrFun (stream_state_rand_other b g g2 hne
      (vectorized_cmrg_rand_group G.rscale_vec
        (load_group (NUM_ELEMENTS b) (g * 6) buf)).1 buf l hl (by omega)) ⟨c, hc⟩) (0 : Fin 1)
    exact this

/-- Witness of the amended C10: the 128-bit backend, 4 streams, group 1, on a
buffer holding `12345` everywhere. -/
theorem C10_rand_frame_witness :
    (⟨some (fun _ => 12345), 4, RSCALE⟩ : Gen).rstatv = some (fun _ => 12345) ∧
    6 * 4 < 2147483648 ∧ 1 < 4 / NUM_ELEMENTS .sse ∧
    ∃ G2 out buf2, vectorized_cmrg_rand .sse 1 ⟨some (fun _ => 12345), 4, RSCALE⟩
        = some (G2, out) ∧ G2.rstatv = some buf2 ∧
      (∀ p, (p < 6 * NUM_ELEMENTS .sse * 1 ∨ 6 * NUM_ELEMENTS .sse * (1 + 1) ≤ p) →
        buf2 p = (fun _ => (12345 : Int)) p) ∧
      (∀ g2 l c, g2 ≠ 1 → g2 < 4 / NUM_ELEMENTS .sse → l < NUM_ELEMENTS .sse → c < 6 →
        buf2 (state_idx .sse (g2 * NUM_ELEMENTS .sse + l) c)
          = (fun _ => (12345 : Int)) (state_idx .sse (g2 * NUM_ELEMENTS .sse + l) c)) :=
  ⟨rfl, by decide, by decide,
   C10_rand_frame .sse 4 1 ⟨some (fun _ => 12345), 4, RSCALE⟩ (fun _ => 12345) rfl
     (by decide) (by decide)⟩

end VectorizedCMRG
